import Mathlib

/-!
# Broadcasting engine of the tofu tensor library

A shallow embedding of `src/tl_tensor_broadcast.c`:

* `tl_tensor_isbroadcastable`     shape compatibility check
* `tl_compute_broadcast_dims`     output shape derivation
* `tl_compute_broadcast_strides`  per-operand stride derivation
* `tl_tensor_broadcast_to`        materialisation of a broadcast view
* `tl_tensor_elew_broadcast`      elementwise operation with broadcasting

C `int` values are embedded as `Int`.  The products of extents that the code
forms in an `int` (the running product `stride`, the length of a new array)
wrap around at 32 bits, see `wrap_int`; a well-formed array has a `len` that
an `int` holds.  Loop counters that only count upwards from zero to such a
`len` are `Nat`.  Element storage lives in an explicit heap of blocks; an
element is one value of an abstract type, so the heap follows a copy of
`dsize` bytes only between arrays of one dtype, see `tl_outcome.raw`.  The
scratch buffers obtained from `tl_alloc` (strides, coordinates) are plain
lists.
-/

namespace Tofu

/-! ## Data model -/

/-- Maximum rank, `#define TL_MAXDIM 8` of `tl_tensor.h`. -/
def TL_MAXDIM : Int := 8

/-- Largest value of a C `int` (32 bits). -/
def INT_MAX : Int := 2147483647

/-- The value that an `int` holds after an arithmetic result `x`: `x` wrapped
around into the 32-bit two's complement range. -/
def wrap_int (x : Int) : Int := (x + 2147483648) % 4294967296 - 2147483648

/-- The array descriptor `struct tl_tensor` of `tl_tensor.h`.  `data` is the
address of the storage block in the heap.  The fields `owner` and
`backend_data` are not used by the broadcasting code and are left out. -/
structure tl_tensor where
  dtype : Nat
  len : Int
  ndim : Int
  dims : List Int
  data : Nat
deriving DecidableEq, Repr

/-- Element storage: a list of blocks, a block is addressed by its position. -/
abbrev Heap (α : Type) := List (List α)

/-- Outcome of a call of one of the two exported operations: the process is
terminated by a failed `assert`, or the call returns `NULL`, or it returns a
descriptor.  The heap after the call is part of the outcome.  The outcome
`raw dst` is the return of the descriptor `dst` after a copy loop that moved
elements of another dtype into its storage, `tl_size_of(src->dtype)` bytes
at a time: the call did not fail and the storage of `dst` was written, but
what it holds are not elements of the dtype of `dst`, and the heap of
elements cannot express it. -/
inductive tl_outcome (α : Type) where
  | abort : tl_outcome α
  | null (h : Heap α) : tl_outcome α
  | ok (dst : tl_tensor) (h : Heap α) : tl_outcome α
  | raw (dst : tl_tensor) : tl_outcome α
deriving DecidableEq, Repr

/-- The parts of the dtype dispatch table (`tl_type.h`, not part of the
sources at hand) that the broadcasting code uses, taken as parameters:
the zero element written by `tl_tensor_zeros`, and `tl_elew_getfunc`, which
maps a dtype tag to the typed implementation of the elementwise operators.
Operator tags range over a type `Op` of valid tags, so `tl_check_elew_op`
holds by typing. -/
structure tl_dispatch (α Op : Type) where
  zero : α
  tl_elew_getfunc : Nat → α → α → Op → α

/-- C array read `a[p]` with an `int` index. -/
def rd (a : List Int) (p : Int) : Int := a.getD p.toNat 0

/-- Read of element `idx` of the storage block at address `p`
(`tl_padd(p, idx, dsize)` followed by a load). -/
def tl_load {α : Type} [Inhabited α] (h : Heap α) (p : Nat) (idx : Int) : α :=
  (h.getD p []).getD idx.toNat default

/-- Write of element `idx` of the storage block at address `p`. -/
def tl_store {α : Type} (h : Heap α) (p : Nat) (idx : Int) (v : α) : Heap α :=
  h.set p ((h.getD p []).set idx.toNat v)

/-- The element copy `tl_passign(dst, di, src, si, dsize)` between two blocks
of one dtype, `dsize` being the byte width of that dtype: element `si` of the
source block replaces element `di` of the destination block. -/
def tl_passign {α : Type} [Inhabited α] (h : Heap α) (dstp : Nat) (di : Int)
    (srcp : Nat) (si : Int) : Heap α :=
  tl_store h dstp di (tl_load h srcp si)

/-- Modelled from the spec: `tl_compute_length` (declared in `tl_util.h`, body
not in the sources at hand); the length of an array is the product of its
extents, returned as an `int`. -/
def tl_compute_length (ndim : Int) (dims : List Int) : Int :=
  wrap_int (dims.take ndim.toNat).prod

/-- Modelled from the spec: `tl_check_tensor` (from `tl_tensor_internal.h`, not
in the sources at hand); a well-formed array has storage, a rank between 1 and
`TL_MAXDIM`, positive extents, and a length equal to the product of its
extents, all of them addressable.  The field `len` is an `int`, so the
product it equals is at most `INT_MAX`.  The storage of an array is the
leading `len` elements of the block its `data` pointer addresses: the whole
block for a self-owned array, possibly a part of its owner's block for a
view. -/
def tl_check_tensor {α : Type} (h : Heap α) (t : tl_tensor) : Bool :=
  decide (0 < t.ndim) && decide (t.ndim ≤ TL_MAXDIM) &&
  decide (t.dims.length = t.ndim.toNat) &&
  t.dims.all (fun d => decide (0 < d)) &&
  decide (t.len = (t.dims.take t.ndim.toNat).prod) && decide (t.len ≤ INT_MAX) &&
  decide (t.data < h.length) &&
  decide (t.len ≤ ((h.getD t.data []).length : Int))

/-- Modelled from the spec: `tl_tensor_zeros` (declared in `tl_tensor.h`, body
not in the sources at hand); allocates a self-owned, zero-filled array from
rank, extents and dtype.  The new storage block is appended to the heap. -/
def tl_tensor_zeros {α Op : Type} (E : tl_dispatch α Op) (h : Heap α) (ndim : Int)
    (dims : List Int) (dtype : Nat) : tl_tensor × Heap α :=
  ({ dtype := dtype, len := tl_compute_length ndim dims, ndim := ndim,
     dims := dims.take ndim.toNat, data := h.length },
   h ++ [List.replicate (tl_compute_length ndim dims).toNat E.zero])

/-- Modelled from the spec: the loop of `tl_tensor_coords` (declared in
`tl_tensor.h`, body not in the sources at hand); row-major decode of a linear
index, the last axis varying fastest.  The first argument is `i + 1` for the
axis `i` being written.  The index is never negative and the extents are
positive, where `/` and `%` agree with the truncating operators of C. -/
def tl_tensor_coords_loop (dims : List Int) : Nat → Int → List Int → List Int
  | 0, _, coords => coords
  | i + 1, index, coords =>
      tl_tensor_coords_loop dims i (index / dims.getD i 0) (coords.set i (index % dims.getD i 0))

/-- Modelled from the spec: `tl_tensor_coords(t, index, coords)`, see
`tl_tensor_coords_loop`. -/
def tl_tensor_coords (t : tl_tensor) (index : Int) (coords : List Int) : List Int :=
  tl_tensor_coords_loop t.dims t.ndim.toNat index coords

/-! ## Shape compatibility checker -/

/-- The loop of `tl_tensor_isbroadcastable` over the remaining values of `i`;
a mismatch returns 0 at once, the end of the loop returns 1. -/
def tl_tensor_isbroadcastable_loop (t1 t2 : tl_tensor) : List Nat → Int
  | [] => 1
  | i :: rest =>
      let pos1 : Int := t1.ndim - 1 - i
      let pos2 : Int := t2.ndim - 1 - i
      let dim1 : Int := if pos1 ≥ 0 then rd t1.dims pos1 else 1
      let dim2 : Int := if pos2 ≥ 0 then rd t2.dims pos2 else 1
      if dim1 ≠ dim2 ∧ dim1 ≠ 1 ∧ dim2 ≠ 1 then 0
      else tl_tensor_isbroadcastable_loop t1 t2 rest

/-- The function `tl_tensor_isbroadcastable(t1, t2)`. -/
def tl_tensor_isbroadcastable (t1 t2 : tl_tensor) : Int :=
  let max_ndim : Int := if t1.ndim > t2.ndim then t1.ndim else t2.ndim
  tl_tensor_isbroadcastable_loop t1 t2 (List.range max_ndim.toNat)

/-! ## Output shape deriver -/

/-- One iteration of the loop of `tl_compute_broadcast_dims`. -/
def tl_compute_broadcast_dims_body (t1 t2 : tl_tensor) (max_ndim : Int)
    (out_dims : List Int) (i : Nat) : List Int :=
  let pos1 : Int := t1.ndim - 1 - i
  let pos2 : Int := t2.ndim - 1 - i
  let dim1 : Int := if pos1 ≥ 0 then rd t1.dims pos1 else 1
  let dim2 : Int := if pos2 ≥ 0 then rd t2.dims pos2 else 1
  out_dims.set (max_ndim - 1 - i).toNat (if dim1 > dim2 then dim1 else dim2)

/-- The function `tl_compute_broadcast_dims(t1, t2, &out_ndim, out_dims)`: the
result is the pair of `*out_ndim` and the buffer `out_dims` after the call. -/
def tl_compute_broadcast_dims (t1 t2 : tl_tensor) (out_dims : List Int) : Int × List Int :=
  let max_ndim : Int := if t1.ndim > t2.ndim then t1.ndim else t2.ndim
  (max_ndim,
   (List.range max_ndim.toNat).foldl (tl_compute_broadcast_dims_body t1 t2 max_ndim) out_dims)

/-! ## Broadcast stride deriver -/

/-- The second loop of `tl_compute_broadcast_strides`, `i` running from
`out_ndim - 1` down to 0.  The first argument is `i + 1`; the state is the
buffer `strides` and the running product `int stride`, which wraps around
when `stride *= t->dims[pos]` leaves the range of `int`. -/
def tl_compute_broadcast_strides_loop (t : tl_tensor) (out_ndim : Int) (out_dims : List Int) :
    Nat → List Int → Int → List Int
  | 0, strides, _ => strides
  | i + 1, strides, stride =>
      let pos : Int := t.ndim - (out_ndim - i)
      if pos ≥ 0 then
        let strides1 : List Int :=
          if rd t.dims pos = out_dims.getD i 0 then strides.set i stride
          else if rd t.dims pos = 1 then strides.set i 0
          else strides
        tl_compute_broadcast_strides_loop t out_ndim out_dims i strides1
          (wrap_int (stride * rd t.dims pos))
      else
        tl_compute_broadcast_strides_loop t out_ndim out_dims i strides stride

/-- The function `tl_compute_broadcast_strides(t, out_ndim, out_dims, strides)`:
the buffer `strides` after the call.  The first loop sets the `out_ndim`
entries to 0, the second one derives the strides from the right. -/
def tl_compute_broadcast_strides (t : tl_tensor) (out_ndim : Int) (out_dims : List Int)
    (strides : List Int) : List Int :=
  let strides0 : List Int :=
    (List.range out_ndim.toNat).foldl (fun s i => s.set i 0) strides
  tl_compute_broadcast_strides_loop t out_ndim out_dims out_ndim.toNat strides0 1

/-! ## Broadcast materialiser -/

/-- The validation loop of `tl_tensor_broadcast_to` over the remaining values
of `i`: `false` when the loop leaves the function with `return NULL`, `true`
when it runs to its end. -/
def tl_tensor_broadcast_to_check (src : tl_tensor) (ndim : Int) (dims : List Int) :
    List Nat → Bool
  | [] => true
  | i :: rest =>
      let src_pos : Int := src.ndim - (ndim - i)
      if src_pos ≥ 0 ∧ rd src.dims src_pos ≠ 1 ∧ rd src.dims src_pos ≠ dims.getD i 0 then false
      else tl_tensor_broadcast_to_check src ndim dims rest

/-- The inner loop of `tl_tensor_broadcast_to`: the source index of an output
coordinate vector; only positive strides contribute. -/
def tl_tensor_broadcast_to_index (ndim : Int) (dst_coords src_strides : List Int) : Int :=
  (List.range ndim.toNat).foldl
    (fun src_idx j =>
      if src_strides.getD j 0 > 0 then src_idx + dst_coords.getD j 0 * src_strides.getD j 0
      else src_idx) 0

/-- One iteration of the copy loop of `tl_tensor_broadcast_to`; the state is
the heap and the buffer `dst_coords`. -/
def tl_tensor_broadcast_to_body {α : Type} [Inhabited α] (src dst : tl_tensor) (ndim : Int)
    (src_strides : List Int) (st : Heap α × List Int) (i : Nat) : Heap α × List Int :=
  let dst_coords := tl_tensor_coords dst i st.2
  let src_idx := tl_tensor_broadcast_to_index ndim dst_coords src_strides
  (tl_passign st.1 dst.data i src.data src_idx, dst_coords)

/-- The function `tl_tensor_broadcast_to(src, dst, ndim, dims)`; `dst = none`
is the `NULL` destination.  Buffers from `tl_alloc` start zero-filled.  No
statement of the function looks at the dtype of a supplied destination: the
copy loop moves `dsize = tl_size_of(src->dtype)` bytes per element in either
case.  For a destination of the source's dtype these are the elements that
`tl_passign` copies; for a destination of another dtype the function returns
it all the same, with the outcome `raw`. -/
def tl_tensor_broadcast_to {α Op : Type} [Inhabited α] (E : tl_dispatch α Op) (h : Heap α)
    (src : tl_tensor) (dst : Option tl_tensor) (ndim : Int) (dims : List Int) : tl_outcome α :=
  if !tl_check_tensor h src then .abort
  else if !(decide (ndim > 0) && decide (ndim ≤ TL_MAXDIM)) then .abort
  else if !(List.range ndim.toNat).all (fun i => decide (dims.getD i 0 > 0)) then .abort
  else if !tl_tensor_broadcast_to_check src ndim dims (List.range ndim.toNat) then .null h
  else
    let created : Option (tl_tensor × Heap α) :=
      match dst with
      | none => some (tl_tensor_zeros E h ndim dims src.dtype)
      | some d =>
          if decide (d.ndim = ndim) &&
              (List.range ndim.toNat).all (fun i => decide (d.dims.getD i 0 = dims.getD i 0))
          then some (d, h) else none
    match created with
    | none => .abort
    | some (dst, h1) =>
        let src_strides :=
          tl_compute_broadcast_strides src ndim dims (List.replicate ndim.toNat 0)
        let st := (List.range dst.len.toNat).foldl
          (tl_tensor_broadcast_to_body src dst ndim src_strides)
          (h1, List.replicate ndim.toNat 0)
        if dst.dtype = src.dtype then .ok dst st.1 else .raw dst

/-! ## Broadcasting elementwise engine -/

/-- The inner loop of `tl_tensor_elew_broadcast`: the pair of source indices
`(src1_idx, src2_idx)` of an output coordinate vector. -/
def tl_tensor_elew_broadcast_index (out_ndim : Int)
    (dst_coords src1_strides src2_strides : List Int) : Int × Int :=
  (List.range out_ndim.toNat).foldl
    (fun idx j =>
      (idx.1 + dst_coords.getD j 0 * src1_strides.getD j 0,
       idx.2 + dst_coords.getD j 0 * src2_strides.getD j 0)) (0, 0)

/-- One iteration of the main loop of `tl_tensor_elew_broadcast`; the state is
the heap and the buffer `dst_coords`. -/
def tl_tensor_elew_broadcast_body {α Op : Type} [Inhabited α] (elew : α → α → Op → α)
    (src1 src2 dst : tl_tensor) (out_ndim : Int) (src1_strides src2_strides : List Int)
    (elew_op : Op) (st : Heap α × List Int) (i : Nat) : Heap α × List Int :=
  let dst_coords := tl_tensor_coords dst i st.2
  let idx := tl_tensor_elew_broadcast_index out_ndim dst_coords src1_strides src2_strides
  let dst_val := elew (tl_load st.1 src1.data idx.1) (tl_load st.1 src2.data idx.2) elew_op
  (tl_store st.1 dst.data i dst_val, dst_coords)

/-- The function `tl_tensor_elew_broadcast(src1, src2, dst, elew_op)`;
`dst = none` is the `NULL` destination.  Buffers from `tl_alloc` start
zero-filled. -/
def tl_tensor_elew_broadcast {α Op : Type} [Inhabited α] (E : tl_dispatch α Op) (h : Heap α)
    (src1 src2 : tl_tensor) (dst : Option tl_tensor) (elew_op : Op) : tl_outcome α :=
  if !tl_check_tensor h src1 then .abort
  else if !tl_check_tensor h src2 then .abort
  else if !decide (src1.dtype = src2.dtype) then .abort
  else if tl_tensor_isbroadcastable src1 src2 = 0 then .null h
  else
    let od := tl_compute_broadcast_dims src1 src2 (List.replicate TL_MAXDIM.toNat 0)
    let out_ndim := od.1
    let out_dims := od.2
    let created : Option (tl_tensor × Heap α) :=
      match dst with
      | none => some (tl_tensor_zeros E h out_ndim out_dims src1.dtype)
      | some d =>
          if decide (d.ndim = out_ndim) &&
              (List.range out_ndim.toNat).all
                (fun i => decide (d.dims.getD i 0 = out_dims.getD i 0)) &&
              decide (d.dtype = src1.dtype)
          then some (d, h) else none
    match created with
    | none => .abort
    | some (dst, h1) =>
        let src1_strides :=
          tl_compute_broadcast_strides src1 out_ndim out_dims (List.replicate out_ndim.toNat 0)
        let src2_strides :=
          tl_compute_broadcast_strides src2 out_ndim out_dims (List.replicate out_ndim.toNat 0)
        let elew := E.tl_elew_getfunc src1.dtype
        let st := (List.range dst.len.toNat).foldl
          (tl_tensor_elew_broadcast_body elew src1 src2 dst out_ndim src1_strides src2_strides
            elew_op)
          (h1, List.replicate out_ndim.toNat 0)
        .ok dst st.1

/-! ## Vocabulary of the specification -/

/-- A shape padded on the left with implicit extents 1 up to rank `n`: the
alignment of an extent sequence at its trailing axis. -/
def padShape (n : Nat) (s : List Int) : List Int :=
  List.replicate (n - s.length) 1 ++ s

/-- Two aligned extents are compatible iff they are equal or at least one of
them is 1. -/
def extentsCompatible (a b : Int) : Prop := a = b ∨ a = 1 ∨ b = 1

/-- Broadcast compatibility in the words of the specification: both extent
sequences are aligned at the trailing axis, a missing leading position counts
as extent 1, and every aligned pair is compatible. -/
def broadcastCompatible (s1 s2 : List Int) : Prop :=
  ∀ j, j < max s1.length s2.length →
    extentsCompatible ((padShape (max s1.length s2.length) s1).getD j 0)
      ((padShape (max s1.length s2.length) s2).getD j 0)

/-- The broadcast shape in the words of the specification: rank is the larger
rank, every extent is the larger one of the aligned pair. -/
def broadcastShape (s1 s2 : List Int) : List Int :=
  List.zipWith max (padShape (max s1.length s2.length) s1)
    (padShape (max s1.length s2.length) s2)

/-- Row-major linear offset of a coordinate vector in a shape: every
coordinate is weighted by the product of the extents of the more minor
axes. -/
def rowMajorOffset : List Int → List Int → Int
  | _ :: ds, c :: cs => c * ds.prod + rowMajorOffset ds cs
  | _, _ => 0

/-- The coordinate vector at which an operand of shape `s` is read for the
output coordinate vector `c`: the leading axes the operand does not have are
dropped, and the coordinate is 0 on every axis where the extent is 1. -/
def operandCoords (s c : List Int) : List Int :=
  List.zipWith (fun d x => if d = 1 then 0 else x) s (c.drop (c.length - s.length))

/-- A shape as the claims quantify over it: the rank is at least 1, the
descriptor holds one extent per axis, and every extent is positive. -/
def wfShape (t : tl_tensor) : Prop :=
  0 < t.ndim ∧ t.dims.length = t.ndim.toNat ∧ ∀ d ∈ t.dims, 0 < d

/-- A shape `s` can be broadcast to the target shape `D`: its rank does not
exceed the target rank, and each of its extents, aligned at the trailing axis,
is 1 or equals the target extent. -/
def broadcastableTo (s D : List Int) : Prop :=
  s.length ≤ D.length ∧
  ∀ p, p < s.length → s.getD p 0 = 1 ∨ s.getD p 0 = D.getD (D.length - s.length + p) 0

/-- Every axis of the source shape `s` matches the target shape `D`: both
extent sequences are aligned at the trailing axis, a missing leading position
on either side counts as extent 1, and every source extent is 1 or equals the
target extent at its position. -/
def sourceAxesMatch (s D : List Int) : Prop :=
  ∀ j, j < max s.length D.length →
    (padShape (max s.length D.length) s).getD j 0 = 1 ∨
    (padShape (max s.length D.length) s).getD j 0 =
      (padShape (max s.length D.length) D).getD j 0

/-- A coordinate vector `c` lies in the shape `s`. -/
def coordsIn (s c : List Int) : Prop :=
  c.length = s.length ∧ ∀ j, j < s.length → 0 ≤ c.getD j 0 ∧ c.getD j 0 < s.getD j 0


/-- The extent `dim1` (resp. `dim2`) that iteration `i` of the loops of
`tl_tensor_isbroadcastable` and `tl_compute_broadcast_dims` reads for an
operand: its extent `i` axes from the right, or 1 past its leading axis. -/
def alignedExtent (t : tl_tensor) (i : Nat) : Int :=
  if t.ndim - 1 - (i : Int) ≥ 0 then rd t.dims (t.ndim - 1 - i) else 1

/-- The value that iteration `i` of the main loop of
`tl_tensor_elew_broadcast` stores at index `i` of the destination when the
operands are read from the heap `h`. -/
def elew_value {α Op : Type} [Inhabited α] (elew : α → α → Op → α) (h : Heap α)
    (src1 src2 dst : tl_tensor) (out_ndim : Int) (src1_strides src2_strides : List Int)
    (elew_op : Op) (i : Nat) : α :=
  let dst_coords := tl_tensor_coords dst i (List.replicate dst.dims.length 0)
  let idx := tl_tensor_elew_broadcast_index out_ndim dst_coords src1_strides src2_strides
  elew (tl_load h src1.data idx.1) (tl_load h src2.data idx.2) elew_op

/-- The value that iteration `i` of the copy loop of `tl_tensor_broadcast_to`
stores at index `i` of the destination when the source is read from the heap
`h`. -/
def broadcast_to_value {α : Type} [Inhabited α] (h : Heap α) (src dst : tl_tensor)
    (ndim : Int) (src_strides : List Int) (i : Nat) : α :=
  let dst_coords := tl_tensor_coords dst i (List.replicate dst.dims.length 0)
  tl_load h src.data (tl_tensor_broadcast_to_index ndim dst_coords src_strides)

/-- The pair `(src1_idx, src2_idx)` that iteration `i` of the main loop of
`tl_tensor_elew_broadcast` computes, the coordinate buffer holding `buf`
before the iteration. -/
def elew_source_indices (src1 src2 dst : tl_tensor) (i : Nat) (buf : List Int) : Int × Int :=
  let od := tl_compute_broadcast_dims src1 src2 (List.replicate TL_MAXDIM.toNat 0)
  tl_tensor_elew_broadcast_index od.1 (tl_tensor_coords dst i buf)
    (tl_compute_broadcast_strides src1 od.1 od.2 (List.replicate od.1.toNat 0))
    (tl_compute_broadcast_strides src2 od.1 od.2 (List.replicate od.1.toNat 0))

/-- The index `src_idx` that iteration `i` of the copy loop of
`tl_tensor_broadcast_to` computes, the coordinate buffer holding `buf` before
the iteration. -/
def broadcast_to_source_index (src dst : tl_tensor) (ndim : Int) (dims : List Int) (i : Nat)
    (buf : List Int) : Int :=
  tl_tensor_broadcast_to_index ndim (tl_tensor_coords dst i buf)
    (tl_compute_broadcast_strides src ndim dims (List.replicate ndim.toNat 0))

/-- Plain index-wise application in the words of the specification, for
operands of one shape (the contract of `tl_tensor_elew`, declared in
`tl_tensor.h`): element `i` of the result is the operator applied to element
`i` of the first operand and element `i` of the second. -/
def indexwise_value {α Op : Type} [Inhabited α] (elew : α → α → Op → α) (h : Heap α)
    (src1 src2 : tl_tensor) (elew_op : Op) (i : Nat) : α :=
  elew (tl_load h src1.data i) (tl_load h src2.data i) elew_op

/-! ## Auxiliary facts on buffers -/

theorem getD_set_self {β : Type} (l : List β) (i : Nat) (v d : β) (hi : i < l.length) :
    (l.set i v).getD i d = v := by
  simp [List.getD_eq_getElem?_getD, List.getElem?_set, hi]

theorem getD_set_other {β : Type} (l : List β) (i j : Nat) (v d : β) (hij : i ≠ j) :
    (l.set i v).getD j d = l.getD j d := by
  simp [List.getD_eq_getElem?_getD, List.getElem?_set, hij]

theorem padShape_length (n : Nat) (s : List Int) (hs : s.length ≤ n) :
    (padShape n s).length = n := by
  simp [padShape]; omega

theorem padShape_getD_lt (n : Nat) (s : List Int) (j : Nat) (hj : j < n - s.length) :
    (padShape n s).getD j 0 = 1 := by
  unfold padShape
  rw [List.getD_append _ _ _ _ (by simpa using hj)]
  rw [List.getD_eq_getElem _ _ (by simpa using hj)]
  simp

theorem padShape_getD_ge (n : Nat) (s : List Int) (j : Nat) (hj : n - s.length ≤ j) :
    (padShape n s).getD j 0 = s.getD (j - (n - s.length)) 0 := by
  unfold padShape
  rw [List.getD_append_right _ _ _ _ (by simpa using hj)]
  simp


theorem wfShape_ndim (t : tl_tensor) (h : wfShape t) : t.ndim = (t.dims.length : Int) := by
  obtain ⟨h0, h1, _⟩ := h
  rw [h1]; omega

theorem alignedExtent_eq_padShape (t : tl_tensor) (h : wfShape t) (n i : Nat)
    (hn : t.dims.length ≤ n) (hi : i < n) :
    alignedExtent t i = (padShape n t.dims).getD (n - 1 - i) 0 := by
  have hr := wfShape_ndim t h
  unfold alignedExtent rd
  by_cases hc : i < t.dims.length
  · have : t.ndim - 1 - (i : Int) ≥ 0 := by omega
    rw [if_pos this, padShape_getD_ge n t.dims (n - 1 - i) (by omega)]
    congr 1
    omega
  · have : ¬ (t.ndim - 1 - (i : Int) ≥ 0) := by omega
    rw [if_neg this, padShape_getD_lt n t.dims (n - 1 - i) (by omega)]

/-! ## Shape compatibility checker -/

theorem isbroadcastable_loop_cons (t1 t2 : tl_tensor) (i : Nat) (rest : List Nat) :
    tl_tensor_isbroadcastable_loop t1 t2 (i :: rest) =
      if alignedExtent t1 i ≠ alignedExtent t2 i ∧ alignedExtent t1 i ≠ 1 ∧
          alignedExtent t2 i ≠ 1 then 0
      else tl_tensor_isbroadcastable_loop t1 t2 rest := rfl

theorem isbroadcastable_loop_values (t1 t2 : tl_tensor) (l : List Nat) :
    tl_tensor_isbroadcastable_loop t1 t2 l = 0 ∨ tl_tensor_isbroadcastable_loop t1 t2 l = 1 := by
  induction l with
  | nil => right; rfl
  | cons i rest ih =>
    rw [isbroadcastable_loop_cons]
    by_cases hc : alignedExtent t1 i ≠ alignedExtent t2 i ∧ alignedExtent t1 i ≠ 1 ∧
        alignedExtent t2 i ≠ 1
    · rw [if_pos hc]; left; rfl
    · rw [if_neg hc]; exact ih

theorem isbroadcastable_loop_eq_one (t1 t2 : tl_tensor) (l : List Nat) :
    tl_tensor_isbroadcastable_loop t1 t2 l = 1 ↔
      ∀ i ∈ l, extentsCompatible (alignedExtent t1 i) (alignedExtent t2 i) := by
  induction l with
  | nil => simp [tl_tensor_isbroadcastable_loop]
  | cons i rest ih =>
    rw [isbroadcastable_loop_cons]
    simp only [List.mem_cons, forall_eq_or_imp]
    by_cases hc : alignedExtent t1 i ≠ alignedExtent t2 i ∧ alignedExtent t1 i ≠ 1 ∧
        alignedExtent t2 i ≠ 1
    · rw [if_pos hc]
      constructor
      · intro h; exact absurd h (by decide)
      · rintro ⟨hk, _⟩
        unfold extentsCompatible at hk
        tauto
    · rw [if_neg hc, ih]
      constructor
      · intro h
        refine ⟨?_, h⟩
        unfold extentsCompatible
        tauto
      · exact fun h => h.2

theorem max_ndim_toNat (t1 t2 : tl_tensor) (h1 : wfShape t1) (h2 : wfShape t2) :
    (if t1.ndim > t2.ndim then t1.ndim else t2.ndim).toNat = max t1.dims.length t2.dims.length := by
  have e1 := wfShape_ndim t1 h1
  have e2 := wfShape_ndim t2 h2
  split <;> omega

theorem isbroadcastable_iff_aligned (t1 t2 : tl_tensor) (h1 : wfShape t1) (h2 : wfShape t2) :
    tl_tensor_isbroadcastable t1 t2 = 1 ↔ broadcastCompatible t1.dims t2.dims := by
  unfold tl_tensor_isbroadcastable
  simp only []
  rw [max_ndim_toNat t1 t2 h1 h2, isbroadcastable_loop_eq_one]
  unfold broadcastCompatible
  constructor
  · intro h j hj
    have := h (max t1.dims.length t2.dims.length - 1 - j) (by simp [List.mem_range]; omega)
    rw [alignedExtent_eq_padShape t1 h1 (max t1.dims.length t2.dims.length) _
        (le_max_left _ _) (by omega),
      alignedExtent_eq_padShape t2 h2 (max t1.dims.length t2.dims.length) _
        (le_max_right _ _) (by omega)] at this
    have e : max t1.dims.length t2.dims.length - 1 -
        (max t1.dims.length t2.dims.length - 1 - j) = j := by omega
    rwa [e] at this
  · intro h i hi
    have hi' : i < max t1.dims.length t2.dims.length := by simpa [List.mem_range] using hi
    rw [alignedExtent_eq_padShape t1 h1 (max t1.dims.length t2.dims.length) _
        (le_max_left _ _) hi',
      alignedExtent_eq_padShape t2 h2 (max t1.dims.length t2.dims.length) _
        (le_max_right _ _) hi']
    exact h _ (by omega)

theorem isbroadcastable_values (t1 t2 : tl_tensor) :
    tl_tensor_isbroadcastable t1 t2 = 0 ∨ tl_tensor_isbroadcastable t1 t2 = 1 :=
  isbroadcastable_loop_values t1 t2
    (List.range (if t1.ndim > t2.ndim then t1.ndim else t2.ndim).toNat)

/-- C2: for shapes of rank at least 1 with positive extents,
`tl_tensor_isbroadcastable` returns 1 exactly when, after aligning both extent
sequences at the trailing axis with missing leading positions counted as 1,
every aligned pair of extents is equal or has a member equal to 1; otherwise
it returns 0. -/
theorem isbroadcastable_correct (t1 t2 : tl_tensor) (h1 : wfShape t1) (h2 : wfShape t2) :
    (tl_tensor_isbroadcastable t1 t2 = 1 ↔ broadcastCompatible t1.dims t2.dims) ∧
    (¬ broadcastCompatible t1.dims t2.dims → tl_tensor_isbroadcastable t1 t2 = 0) := by
  refine ⟨isbroadcastable_iff_aligned t1 t2 h1 h2, fun hn => ?_⟩
  rcases isbroadcastable_values t1 t2 with h | h
  · exact h
  · exact absurd ((isbroadcastable_iff_aligned t1 t2 h1 h2).mp h) hn

theorem isbroadcastable_correct_witness :
    wfShape ⟨0, 12, 2, [3, 4], 0⟩ ∧ wfShape ⟨0, 8, 2, [2, 4], 1⟩ ∧
    ((tl_tensor_isbroadcastable ⟨0, 12, 2, [3, 4], 0⟩ ⟨0, 8, 2, [2, 4], 1⟩ = 1 ↔
        broadcastCompatible [3, 4] [2, 4]) ∧
      (¬ broadcastCompatible [3, 4] [2, 4] →
        tl_tensor_isbroadcastable ⟨0, 12, 2, [3, 4], 0⟩ ⟨0, 8, 2, [2, 4], 1⟩ = 0)) :=
  ⟨by simp [wfShape], by simp [wfShape],
    isbroadcastable_correct ⟨0, 12, 2, [3, 4], 0⟩ ⟨0, 8, 2, [2, 4], 1⟩
      (by simp [wfShape]) (by simp [wfShape])⟩

/-- C3: compatibility is symmetric,
`tl_tensor_isbroadcastable(A, B) == tl_tensor_isbroadcastable(B, A)` for every
pair of descriptors. -/
theorem isbroadcastable_symm (t1 t2 : tl_tensor) :
    tl_tensor_isbroadcastable t1 t2 = tl_tensor_isbroadcastable t2 t1 := by
  have hmax : (if t1.ndim > t2.ndim then t1.ndim else t2.ndim) =
      (if t2.ndim > t1.ndim then t2.ndim else t1.ndim) := by
    split <;> split <;> omega
  have hloop : ∀ l : List Nat,
      tl_tensor_isbroadcastable_loop t1 t2 l = tl_tensor_isbroadcastable_loop t2 t1 l := by
    intro l
    rcases isbroadcastable_loop_values t1 t2 l with a | a
    · rcases isbroadcastable_loop_values t2 t1 l with b | b
      · rw [a, b]
      · rw [isbroadcastable_loop_eq_one] at b
        have : tl_tensor_isbroadcastable_loop t1 t2 l = 1 := by
          rw [isbroadcastable_loop_eq_one]
          intro i hi
          have := b i hi
          unfold extentsCompatible at *
          tauto
        omega
    · rw [a]
      symm
      rw [isbroadcastable_loop_eq_one] at a ⊢
      intro i hi
      have := a i hi
      unfold extentsCompatible at *
      tauto
  unfold tl_tensor_isbroadcastable
  simp only []
  rw [hmax, hloop]


/-! ## Output shape deriver -/

theorem broadcast_dims_body_eq (t1 t2 : tl_tensor) (max_ndim : Int) (out_dims : List Int)
    (i : Nat) :
    tl_compute_broadcast_dims_body t1 t2 max_ndim out_dims i =
      out_dims.set (max_ndim - 1 - i).toNat
        (if alignedExtent t1 i > alignedExtent t2 i then alignedExtent t1 i
         else alignedExtent t2 i) := rfl

theorem broadcast_dims_fold_length (t1 t2 : tl_tensor) (max_ndim : Int) (buf : List Int)
    (k : Nat) :
    ((List.range k).foldl (tl_compute_broadcast_dims_body t1 t2 max_ndim) buf).length =
      buf.length := by
  induction k with
  | zero => rfl
  | succ k ih =>
    rw [List.range_succ, List.foldl_append]
    simp [broadcast_dims_body_eq, ih]

theorem broadcast_dims_fold_getD (t1 t2 : tl_tensor) (n : Nat) (buf : List Int)
    (hbuf : n ≤ buf.length) (k : Nat) (hk : k ≤ n) (j : Nat) :
    ((List.range k).foldl (tl_compute_broadcast_dims_body t1 t2 (n : Int)) buf).getD j 0 =
      if n - k ≤ j ∧ j < n then
        max (alignedExtent t1 (n - 1 - j)) (alignedExtent t2 (n - 1 - j))
      else buf.getD j 0 := by
  induction k with
  | zero =>
    have : ¬ (n - 0 ≤ j ∧ j < n) := by omega
    rw [if_neg this]; rfl
  | succ k ih =>
    rw [List.range_succ, List.foldl_append]
    simp only [List.foldl_cons, List.foldl_nil]
    rw [broadcast_dims_body_eq]
    have hidx : ((n : Int) - 1 - (k : Int)).toNat = n - 1 - k := by omega
    rw [hidx]
    by_cases hj : j = n - 1 - k
    · subst hj
      rw [getD_set_self _ _ _ _ (by rw [broadcast_dims_fold_length]; omega)]
      have : n - (k + 1) ≤ n - 1 - k ∧ n - 1 - k < n := by omega
      rw [if_pos this]
      have e : n - 1 - (n - 1 - k) = k := by omega
      rw [e]
      split
      · rw [max_eq_left]; omega
      · rw [max_eq_right]; omega
    · rw [getD_set_other _ _ _ _ _ (Ne.symm hj), ih (by omega)]
      by_cases hc : n - k ≤ j ∧ j < n
      · have : n - (k + 1) ≤ j ∧ j < n := by omega
        rw [if_pos hc, if_pos this]
      · have : ¬ (n - (k + 1) ≤ j ∧ j < n) := by omega
        rw [if_neg hc, if_neg this]

theorem broadcastShape_length (s1 s2 : List Int) :
    (broadcastShape s1 s2).length = max s1.length s2.length := by
  unfold broadcastShape
  rw [List.length_zipWith, padShape_length _ _ (le_max_left _ _),
    padShape_length _ _ (le_max_right _ _)]
  simp

theorem broadcastShape_getD (s1 s2 : List Int) (j : Nat) (hj : j < max s1.length s2.length) :
    (broadcastShape s1 s2).getD j 0 =
      max ((padShape (max s1.length s2.length) s1).getD j 0)
        ((padShape (max s1.length s2.length) s2).getD j 0) := by
  have h1 := padShape_length (max s1.length s2.length) s1 (le_max_left _ _)
  have h2 := padShape_length (max s1.length s2.length) s2 (le_max_right _ _)
  rw [List.getD_eq_getElem _ _ (by rw [broadcastShape_length]; exact hj),
    List.getD_eq_getElem _ _ (by rw [h1]; exact hj),
    List.getD_eq_getElem _ _ (by rw [h2]; exact hj)]
  simp [broadcastShape]

theorem broadcast_dims_getD (t1 t2 : tl_tensor) (h1 : wfShape t1) (h2 : wfShape t2)
    (buf : List Int) (hbuf : max t1.dims.length t2.dims.length ≤ buf.length) (j : Nat)
    (hj : j < max t1.dims.length t2.dims.length) :
    (tl_compute_broadcast_dims t1 t2 buf).2.getD j 0 =
      max ((padShape (max t1.dims.length t2.dims.length) t1.dims).getD j 0)
        ((padShape (max t1.dims.length t2.dims.length) t2.dims).getD j 0) := by
  have hn := max_ndim_toNat t1 t2 h1 h2
  have hM : (if t1.ndim > t2.ndim then t1.ndim else t2.ndim) =
      ((max t1.dims.length t2.dims.length : Nat) : Int) := by
    have e1 := wfShape_ndim t1 h1
    have e2 := wfShape_ndim t2 h2
    omega
  unfold tl_compute_broadcast_dims
  simp only []
  rw [hn, hM, broadcast_dims_fold_getD t1 t2 _ buf hbuf _ le_rfl j]
  have : max t1.dims.length t2.dims.length - max t1.dims.length t2.dims.length ≤ j ∧
      j < max t1.dims.length t2.dims.length := by omega
  rw [if_pos this,
    alignedExtent_eq_padShape t1 h1 (max t1.dims.length t2.dims.length) _
      (le_max_left _ _) (by omega),
    alignedExtent_eq_padShape t2 h2 (max t1.dims.length t2.dims.length) _
      (le_max_right _ _) (by omega)]
  have e : max t1.dims.length t2.dims.length - 1 -
      (max t1.dims.length t2.dims.length - 1 - j) = j := by omega
  rw [e]

/-- C4: for shapes of rank at least 1 with positive extents,
`tl_compute_broadcast_dims` sets the output rank to the larger of the two
ranks and, for every trailing-aligned axis pair (a missing leading position
counting as extent 1), the output extent to the larger extent of the pair. -/
theorem broadcast_dims_correct (t1 t2 : tl_tensor) (h1 : wfShape t1) (h2 : wfShape t2)
    (buf : List Int) (hbuf : max t1.dims.length t2.dims.length ≤ buf.length) :
    (tl_compute_broadcast_dims t1 t2 buf).1 = max t1.ndim t2.ndim ∧
    ∀ j, j < max t1.dims.length t2.dims.length →
      (tl_compute_broadcast_dims t1 t2 buf).2.getD j 0 =
        max ((padShape (max t1.dims.length t2.dims.length) t1.dims).getD j 0)
          ((padShape (max t1.dims.length t2.dims.length) t2.dims).getD j 0) := by
  refine ⟨?_, fun j hj => broadcast_dims_getD t1 t2 h1 h2 buf hbuf j hj⟩
  unfold tl_compute_broadcast_dims
  simp only []
  split
  · rw [max_eq_left]; omega
  · rw [max_eq_right]; omega

theorem broadcast_dims_correct_witness :
    wfShape ⟨0, 3, 2, [3, 1], 0⟩ ∧ wfShape ⟨0, 4, 2, [1, 4], 1⟩ ∧
    ((tl_compute_broadcast_dims ⟨0, 3, 2, [3, 1], 0⟩ ⟨0, 4, 2, [1, 4], 1⟩
        (List.replicate 8 0)).1 = max 2 2 ∧
      ∀ j, j < max [(3 : Int), 1].length [(1 : Int), 4].length →
        (tl_compute_broadcast_dims ⟨0, 3, 2, [3, 1], 0⟩ ⟨0, 4, 2, [1, 4], 1⟩
          (List.replicate 8 0)).2.getD j 0 =
        max ((padShape (max [(3 : Int), 1].length [(1 : Int), 4].length) [3, 1]).getD j 0)
          ((padShape (max [(3 : Int), 1].length [(1 : Int), 4].length) [1, 4]).getD j 0)) :=
  ⟨by simp [wfShape], by simp [wfShape],
    broadcast_dims_correct ⟨0, 3, 2, [3, 1], 0⟩ ⟨0, 4, 2, [1, 4], 1⟩
      (by simp [wfShape]) (by simp [wfShape]) (List.replicate 8 0) (by simp)⟩

/-- The three shape derivations listed with C4: (3,1) with (1,4) gives (3,4),
(5,) with (3,5) gives (3,5), and (2,3,4) with (4,) gives (2,3,4). -/
theorem broadcast_dims_examples :
    (let r := tl_compute_broadcast_dims ⟨0, 3, 2, [3, 1], 0⟩ ⟨0, 4, 2, [1, 4], 1⟩
        (List.replicate 8 0)
     (r.1, r.2.take r.1.toNat)) = (2, [3, 4]) ∧
    (let r := tl_compute_broadcast_dims ⟨0, 5, 1, [5], 0⟩ ⟨0, 15, 2, [3, 5], 1⟩
        (List.replicate 8 0)
     (r.1, r.2.take r.1.toNat)) = (2, [3, 5]) ∧
    (let r := tl_compute_broadcast_dims ⟨0, 24, 3, [2, 3, 4], 0⟩ ⟨0, 4, 1, [4], 1⟩
        (List.replicate 8 0)
     (r.1, r.2.take r.1.toNat)) = (3, [2, 3, 4]) := by
  decide


/-! ## Broadcast stride deriver -/

theorem strides_init_getD (buf : List Int) (k j : Nat) :
    ((List.range k).foldl (fun s i => s.set i 0) buf).getD j 0 =
      if j < k then 0 else buf.getD j 0 := by
  induction k with
  | zero => simp
  | succ k ih =>
    rw [List.range_succ, List.foldl_append]
    simp only [List.foldl_cons, List.foldl_nil]
    by_cases hj : j = k
    · subst hj
      simp [List.getD_eq_getElem?_getD, List.getElem?_set]
      split <;> simp
    · rw [getD_set_other _ _ _ _ _ (Ne.symm hj), ih]
      by_cases hc : j < k
      · rw [if_pos hc, if_pos (by omega)]
      · rw [if_neg hc, if_neg (by omega)]

theorem strides_init_length (buf : List Int) (k : Nat) :
    ((List.range k).foldl (fun s i => s.set i 0) buf).length = buf.length := by
  induction k with
  | zero => rfl
  | succ k ih =>
    rw [List.range_succ, List.foldl_append]
    simp [ih]

theorem wrap_int_of_fits (x : Int) (h1 : 0 ≤ x) (h2 : x ≤ INT_MAX) : wrap_int x = x := by
  unfold wrap_int
  unfold INT_MAX at h2
  omega

theorem wrap_int_mul (a b : Int) : wrap_int (wrap_int a * b) = wrap_int (a * b) := by
  unfold wrap_int
  have e : (a + 2147483648) % 4294967296 =
      a + 2147483648 - 4294967296 * ((a + 2147483648) / 4294967296) := by
    rw [Int.emod_def]
  have e2 : (a + 2147483648 - 4294967296 * ((a + 2147483648) / 4294967296) - 2147483648) * b +
      2147483648 =
      a * b + 2147483648 + 4294967296 * (-(((a + 2147483648) / 4294967296) * b)) := by
    ring
  rw [e, e2, Int.add_mul_emod_self_left]

theorem prod_pos_of_drop (d : List Int) (hpos : ∀ x ∈ d, 0 < x) (j : Nat) :
    0 < (d.drop j).prod :=
  List.prod_pos (fun x hx => hpos x (List.mem_of_mem_drop hx))

theorem drop_prod_le (d : List Int) (hpos : ∀ x ∈ d, 0 < x) (k : Nat) :
    (d.drop k).prod ≤ d.prod := by
  have h1 : 0 < (d.take k).prod :=
    List.prod_pos (fun x hx => hpos x (List.mem_of_mem_take hx))
  have h2 : 0 < (d.drop k).prod := prod_pos_of_drop d hpos k
  rw [← List.prod_take_mul_prod_drop d k]
  exact le_mul_of_one_le_left (le_of_lt h2) h1

/-- No product of trailing extents of a shape with positive extents whose
full product fits an `int` wraps around. -/
theorem wrap_int_drop_prod (d : List Int) (hpos : ∀ x ∈ d, 0 < x) (hfit : d.prod ≤ INT_MAX)
    (k : Nat) : wrap_int (d.drop k).prod = (d.drop k).prod :=
  wrap_int_of_fits _ (le_of_lt (prod_pos_of_drop d hpos k))
    (le_trans (drop_prod_le d hpos k) hfit)

theorem strides_loop_succ (t : tl_tensor) (out_ndim : Int) (out_dims : List Int) (i : Nat)
    (strides : List Int) (stride : Int) :
    tl_compute_broadcast_strides_loop t out_ndim out_dims (i + 1) strides stride =
      if t.ndim - (out_ndim - i) ≥ 0 then
        tl_compute_broadcast_strides_loop t out_ndim out_dims i
          (if rd t.dims (t.ndim - (out_ndim - i)) = out_dims.getD i 0 then strides.set i stride
           else if rd t.dims (t.ndim - (out_ndim - i)) = 1 then strides.set i 0
           else strides)
          (wrap_int (stride * rd t.dims (t.ndim - (out_ndim - i))))
      else tl_compute_broadcast_strides_loop t out_ndim out_dims i strides stride := rfl

theorem drop_prod_step (d : List Int) (p : Nat) (hp : p < d.length) :
    (d.drop (p + 1)).prod * d.getD p 0 = (d.drop p).prod := by
  rw [List.drop_eq_getElem_cons hp, List.prod_cons, List.getD_eq_getElem _ _ hp]
  ring

theorem strides_loop_getD (t : tl_tensor) (hlen : t.dims.length = t.ndim.toNat)
    (h0 : 0 ≤ t.ndim) (N : Nat) (D : List Int) (k : Nat) (hk : k ≤ N) :
    ∀ (strides : List Int) (stride : Int), strides.length = N →
      stride = wrap_int (t.dims.drop (t.ndim - ((N : Int) - k)).toNat).prod →
      ∀ j, j < N →
        (tl_compute_broadcast_strides_loop t N D k strides stride).getD j 0 =
          if j < k then
            (if t.ndim - ((N : Int) - j) ≥ 0 ∧ rd t.dims (t.ndim - ((N : Int) - j)) = D.getD j 0
              then wrap_int (t.dims.drop (t.ndim - ((N : Int) - j) + 1).toNat).prod
             else if t.ndim - ((N : Int) - j) ≥ 0 ∧ rd t.dims (t.ndim - ((N : Int) - j)) = 1
              then 0
             else strides.getD j 0)
          else strides.getD j 0 := by
  induction k with
  | zero =>
    intro strides stride _ _ j _
    simp [tl_compute_broadcast_strides_loop]
  | succ k ih =>
    intro strides stride hs hstride j hj
    rw [strides_loop_succ]
    by_cases hpos : t.ndim - ((N : Int) - k) ≥ 0
    · rw [if_pos hpos]
      have hp : (t.ndim - ((N : Int) - k)).toNat < t.dims.length := by omega
      have hnext : wrap_int (stride * rd t.dims (t.ndim - ((N : Int) - k))) =
          wrap_int (t.dims.drop (t.ndim - ((N : Int) - k)).toNat).prod := by
        rw [hstride, wrap_int_mul]
        have e : (t.ndim - ((N : Int) - ((k + 1 : Nat) : Int))).toNat =
            (t.ndim - ((N : Int) - k)).toNat + 1 := by omega
        rw [e]
        exact congrArg wrap_int (drop_prod_step t.dims _ hp)
      have e1 : (t.ndim - ((N : Int) - k) + 1).toNat =
          (t.ndim - ((N : Int) - ((k + 1 : Nat) : Int))).toNat := by omega
      by_cases hjk : j = k
      · subst hjk
        rw [if_pos (show j < j + 1 by omega)]
        by_cases hc1 : rd t.dims (t.ndim - ((N : Int) - j)) = D.getD j 0
        · rw [if_pos hc1, ih (by omega) _ _ (by simp [hs]) hnext j hj,
            if_neg (show ¬ j < j by omega), getD_set_self _ _ _ _ (by omega), if_pos ⟨hpos, hc1⟩, hstride, e1]
        · have hn1 : ¬ (t.ndim - ((N : Int) - j) ≥ 0 ∧
              rd t.dims (t.ndim - ((N : Int) - j)) = D.getD j 0) := fun h => hc1 h.2
          rw [if_neg hc1, if_neg hn1]
          by_cases hc2 : rd t.dims (t.ndim - ((N : Int) - j)) = 1
          · have hp2 : t.ndim - ((N : Int) - j) ≥ 0 ∧
                rd t.dims (t.ndim - ((N : Int) - j)) = 1 := ⟨hpos, hc2⟩
            rw [if_pos hc2, ih (by omega) _ _ (by simp [hs]) hnext j hj,
              if_neg (show ¬ j < j by omega), getD_set_self _ _ _ _ (by omega), if_pos hp2]
          · have hn2 : ¬ (t.ndim - ((N : Int) - j) ≥ 0 ∧
                rd t.dims (t.ndim - ((N : Int) - j)) = 1) := fun h => hc2 h.2
            rw [if_neg hc2, ih (by omega) _ _ hs hnext j hj, if_neg (show ¬ j < j by omega),
              if_neg hn2]
      · have hset : ∀ v : Int, (strides.set k v).getD j 0 = strides.getD j 0 :=
          fun v => getD_set_other _ _ _ _ _ (Ne.symm hjk)
        have key : (if rd t.dims (t.ndim - ((N : Int) - k)) = D.getD k 0 then strides.set k stride
            else if rd t.dims (t.ndim - ((N : Int) - k)) = 1 then strides.set k 0
            else strides).getD j 0 = strides.getD j 0 := by
          split
          · exact hset _
          · split
            · exact hset _
            · rfl
        have hl : (if rd t.dims (t.ndim - ((N : Int) - k)) = D.getD k 0 then strides.set k stride
            else if rd t.dims (t.ndim - ((N : Int) - k)) = 1 then strides.set k 0
            else strides).length = N := by
          split
          · simp [hs]
          · split
            · simp [hs]
            · exact hs
        rw [ih (by omega) _ _ hl hnext j hj, key]
        by_cases hc : j < k
        · rw [if_pos hc, if_pos (show j < k + 1 by omega)]
        · rw [if_neg hc, if_neg (show ¬ j < k + 1 by omega)]
    · rw [if_neg hpos]
      have hnext : stride = wrap_int (t.dims.drop (t.ndim - ((N : Int) - k)).toNat).prod := by
        rw [hstride]
        congr 3
        omega
      rw [ih (by omega) _ _ hs hnext j hj]
      by_cases hjk : j = k
      · subst hjk
        have hn1 : ¬ (t.ndim - ((N : Int) - j) ≥ 0 ∧
            rd t.dims (t.ndim - ((N : Int) - j)) = D.getD j 0) := fun h => hpos h.1
        have hn2 : ¬ (t.ndim - ((N : Int) - j) ≥ 0 ∧
            rd t.dims (t.ndim - ((N : Int) - j)) = 1) := fun h => hpos h.1
        rw [if_neg (show ¬ j < j by omega), if_pos (show j < j + 1 by omega),
          if_neg hn1, if_neg hn2]
      · by_cases hc : j < k
        · rw [if_pos hc, if_pos (show j < k + 1 by omega)]
        · rw [if_neg hc, if_neg (show ¬ j < k + 1 by omega)]

/-- The strides derived by `tl_compute_broadcast_strides` in closed form, for
arbitrary extents: on an output axis aligned with an input axis of the same
extent, the product of the more minor input extents as the `int` holds it; on
every other output axis, 0. -/
theorem broadcast_strides_getD_wrap (t : tl_tensor) (hlen : t.dims.length = t.ndim.toNat)
    (h0 : 0 ≤ t.ndim) (N : Nat) (D buf : List Int) (hbuf : buf.length = N) (j : Nat)
    (hj : j < N) :
    (tl_compute_broadcast_strides t N D buf).getD j 0 =
      if t.ndim - ((N : Int) - j) ≥ 0 ∧ rd t.dims (t.ndim - ((N : Int) - j)) = D.getD j 0
        then wrap_int (t.dims.drop (t.ndim - ((N : Int) - j) + 1).toNat).prod
      else 0 := by
  unfold tl_compute_broadcast_strides
  simp only [Int.toNat_ofNat]
  rw [strides_loop_getD t hlen h0 N D N le_rfl _ 1
    (by rw [strides_init_length]; exact hbuf)
    (by
      have e : (t.ndim - ((N : Int) - (N : Int))).toNat = t.dims.length := by omega
      rw [e, List.drop_length]; rfl) j hj]
  rw [if_pos hj, strides_init_getD, if_pos hj]
  split
  · rfl
  · split <;> rfl

/-- The strides derived by `tl_compute_broadcast_strides` in closed form, for
positive input extents whose product fits an `int`: on an output axis aligned
with an input axis of the same extent, the product of the more minor input
extents; on every other output axis, 0. -/
theorem broadcast_strides_getD (t : tl_tensor) (hlen : t.dims.length = t.ndim.toNat)
    (h0 : 0 ≤ t.ndim) (hpos : ∀ x ∈ t.dims, 0 < x) (hfit : t.dims.prod ≤ INT_MAX)
    (N : Nat) (D buf : List Int) (hbuf : buf.length = N) (j : Nat) (hj : j < N) :
    (tl_compute_broadcast_strides t N D buf).getD j 0 =
      if t.ndim - ((N : Int) - j) ≥ 0 ∧ rd t.dims (t.ndim - ((N : Int) - j)) = D.getD j 0
        then (t.dims.drop (t.ndim - ((N : Int) - j) + 1).toNat).prod
      else 0 := by
  rw [broadcast_strides_getD_wrap t hlen h0 N D buf hbuf j hj,
    wrap_int_drop_prod t.dims hpos hfit]

/-- The running product wraps around where the product of the input's extents
leaves the range of `int`: for extents (2, 46341, 46341) the product
46341 * 46341 = 2147488281 exceeds `INT_MAX`, and the stride of the first axis
is held as -2147479015. -/
theorem broadcast_strides_wrap_example :
    ¬ [(2 : Int), 46341, 46341].prod ≤ INT_MAX ∧
    tl_compute_broadcast_strides ⟨0, 0, 3, [2, 46341, 46341], 0⟩ 3 [2, 46341, 46341]
      [0, 0, 0] = [-2147479015, 46341, 1] := by
  decide

theorem broadcast_strides_length (t : tl_tensor) (N : Int) (D buf : List Int) :
    (tl_compute_broadcast_strides t N D buf).length = buf.length := by
  unfold tl_compute_broadcast_strides
  simp only []
  have hloop : ∀ (k : Nat) (strides : List Int) (stride : Int),
      (tl_compute_broadcast_strides_loop t N D k strides stride).length = strides.length := by
    intro k
    induction k with
    | zero => intro strides stride; rfl
    | succ k ih =>
      intro strides stride
      rw [strides_loop_succ]
      split
      · rw [ih]
        split
        · simp
        · split
          · simp
          · rfl
      · rw [ih]
  rw [hloop, strides_init_length]


/-! ## Source offsets -/

theorem elew_broadcast_index_eq_sum (n : Nat) (c s1 s2 : List Int) :
    (List.range n).foldl
        (fun (idx : Int × Int) j =>
          (idx.1 + c.getD j 0 * s1.getD j 0, idx.2 + c.getD j 0 * s2.getD j 0)) (0, 0) =
      (∑ j in Finset.range n, c.getD j 0 * s1.getD j 0,
       ∑ j in Finset.range n, c.getD j 0 * s2.getD j 0) := by
  induction n with
  | zero => rfl
  | succ n ih =>
    rw [List.range_succ, List.foldl_append, ih, Finset.sum_range_succ, Finset.sum_range_succ]
    rfl

theorem broadcast_to_index_eq_sum (n : Nat) (c s : List Int) :
    (List.range n).foldl
        (fun (src_idx : Int) j =>
          if s.getD j 0 > 0 then src_idx + c.getD j 0 * s.getD j 0 else src_idx) 0 =
      ∑ j in Finset.range n, (if s.getD j 0 > 0 then c.getD j 0 * s.getD j 0 else 0) := by
  induction n with
  | zero => rfl
  | succ n ih =>
    rw [List.range_succ, List.foldl_append, ih, Finset.sum_range_succ]
    simp only [List.foldl_cons, List.foldl_nil]
    split <;> simp

theorem rowMajorOffset_eq_sum (d : List Int) :
    ∀ x : List Int, x.length = d.length →
      rowMajorOffset d x = ∑ p in Finset.range d.length, x.getD p 0 * (d.drop (p + 1)).prod := by
  induction d with
  | nil => intro x _; cases x <;> simp [rowMajorOffset]
  | cons a ds ih =>
    intro x hx
    cases x with
    | nil => simp at hx
    | cons b xs =>
      simp only [List.length_cons, Nat.add_right_cancel_iff] at hx
      rw [rowMajorOffset, ih xs hx, List.length_cons, Finset.sum_range_succ']
      simp only [List.getD_cons_succ, List.getD_cons_zero, List.drop_succ_cons, List.drop_zero]
      ring

theorem operandCoords_length (d c : List Int) (h : d.length ≤ c.length) :
    (operandCoords d c).length = d.length := by
  unfold operandCoords
  rw [List.length_zipWith, List.length_drop]
  omega

theorem operandCoords_getD (d c : List Int) (h : d.length ≤ c.length) (p : Nat)
    (hp : p < d.length) :
    (operandCoords d c).getD p 0 =
      if d.getD p 0 = 1 then 0 else c.getD (c.length - d.length + p) 0 := by
  have hl := operandCoords_length d c h
  have hdrop : p < (c.drop (c.length - d.length)).length := by
    rw [List.length_drop]; omega
  rw [List.getD_eq_getElem _ _ (by rw [hl]; exact hp), List.getD_eq_getElem _ _ hp,
    List.getD_eq_getElem _ _ (by omega)]
  unfold operandCoords
  rw [List.getElem_zipWith, List.getElem_drop]

theorem wfShape_getD_pos (t : tl_tensor) (h : wfShape t) (p : Nat) (hp : p < t.dims.length) :
    0 < t.dims.getD p 0 := by
  rw [List.getD_eq_getElem _ _ hp]
  exact h.2.2 _ (List.getElem_mem _)

/-- The strides of an operand that can be broadcast to the output shape, in
terms of the operand's own axes: nothing on the leading output axes, and on
the output axis aligned with the operand axis `p` the row-major stride of `p`
or 0. -/
theorem broadcast_strides_aligned (t : tl_tensor) (hwf : wfShape t)
    (hfit : t.dims.prod ≤ INT_MAX) (D buf : List Int)
    (hbuf : buf.length = D.length) (hr : t.dims.length ≤ D.length) :
    (∀ j, j < D.length - t.dims.length →
      (tl_compute_broadcast_strides t D.length D buf).getD j 0 = 0) ∧
    (∀ p, p < t.dims.length →
      (tl_compute_broadcast_strides t D.length D buf).getD (D.length - t.dims.length + p) 0 =
        if t.dims.getD p 0 = D.getD (D.length - t.dims.length + p) 0
          then (t.dims.drop (p + 1)).prod else 0) := by
  have hn := wfShape_ndim t hwf
  constructor
  · intro j hj
    rw [broadcast_strides_getD t hwf.2.1 (le_of_lt hwf.1) hwf.2.2 hfit D.length D buf hbuf j (by omega)]
    have : ¬ (t.ndim - ((D.length : Int) - j) ≥ 0 ∧
        rd t.dims (t.ndim - ((D.length : Int) - j)) = D.getD j 0) := by
      intro h; omega
    rw [if_neg this]
  · intro p hp
    rw [broadcast_strides_getD t hwf.2.1 (le_of_lt hwf.1) hwf.2.2 hfit D.length D buf hbuf _ (by omega)]
    have e1 : t.ndim - ((D.length : Int) - ((D.length - t.dims.length + p : Nat) : Int)) =
        (p : Int) := by omega
    rw [e1]
    have e2 : rd t.dims (p : Int) = t.dims.getD p 0 := by simp [rd]
    have e3 : ((p : Int) + 1).toNat = p + 1 := by omega
    rw [e2, e3]
    by_cases hc : t.dims.getD p 0 = D.getD (D.length - t.dims.length + p) 0
    · rw [if_pos hc, if_pos ⟨by omega, hc⟩]
    · rw [if_neg hc, if_neg (fun h => hc h.2)]

/-- The stride-weighted sum of an output coordinate vector, rewritten over the
axes of the operand: the restricted coordinate of every operand axis weighted
by the product of the operand's more minor extents. -/
theorem strides_sum_aligned (t : tl_tensor) (hwf : wfShape t)
    (hfit : t.dims.prod ≤ INT_MAX) (D buf c : List Int) (hbuf : buf.length = D.length)
    (hb : broadcastableTo t.dims D) (hc : coordsIn D c) :
    ∑ j in Finset.range D.length,
        c.getD j 0 * (tl_compute_broadcast_strides t D.length D buf).getD j 0 =
      ∑ p in Finset.range t.dims.length,
        (operandCoords t.dims c).getD p 0 * (t.dims.drop (p + 1)).prod := by
  obtain ⟨hr, hcompat⟩ := hb
  obtain ⟨hcl, hcb⟩ := hc
  obtain ⟨hz, ha⟩ := broadcast_strides_aligned t hwf hfit D buf hbuf hr
  have hsplit : D.length = (D.length - t.dims.length) + t.dims.length := by omega
  conv_lhs => rw [hsplit, Finset.sum_range_add]
  rw [← hsplit, Finset.sum_eq_zero (fun j hj => by
    rw [hz j (by simpa using hj)]; ring), zero_add]
  apply Finset.sum_congr rfl
  intro p hp
  have hp' : p < t.dims.length := by simpa using hp
  rw [ha p hp', operandCoords_getD _ _ (by omega) p hp', hcl]
  by_cases h1 : t.dims.getD p 0 = 1
  · rw [if_pos h1]
    by_cases h2 : t.dims.getD p 0 = D.getD (D.length - t.dims.length + p) 0
    · rw [if_pos h2]
      have := hcb (D.length - t.dims.length + p) (by omega)
      have hc0 : c.getD (D.length - t.dims.length + p) 0 = 0 := by omega
      rw [hc0]
    · rw [if_neg h2]; ring
  · rw [if_neg h1]
    rcases hcompat p hp' with h | h
    · exact absurd h h1
    · rw [if_pos h]

/-- C5: for an input of rank at least 1 with positive extents whose product
fits an `int`, and a target shape `D` such that every trailing-aligned input
extent is 1 or equals the output extent, the strides of
`tl_compute_broadcast_strides` map every output coordinate vector `c` in `D`
to the row-major offset, in the input's own shape, of the input coordinate
obtained from `c` by dropping the leading axes and putting 0 on every axis
where the input extent is 1. -/
theorem broadcast_strides_offset (t : tl_tensor) (hwf : wfShape t)
    (hfit : t.dims.prod ≤ INT_MAX) (D buf c : List Int) (hbuf : buf.length = D.length)
    (hb : broadcastableTo t.dims D) (hc : coordsIn D c) :
    ∑ j in Finset.range D.length,
        c.getD j 0 * (tl_compute_broadcast_strides t D.length D buf).getD j 0 =
      rowMajorOffset t.dims (operandCoords t.dims c) := by
  have hlen : (operandCoords t.dims c).length = t.dims.length := by
    apply operandCoords_length
    rw [hc.1]
    exact hb.1
  rw [rowMajorOffset_eq_sum t.dims _ hlen]
  exact strides_sum_aligned t hwf hfit D buf c hbuf hb hc

theorem broadcast_strides_offset_witness :
    wfShape ⟨0, 3, 2, [3, 1], 0⟩ ∧ [(3 : Int), 1].prod ≤ INT_MAX ∧
    [(0 : Int), 0].length = [(3 : Int), 4].length ∧
    broadcastableTo [3, 1] [3, 4] ∧ coordsIn [3, 4] [2, 3] ∧
    ∑ j in Finset.range [(3 : Int), 4].length,
        [(2 : Int), 3].getD j 0 *
          (tl_compute_broadcast_strides ⟨0, 3, 2, [3, 1], 0⟩ [(3 : Int), 4].length [3, 4]
            [0, 0]).getD j 0 =
      rowMajorOffset [3, 1] (operandCoords [3, 1] [2, 3]) :=
  have h1 : wfShape ⟨0, 3, 2, [3, 1], 0⟩ := by simp [wfShape]
  have h2 : broadcastableTo [3, 1] [3, 4] := by
    refine ⟨by simp, fun p hp => ?_⟩
    have : p = 0 ∨ p = 1 := by simp at hp; omega
    rcases this with rfl | rfl <;> simp
  have h3 : coordsIn [3, 4] [2, 3] := by
    refine ⟨rfl, fun j hj => ?_⟩
    have : j = 0 ∨ j = 1 := by simp at hj; omega
    rcases this with rfl | rfl <;> simp
  ⟨h1, by decide, rfl, h2, h3,
    broadcast_strides_offset ⟨0, 3, 2, [3, 1], 0⟩ h1 (by decide) [3, 4] [0, 0] [2, 3] rfl h2 h3⟩


/-- C9: an output axis without a corresponding input axis, and an aligned axis
where the input extent is 1 and the output extent is larger than 1, gets
stride 0; hence two output coordinate vectors that differ only along such an
axis map to the same source offset. -/
theorem broadcast_strides_zero (t : tl_tensor) (hwf : wfShape t) (D buf : List Int)
    (hbuf : buf.length = D.length) (j : Nat) (hj : j < D.length)
    (hax : j + t.dims.length < D.length ∨
      (D.length ≤ j + t.dims.length ∧ t.dims.getD (j + t.dims.length - D.length) 0 = 1 ∧
        1 < D.getD j 0)) :
    (tl_compute_broadcast_strides t D.length D buf).getD j 0 = 0 ∧
    ∀ c c' : List Int, (∀ m, m ≠ j → c.getD m 0 = c'.getD m 0) →
      ∑ m in Finset.range D.length,
          c.getD m 0 * (tl_compute_broadcast_strides t D.length D buf).getD m 0 =
        ∑ m in Finset.range D.length,
          c'.getD m 0 * (tl_compute_broadcast_strides t D.length D buf).getD m 0 := by
  have hn := wfShape_ndim t hwf
  have hzero : (tl_compute_broadcast_strides t D.length D buf).getD j 0 = 0 := by
    rw [broadcast_strides_getD_wrap t hwf.2.1 (le_of_lt hwf.1) D.length D buf hbuf j hj]
    have : ¬ (t.ndim - ((D.length : Int) - j) ≥ 0 ∧
        rd t.dims (t.ndim - ((D.length : Int) - j)) = D.getD j 0) := by
      rintro ⟨hp, he⟩
      rcases hax with h | ⟨h1, h2, h3⟩
      · omega
      · have e : (t.ndim - ((D.length : Int) - j)).toNat = j + t.dims.length - D.length := by
          omega
        unfold rd at he
        rw [e, h2] at he
        omega
    rw [if_neg this]
  refine ⟨hzero, fun c c' hcc => ?_⟩
  apply Finset.sum_congr rfl
  intro m _
  by_cases hm : m = j
  · subst hm; rw [hzero]; ring
  · rw [hcc m hm]

theorem broadcast_strides_zero_witness :
    wfShape ⟨0, 3, 2, [3, 1], 0⟩ ∧
    tl_compute_broadcast_strides ⟨0, 3, 2, [3, 1], 0⟩ 2 [3, 4] [0, 0] = [1, 0] ∧
    ((tl_compute_broadcast_strides ⟨0, 3, 2, [3, 1], 0⟩ [(3 : Int), 4].length [3, 4]
        [0, 0]).getD 1 0 = 0 ∧
      ∀ c c' : List Int, (∀ m, m ≠ 1 → c.getD m 0 = c'.getD m 0) →
        ∑ m in Finset.range [(3 : Int), 4].length,
            c.getD m 0 * (tl_compute_broadcast_strides ⟨0, 3, 2, [3, 1], 0⟩
              [(3 : Int), 4].length [3, 4] [0, 0]).getD m 0 =
          ∑ m in Finset.range [(3 : Int), 4].length,
            c'.getD m 0 * (tl_compute_broadcast_strides ⟨0, 3, 2, [3, 1], 0⟩
              [(3 : Int), 4].length [3, 4] [0, 0]).getD m 0) :=
  ⟨by simp [wfShape], by decide,
    broadcast_strides_zero ⟨0, 3, 2, [3, 1], 0⟩ (by simp [wfShape]) [3, 4] [0, 0] rfl 1
      (by simp) (Or.inr ⟨by simp, by simp, by simp⟩)⟩


/-! ## Row-major coordinates -/

theorem int_divmod_mul (m n k : Int) (hn : 0 < n) (hk : 0 < k) :
    m / (n * k) = m / n / k ∧ m % (n * k) = m % n + n * (m / n % k) := by
  have h1 := Int.emod_add_ediv m n
  have h2 := Int.emod_add_ediv (m / n) k
  have h3 := Int.emod_nonneg m (ne_of_gt hn)
  have h4 := Int.emod_lt_of_pos m hn
  have h5 := Int.emod_nonneg (m / n) (ne_of_gt hk)
  have h6 := Int.emod_lt_of_pos (m / n) hk
  apply (Int.ediv_emod_unique (mul_pos hn hk)).mpr
  refine ⟨?_, ?_, ?_⟩
  · calc m % n + n * (m / n % k) + n * k * (m / n / k)
        = m % n + n * (m / n % k + k * (m / n / k)) := by ring
      _ = m := by rw [h2, h1]
  · have := mul_nonneg (le_of_lt hn) h5
    omega
  · have e : n * (m / n % k) ≤ n * (k - 1) :=
      mul_le_mul_of_nonneg_left (by omega) (le_of_lt hn)
    have e2 : n * (k - 1) = n * k - n := by ring
    omega

theorem coords_loop_succ (dims : List Int) (i : Nat) (index : Int) (coords : List Int) :
    tl_tensor_coords_loop dims (i + 1) index coords =
      tl_tensor_coords_loop dims i (index / dims.getD i 0)
        (coords.set i (index % dims.getD i 0)) := rfl

theorem coords_loop_length (dims : List Int) (k : Nat) :
    ∀ (index : Int) (coords : List Int),
      (tl_tensor_coords_loop dims k index coords).length = coords.length := by
  induction k with
  | zero => intro index coords; rfl
  | succ k ih => intro index coords; rw [coords_loop_succ, ih]; simp

theorem take_succ_drop_prod (dims : List Int) (k j : Nat) (hk : k < dims.length) (hj : j < k) :
    ((dims.take (k + 1)).drop (j + 1)).prod =
      dims.getD k 0 * ((dims.take k).drop (j + 1)).prod := by
  rw [List.take_succ, List.getElem?_eq_getElem hk, Option.toList_some,
    List.drop_append_of_le_length (by rw [List.length_take]; omega), List.prod_append,
    List.getD_eq_getElem _ _ hk]
  simp [mul_comm]

theorem coords_loop_getD (dims : List Int) (hpos : ∀ x ∈ dims, 0 < x) (k : Nat)
    (hk : k ≤ dims.length) :
    ∀ (index : Int) (coords : List Int), coords.length = dims.length →
      ∀ j, j < dims.length →
        (tl_tensor_coords_loop dims k index coords).getD j 0 =
          if j < k then index / ((dims.take k).drop (j + 1)).prod % dims.getD j 0
          else coords.getD j 0 := by
  induction k with
  | zero => intro index coords _ j _; simp [tl_tensor_coords_loop]
  | succ k ih =>
    intro index coords hc j hj
    rw [coords_loop_succ, ih (by omega) _ _ (by simp [hc]) j hj]
    have hdk : 0 < dims.getD k 0 := by
      rw [List.getD_eq_getElem _ _ (by omega)]
      exact hpos _ (List.getElem_mem _)
    by_cases hjk : j < k
    · rw [if_pos hjk, if_pos (show j < k + 1 by omega),
        take_succ_drop_prod dims k j (by omega) hjk]
      have hq : 0 < ((dims.take k).drop (j + 1)).prod :=
        List.prod_pos (fun x hx => hpos x (List.mem_of_mem_take (List.mem_of_mem_drop hx)))
      rw [(int_divmod_mul index _ _ hdk hq).1]
    · rw [if_neg hjk]
      by_cases hjk2 : j = k
      · subst hjk2
        rw [if_pos (show j < j + 1 by omega), getD_set_self _ _ _ _ (by omega)]
        have : (dims.take (j + 1)).drop (j + 1) = [] := by
          apply List.drop_eq_nil_of_le
          rw [List.length_take]; omega
        rw [this]
        simp
      · rw [if_neg (show ¬ j < k + 1 by omega), getD_set_other _ _ _ _ _ (Ne.symm hjk2)]

/-- The coordinates written by `tl_tensor_coords` in closed form: the
coordinate on axis `j` is the index divided by the product of the more minor
extents, reduced modulo the extent of axis `j`. -/
theorem coords_getD (t : tl_tensor) (hwf : wfShape t) (index : Int) (buf : List Int)
    (hbuf : buf.length = t.dims.length) (j : Nat) (hj : j < t.dims.length) :
    (tl_tensor_coords t index buf).getD j 0 =
      index / (t.dims.drop (j + 1)).prod % t.dims.getD j 0 := by
  unfold tl_tensor_coords
  rw [← hwf.2.1, coords_loop_getD t.dims hwf.2.2 _ le_rfl index buf hbuf j hj, if_pos hj,
    List.take_length]

theorem coords_length (t : tl_tensor) (index : Int) (buf : List Int) :
    (tl_tensor_coords t index buf).length = buf.length := by
  unfold tl_tensor_coords
  exact coords_loop_length _ _ _ _

theorem coordsIn_cons (d x : Int) (ds xs : List Int) (h : coordsIn (d :: ds) (x :: xs)) :
    0 ≤ x ∧ x < d ∧ coordsIn ds xs := by
  obtain ⟨hl, hb⟩ := h
  have h0 := hb 0 (by simp)
  simp only [List.getD_cons_zero] at h0
  refine ⟨h0.1, h0.2, by simpa using hl, fun j hj => ?_⟩
  have := hb (j + 1) (by simpa using hj)
  simpa using this

theorem rowMajorOffset_bounds (D : List Int) :
    ∀ c : List Int, coordsIn D c → 0 ≤ rowMajorOffset D c ∧ rowMajorOffset D c < D.prod := by
  induction D with
  | nil => intro c _; cases c <;> simp [rowMajorOffset]
  | cons d ds ih =>
    intro c hc
    cases c with
    | nil => exact absurd hc.1 (by simp)
    | cons x xs =>
      obtain ⟨hx0, hxd, htl⟩ := coordsIn_cons d x ds xs hc
      obtain ⟨h0, h1⟩ := ih xs htl
      have hP : 0 < ds.prod := lt_of_le_of_lt h0 h1
      rw [rowMajorOffset, List.prod_cons]
      constructor
      · have := mul_nonneg hx0 (le_of_lt hP)
        omega
      · have e : x * ds.prod ≤ (d - 1) * ds.prod :=
          mul_le_mul_of_nonneg_right (by omega) (le_of_lt hP)
        have e2 : (d - 1) * ds.prod = d * ds.prod - ds.prod := by ring
        omega

theorem coordsIn_getD_pos (D c : List Int) (h : coordsIn D c) (j : Nat) (hj : j < D.length) :
    0 < D.getD j 0 := by
  have := h.2 j hj
  omega

theorem coordsIn_pos (D c : List Int) (h : coordsIn D c) : ∀ x ∈ D, 0 < x := by
  intro x hx
  obtain ⟨j, hj, rfl⟩ := List.getElem_of_mem hx
  have := coordsIn_getD_pos D c h j hj
  rwa [List.getD_eq_getElem _ _ hj] at this

/-- Decoding the row-major offset of a coordinate vector gives the
coordinate vector back, axis by axis. -/
theorem decode_rowMajorOffset (D : List Int) :
    ∀ (c : List Int), coordsIn D c → ∀ j, j < D.length →
      rowMajorOffset D c / (D.drop (j + 1)).prod % D.getD j 0 = c.getD j 0 := by
  induction D with
  | nil => intro c _ j hj; simp at hj
  | cons d ds ih =>
    intro c hc j hj
    cases c with
    | nil => exact absurd hc.1 (by simp)
    | cons x xs =>
      obtain ⟨hx0, hxd, htl⟩ := coordsIn_cons d x ds xs hc
      obtain ⟨h0, h1⟩ := rowMajorOffset_bounds ds xs htl
      have hP : 0 < ds.prod := lt_of_le_of_lt h0 h1
      rw [rowMajorOffset]
      cases j with
      | zero =>
        simp only [zero_add, List.drop_succ_cons, List.drop_zero, List.getD_cons_zero]
        rw [add_comm, Int.add_mul_ediv_right _ _ (ne_of_gt hP), Int.ediv_eq_zero_of_lt h0 h1,
          zero_add, Int.emod_eq_of_lt hx0 hxd]
      | succ j =>
        have hj' : j < ds.length := by simpa using hj
        simp only [List.drop_succ_cons, List.getD_cons_succ]
        have hsplit : ds.prod =
            (ds.take j).prod * ds.getD j 0 * (ds.drop (j + 1)).prod := by
          rw [← List.prod_take_mul_prod_drop ds j, List.drop_eq_getElem_cons hj',
            List.prod_cons, List.getD_eq_getElem _ _ hj']
          ring
        have hQ : 0 < (ds.drop (j + 1)).prod :=
          prod_pos_of_drop ds (coordsIn_pos ds xs htl) (j + 1)
        have e : x * ds.prod + rowMajorOffset ds xs =
            rowMajorOffset ds xs + (x * (ds.take j).prod * ds.getD j 0) *
              (ds.drop (j + 1)).prod := by
          rw [hsplit]; ring
        rw [e, Int.add_mul_ediv_right _ _ (ne_of_gt hQ), Int.add_mul_emod_self]
        exact ih xs htl j hj'

/-- Encoding the decoded coordinates of an index: the weighted sum of the
row-major coordinates of `i` is `i` reduced modulo the length. -/
theorem encode_decode_sum (D : List Int) (hpos : ∀ x ∈ D, 0 < x) (i : Int) :
    ∑ p in Finset.range D.length,
        (i / (D.drop (p + 1)).prod % D.getD p 0) * (D.drop (p + 1)).prod = i % D.prod := by
  induction D with
  | nil => simp
  | cons d ds ih =>
    have hd : 0 < d := hpos d (List.mem_cons_self _ _)
    have hds : ∀ x ∈ ds, 0 < x := fun x hx => hpos x (List.mem_cons_of_mem _ hx)
    have hP : 0 < ds.prod := List.prod_pos hds
    rw [List.length_cons, Finset.sum_range_succ']
    simp only [List.drop_succ_cons, List.getD_cons_succ, List.getD_cons_zero, zero_add,
      List.drop_zero, List.prod_cons]
    rw [ih hds, mul_comm d ds.prod, (int_divmod_mul i ds.prod d hP hd).2]
    ring


/-! ## The heap and the element loops -/

theorem list_ext_getD (l l' : List Int) (hl : l.length = l'.length)
    (h : ∀ j, j < l.length → l.getD j 0 = l'.getD j 0) : l = l' := by
  apply List.ext_getElem hl
  intro j h1 h2
  have := h j h1
  rwa [List.getD_eq_getElem _ _ h1, List.getD_eq_getElem _ _ h2] at this

theorem coords_buf_indep (t : tl_tensor) (hwf : wfShape t) (index : Int) (buf buf' : List Int)
    (hb : buf.length = t.dims.length) (hb' : buf'.length = t.dims.length) :
    tl_tensor_coords t index buf = tl_tensor_coords t index buf' := by
  apply list_ext_getD
  · rw [coords_length, coords_length, hb, hb']
  · intro j hj
    rw [coords_length, hb] at hj
    rw [coords_getD t hwf index buf hb j hj, coords_getD t hwf index buf' hb' j hj]

theorem store_length {α : Type} (h : Heap α) (p : Nat) (i : Int) (v : α) :
    (tl_store h p i v).length = h.length := by
  simp [tl_store]

theorem store_getD_other {α : Type} (h : Heap α) (p q : Nat) (i : Int) (v : α) (hq : q ≠ p) :
    (tl_store h p i v).getD q [] = h.getD q [] := by
  unfold tl_store
  simp [List.getD_eq_getElem?_getD, List.getElem?_set, Ne.symm hq]

theorem store_getD_self {α : Type} (h : Heap α) (p : Nat) (i : Int) (v : α)
    (hp : p < h.length) :
    (tl_store h p i v).getD p [] = (h.getD p []).set i.toNat v := by
  unfold tl_store
  simp [List.getD_eq_getElem?_getD, List.getElem?_set, hp]

theorem load_store_other {α : Type} [Inhabited α] (h : Heap α) (p q : Nat) (i j : Int) (v : α)
    (hq : q ≠ p) : tl_load (tl_store h p i v) q j = tl_load h q j := by
  unfold tl_load
  rw [store_getD_other h p q i v hq]

theorem block_set_getD {α : Type} [Inhabited α] (b : List α) (i j : Nat) (v : α)
    (hi : i < b.length) :
    (b.set i v).getD j default = if j = i then v else b.getD j default := by
  by_cases hj : j = i
  · subst hj
    simp [List.getD_eq_getElem?_getD, List.getElem?_set, hi]
  · simp [List.getD_eq_getElem?_getD, List.getElem?_set, hj, Ne.symm hj]

/-- Invariant of an element loop that, in iteration `i`, decodes `i` into the
coordinate buffer and stores the value `val i` at index `i` of the destination
block: after `k` iterations the heap has its old size, every block but the
destination block is unchanged, the destination block has its old length, its
first `k` elements are the values `val`, and the remaining ones are
unchanged. -/
theorem store_loop_invariant {α : Type} [Inhabited α]
    (body : Heap α × List Int → Nat → Heap α × List Int) (val : Nat → α) (dst : tl_tensor)
    (h1 : Heap α) (buf0 : List Int) (hbuf : buf0.length = dst.dims.length)
    (hd : dst.data < h1.length)
    (hbody : ∀ (st : Heap α × List Int) (i : Nat), st.2.length = dst.dims.length →
      (∀ q, q ≠ dst.data → st.1.getD q [] = h1.getD q []) →
      body st i = (tl_store st.1 dst.data i (val i), tl_tensor_coords dst i st.2))
    (k : Nat) (hk : k ≤ (h1.getD dst.data []).length) :
    ((List.range k).foldl body (h1, buf0)).2.length = dst.dims.length ∧
    ((List.range k).foldl body (h1, buf0)).1.length = h1.length ∧
    (∀ q, q ≠ dst.data → ((List.range k).foldl body (h1, buf0)).1.getD q [] = h1.getD q []) ∧
    (((List.range k).foldl body (h1, buf0)).1.getD dst.data []).length =
      (h1.getD dst.data []).length ∧
    ∀ i, (((List.range k).foldl body (h1, buf0)).1.getD dst.data []).getD i default =
      if i < k then val i else (h1.getD dst.data []).getD i default := by
  induction k with
  | zero => simp [hbuf]
  | succ k ih =>
    obtain ⟨ih1, ih2, ih3, ih4, ih5⟩ := ih (by omega)
    rw [List.range_succ, List.foldl_append]
    simp only [List.foldl_cons, List.foldl_nil]
    generalize (List.range k).foldl body (h1, buf0) = st at ih1 ih2 ih3 ih4 ih5
    rw [hbody st k ih1 ih3]
    refine ⟨?_, ?_, ?_, ?_, ?_⟩
    · simp only []
      rw [coords_length, ih1]
    · simp only []
      rw [store_length, ih2]
    · intro q hq
      simp only []
      rw [store_getD_other _ _ _ _ _ hq, ih3 q hq]
    · simp only []
      rw [store_getD_self _ _ _ _ (by omega), List.length_set, ih4]
    · intro i
      simp only []
      rw [store_getD_self _ _ _ _ (by omega), Int.toNat_ofNat,
        block_set_getD _ _ _ _ (by omega), ih5]
      by_cases hik : i = k
      · subst hik
        rw [if_pos rfl, if_pos (show i < i + 1 by omega)]
      · rw [if_neg hik]
        by_cases hlt : i < k
        · rw [if_pos hlt, if_pos (show i < k + 1 by omega)]
        · rw [if_neg hlt, if_neg (show ¬ i < k + 1 by omega)]

/-- Invariant of the main loop of `tl_tensor_elew_broadcast` when the
destination block is distinct from both operand blocks, see
`store_loop_invariant`; the stored values are `elew_value` computed from the
initial heap. -/
theorem elew_loop_invariant {α Op : Type} [Inhabited α] (elew : α → α → Op → α)
    (src1 src2 dst : tl_tensor) (hwf : wfShape dst) (out_ndim : Int) (s1 s2 : List Int)
    (elew_op : Op) (h1 : Heap α) (buf0 : List Int) (hbuf : buf0.length = dst.dims.length)
    (hd : dst.data < h1.length) (hne1 : src1.data ≠ dst.data) (hne2 : src2.data ≠ dst.data)
    (k : Nat) (hk : k ≤ (h1.getD dst.data []).length) :
    ((List.range k).foldl
        (tl_tensor_elew_broadcast_body elew src1 src2 dst out_ndim s1 s2 elew_op)
        (h1, buf0)).2.length = dst.dims.length ∧
    ((List.range k).foldl
        (tl_tensor_elew_broadcast_body elew src1 src2 dst out_ndim s1 s2 elew_op)
        (h1, buf0)).1.length = h1.length ∧
    (∀ q, q ≠ dst.data →
      ((List.range k).foldl
        (tl_tensor_elew_broadcast_body elew src1 src2 dst out_ndim s1 s2 elew_op)
        (h1, buf0)).1.getD q [] = h1.getD q []) ∧
    (((List.range k).foldl
        (tl_tensor_elew_broadcast_body elew src1 src2 dst out_ndim s1 s2 elew_op)
        (h1, buf0)).1.getD dst.data []).length = (h1.getD dst.data []).length ∧
    ∀ i,
      (((List.range k).foldl
        (tl_tensor_elew_broadcast_body elew src1 src2 dst out_ndim s1 s2 elew_op)
        (h1, buf0)).1.getD dst.data []).getD i default =
        if i < k then elew_value elew h1 src1 src2 dst out_ndim s1 s2 elew_op i
        else (h1.getD dst.data []).getD i default := by
  apply store_loop_invariant _ _ dst h1 buf0 hbuf hd _ k hk
  intro st i hst hq
  unfold tl_tensor_elew_broadcast_body elew_value
  simp only []
  rw [coords_buf_indep dst hwf i st.2 (List.replicate dst.dims.length 0) hst (by simp)]
  unfold tl_load
  rw [hq _ hne1, hq _ hne2]

/-- Invariant of the copy loop of `tl_tensor_broadcast_to` when the
destination block is distinct from the source block, see
`store_loop_invariant`; the stored values are `broadcast_to_value` computed
from the initial heap. -/
theorem broadcast_to_loop_invariant {α : Type} [Inhabited α] (src dst : tl_tensor)
    (hwf : wfShape dst) (ndim : Int) (s : List Int) (h1 : Heap α) (buf0 : List Int)
    (hbuf : buf0.length = dst.dims.length) (hd : dst.data < h1.length)
    (hne : src.data ≠ dst.data) (k : Nat) (hk : k ≤ (h1.getD dst.data []).length) :
    ((List.range k).foldl (tl_tensor_broadcast_to_body src dst ndim s)
        (h1, buf0)).2.length = dst.dims.length ∧
    ((List.range k).foldl (tl_tensor_broadcast_to_body src dst ndim s)
        (h1, buf0)).1.length = h1.length ∧
    (∀ q, q ≠ dst.data →
      ((List.range k).foldl (tl_tensor_broadcast_to_body src dst ndim s)
        (h1, buf0)).1.getD q [] = h1.getD q []) ∧
    (((List.range k).foldl (tl_tensor_broadcast_to_body src dst ndim s)
        (h1, buf0)).1.getD dst.data []).length = (h1.getD dst.data []).length ∧
    ∀ i,
      (((List.range k).foldl (tl_tensor_broadcast_to_body src dst ndim s)
        (h1, buf0)).1.getD dst.data []).getD i default =
        if i < k then broadcast_to_value h1 src dst ndim s i
        else (h1.getD dst.data []).getD i default := by
  apply store_loop_invariant _ _ dst h1 buf0 hbuf hd _ k hk
  intro st i hst hq
  unfold tl_tensor_broadcast_to_body broadcast_to_value tl_passign
  simp only []
  rw [coords_buf_indep dst hwf i st.2 (List.replicate dst.dims.length 0) hst (by simp)]
  unfold tl_load
  rw [hq _ hne]

/-! ## Facts used by both exported operations -/

theorem check_tensor_spec {α : Type} (h : Heap α) (t : tl_tensor)
    (hc : tl_check_tensor h t = true) :
    wfShape t ∧ t.ndim ≤ TL_MAXDIM ∧ t.len = t.dims.prod ∧ t.data < h.length ∧
      t.len ≤ ((h.getD t.data []).length : Int) := by
  unfold tl_check_tensor at hc
  simp only [Bool.and_eq_true, decide_eq_true_eq, List.all_eq_true] at hc
  obtain ⟨⟨⟨⟨⟨⟨⟨h1, h2⟩, h3⟩, h4⟩, h5⟩, -⟩, h6⟩, h7⟩ := hc
  refine ⟨⟨h1, h3, h4⟩, h2, ?_, h6, h7⟩
  rw [h5, ← h3, List.take_length]

/-- The element count of an array that passes `tl_check_tensor` is the product
of its extents and fits an `int`. -/
theorem check_tensor_fit {α : Type} (h : Heap α) (t : tl_tensor)
    (hc : tl_check_tensor h t = true) : t.dims.prod ≤ INT_MAX := by
  unfold tl_check_tensor at hc
  simp only [Bool.and_eq_true, decide_eq_true_eq, List.all_eq_true] at hc
  obtain ⟨⟨⟨⟨⟨⟨⟨-, -⟩, h3⟩, -⟩, h5⟩, h5b⟩, -⟩, -⟩ := hc
  rw [h5, ← h3, List.take_length] at h5b
  exact h5b

theorem take_getD (l : List Int) (n j : Nat) (hj : j < n) :
    (l.take n).getD j 0 = l.getD j 0 := by
  simp [List.getD_eq_getElem?_getD, List.getElem?_take, hj]

theorem broadcast_dims_take (t1 t2 : tl_tensor) (h1 : wfShape t1) (h2 : wfShape t2)
    (buf : List Int) (hbuf : max t1.dims.length t2.dims.length ≤ buf.length) :
    (tl_compute_broadcast_dims t1 t2 buf).2.take (max t1.dims.length t2.dims.length) =
      broadcastShape t1.dims t2.dims := by
  have hl : ((tl_compute_broadcast_dims t1 t2 buf).2.take
      (max t1.dims.length t2.dims.length)).length = max t1.dims.length t2.dims.length := by
    rw [List.length_take]
    unfold tl_compute_broadcast_dims
    simp only []
    rw [broadcast_dims_fold_length]
    omega
  apply list_ext_getD
  · rw [hl, broadcastShape_length]
  · intro j hj
    rw [hl] at hj
    rw [take_getD _ _ _ hj, broadcast_dims_getD t1 t2 h1 h2 buf hbuf j hj,
      broadcastShape_getD _ _ j hj]

theorem broadcast_dims_fst (t1 t2 : tl_tensor) (h1 : wfShape t1) (h2 : wfShape t2)
    (buf : List Int) :
    (tl_compute_broadcast_dims t1 t2 buf).1 =
      ((max t1.dims.length t2.dims.length : Nat) : Int) := by
  have e1 := wfShape_ndim t1 h1
  have e2 := wfShape_ndim t2 h2
  unfold tl_compute_broadcast_dims
  simp only []
  split <;> omega

theorem padShape_pos (n : Nat) (s : List Int) (hs : ∀ x ∈ s, 0 < x) (j : Nat) (hj : j < n)
    (hn : s.length ≤ n) : 0 < (padShape n s).getD j 0 := by
  by_cases hc : j < n - s.length
  · rw [padShape_getD_lt n s j hc]; decide
  · rw [padShape_getD_ge n s j (by omega), List.getD_eq_getElem _ _ (by omega)]
    exact hs _ (List.getElem_mem _)

theorem broadcastShape_pos (s1 s2 : List Int) (h1 : ∀ x ∈ s1, 0 < x) :
    ∀ x ∈ broadcastShape s1 s2, 0 < x := by
  intro x hx
  obtain ⟨j, hj, rfl⟩ := List.getElem_of_mem hx
  have hj' : j < max s1.length s2.length := by rwa [broadcastShape_length] at hj
  have := broadcastShape_getD s1 s2 j hj'
  rw [List.getD_eq_getElem _ _ hj] at this
  rw [this]
  exact lt_of_lt_of_le (padShape_pos _ s1 h1 j hj' (le_max_left _ _)) (le_max_left _ _)

theorem strides_congr (t : tl_tensor) (hwf : wfShape t) (N : Nat) (D D' buf : List Int)
    (hbuf : buf.length = N) (h : ∀ j, j < N → D.getD j 0 = D'.getD j 0) :
    tl_compute_broadcast_strides t N D buf = tl_compute_broadcast_strides t N D' buf := by
  apply list_ext_getD
  · rw [broadcast_strides_length, broadcast_strides_length]
  · intro j hj
    rw [broadcast_strides_length, hbuf] at hj
    rw [broadcast_strides_getD_wrap t hwf.2.1 (le_of_lt hwf.1) N D buf hbuf j hj,
      broadcast_strides_getD_wrap t hwf.2.1 (le_of_lt hwf.1) N D' buf hbuf j hj, h j hj]

theorem broadcastableTo_left (s1 s2 : List Int) (h1 : ∀ x ∈ s1, 0 < x)
    (h2 : ∀ x ∈ s2, 0 < x) (hc : broadcastCompatible s1 s2) :
    broadcastableTo s1 (broadcastShape s1 s2) := by
  rw [broadcastableTo, broadcastShape_length]
  refine ⟨le_max_left _ _, fun p hp => ?_⟩
  have hj : max s1.length s2.length - s1.length + p < max s1.length s2.length := by
    have := le_max_left s1.length s2.length
    omega
  have hcj := hc _ hj
  have hp2 := padShape_pos _ s2 h2 _ hj (le_max_right _ _)
  rw [broadcastShape_getD _ _ _ hj]
  rw [padShape_getD_ge _ s1 _ (by omega)] at hcj ⊢
  have e : max s1.length s2.length - s1.length + p - (max s1.length s2.length - s1.length) = p := by
    omega
  rw [e] at hcj ⊢
  have hp1 : 0 < s1.getD p 0 := by
    rw [List.getD_eq_getElem _ _ hp]; exact h1 _ (List.getElem_mem _)
  unfold extentsCompatible at hcj
  rcases hcj with h | h | h
  · right; rw [← h, max_self]
  · left; exact h
  · right; rw [h, max_eq_left]; omega

theorem broadcastCompatible_symm (s1 s2 : List Int) (hc : broadcastCompatible s1 s2) :
    broadcastCompatible s2 s1 := by
  intro j hj
  rw [max_comm] at hj ⊢
  have := hc j hj
  unfold extentsCompatible at *
  tauto

theorem broadcastShape_comm (s1 s2 : List Int) : broadcastShape s1 s2 = broadcastShape s2 s1 := by
  apply list_ext_getD
  · rw [broadcastShape_length, broadcastShape_length, max_comm]
  · intro j hj
    rw [broadcastShape_length] at hj
    rw [broadcastShape_getD _ _ j hj, broadcastShape_getD _ _ j (by rwa [max_comm]), max_comm,
      max_comm s1.length]

theorem load_append {α : Type} [Inhabited α] (h : Heap α) (b : List α) (p : Nat) (i : Int)
    (hp : p < h.length) : tl_load (h ++ [b]) p i = tl_load h p i := by
  unfold tl_load
  rw [List.getD_append _ _ _ _ hp]


/-! ## Broadcasting elementwise engine -/

theorem coords_of_offset (dst : tl_tensor) (hwf : wfShape dst) (c buf : List Int)
    (hbuf : buf.length = dst.dims.length) (hc : coordsIn dst.dims c) (j : Nat)
    (hj : j < dst.dims.length) :
    (tl_tensor_coords dst (((rowMajorOffset dst.dims c).toNat : Nat) : Int) buf).getD j 0 =
      c.getD j 0 := by
  have hb := rowMajorOffset_bounds dst.dims c hc
  rw [Int.toNat_of_nonneg hb.1, coords_getD dst hwf _ buf hbuf j hj]
  exact decode_rowMajorOffset dst.dims c hc j hj

theorem elew_value_eq {α Op : Type} [Inhabited α] (elew : α → α → Op → α) (h : Heap α)
    (src1 src2 dst : tl_tensor) (hw1 : wfShape src1) (hw2 : wfShape src2) (hwd : wfShape dst)
    (hfit1 : src1.dims.prod ≤ INT_MAX) (hfit2 : src2.dims.prod ≤ INT_MAX)
    (hb1 : broadcastableTo src1.dims dst.dims) (hb2 : broadcastableTo src2.dims dst.dims)
    (elew_op : Op) (c : List Int) (hc : coordsIn dst.dims c) :
    elew_value elew h src1 src2 dst (dst.dims.length : Int)
        (tl_compute_broadcast_strides src1 dst.dims.length dst.dims
          (List.replicate dst.dims.length 0))
        (tl_compute_broadcast_strides src2 dst.dims.length dst.dims
          (List.replicate dst.dims.length 0))
        elew_op (rowMajorOffset dst.dims c).toNat =
      elew (tl_load h src1.data (rowMajorOffset src1.dims (operandCoords src1.dims c)))
        (tl_load h src2.data (rowMajorOffset src2.dims (operandCoords src2.dims c))) elew_op := by
  unfold elew_value tl_tensor_elew_broadcast_index
  simp only [Int.toNat_ofNat]
  rw [elew_broadcast_index_eq_sum]
  simp only []
  have hsum : ∀ s : List Int,
      ∑ j in Finset.range dst.dims.length,
        (tl_tensor_coords dst (((rowMajorOffset dst.dims c).toNat : Nat) : Int)
          (List.replicate dst.dims.length 0)).getD j 0 * s.getD j 0 =
      ∑ j in Finset.range dst.dims.length, c.getD j 0 * s.getD j 0 := by
    intro s
    apply Finset.sum_congr rfl
    intro j hj
    rw [coords_of_offset dst hwd c _ (by simp) hc j (by simpa using hj)]
  rw [hsum, hsum, strides_sum_aligned src1 hw1 hfit1 dst.dims _ c (by simp) hb1 hc,
    strides_sum_aligned src2 hw2 hfit2 dst.dims _ c (by simp) hb2 hc,
    ← rowMajorOffset_eq_sum src1.dims _ (operandCoords_length _ _ (by rw [hc.1]; exact hb1.1)),
    ← rowMajorOffset_eq_sum src2.dims _ (operandCoords_length _ _ (by rw [hc.1]; exact hb2.1))]

theorem zeros_broadcast_eq {α Op : Type} (E : tl_dispatch α Op) (h : Heap α)
    (t1 t2 : tl_tensor) (h1 : wfShape t1) (h2 : wfShape t2) (hm1 : t1.ndim ≤ TL_MAXDIM)
    (hm2 : t2.ndim ≤ TL_MAXDIM) (dtype : Nat) :
    tl_tensor_zeros E h (tl_compute_broadcast_dims t1 t2 (List.replicate TL_MAXDIM.toNat 0)).1
        (tl_compute_broadcast_dims t1 t2 (List.replicate TL_MAXDIM.toNat 0)).2 dtype =
      ({ dtype := dtype, len := wrap_int (broadcastShape t1.dims t2.dims).prod,
         ndim := ((broadcastShape t1.dims t2.dims).length : Int),
         dims := broadcastShape t1.dims t2.dims, data := h.length },
       h ++ [List.replicate (wrap_int (broadcastShape t1.dims t2.dims).prod).toNat E.zero]) := by
  have e1 := wfShape_ndim t1 h1
  have e2 := wfShape_ndim t2 h2
  have hbuf : max t1.dims.length t2.dims.length ≤
      (List.replicate TL_MAXDIM.toNat (0 : Int)).length := by
    simp only [List.length_replicate, TL_MAXDIM] at *
    omega
  unfold tl_tensor_zeros tl_compute_length
  rw [broadcast_dims_fst t1 t2 h1 h2, Int.toNat_ofNat, broadcast_dims_take t1 t2 h1 h2 _ hbuf,
    broadcastShape_length]

theorem strides_broadcast_eq (t t1 t2 : tl_tensor) (hwf : wfShape t) (h1 : wfShape t1)
    (h2 : wfShape t2) (hm1 : t1.ndim ≤ TL_MAXDIM) (hm2 : t2.ndim ≤ TL_MAXDIM) :
    tl_compute_broadcast_strides t
        (tl_compute_broadcast_dims t1 t2 (List.replicate TL_MAXDIM.toNat 0)).1
        (tl_compute_broadcast_dims t1 t2 (List.replicate TL_MAXDIM.toNat 0)).2
        (List.replicate
          (tl_compute_broadcast_dims t1 t2 (List.replicate TL_MAXDIM.toNat 0)).1.toNat 0) =
      tl_compute_broadcast_strides t (broadcastShape t1.dims t2.dims).length
        (broadcastShape t1.dims t2.dims)
        (List.replicate (broadcastShape t1.dims t2.dims).length 0) := by
  have e1 := wfShape_ndim t1 h1
  have e2 := wfShape_ndim t2 h2
  have hbuf : max t1.dims.length t2.dims.length ≤
      (List.replicate TL_MAXDIM.toNat (0 : Int)).length := by
    simp only [List.length_replicate, TL_MAXDIM] at *
    omega
  rw [broadcast_dims_fst t1 t2 h1 h2, Int.toNat_ofNat, broadcastShape_length]
  apply strides_congr t hwf _ _ _ _ (by simp)
  intro j hj
  rw [← broadcast_dims_take t1 t2 h1 h2 _ hbuf, take_getD _ _ _ hj]

/-- C1: for well-formed operands of the same dtype that are
broadcast-compatible, with a broadcast shape whose element count fits an
`int`, and every operator tag, `tl_tensor_elew_broadcast` called without a
destination returns an array whose shape is the broadcast shape and whose
element at every output coordinate `c` is the operator applied to the
operands' elements at `c` restricted to each operand's trailing-aligned axes,
with 0 on every axis where the operand's extent is 1. -/
theorem elew_broadcast_correct {α Op : Type} [Inhabited α] (E : tl_dispatch α Op)
    (h : Heap α) (src1 src2 : tl_tensor) (elew_op : Op)
    (hw1 : tl_check_tensor h src1 = true) (hw2 : tl_check_tensor h src2 = true)
    (hdt : src1.dtype = src2.dtype) (hc : broadcastCompatible src1.dims src2.dims)
    (hfit : (broadcastShape src1.dims src2.dims).prod ≤ INT_MAX) :
    ∃ out h', tl_tensor_elew_broadcast E h src1 src2 none elew_op = .ok out h' ∧
      out.ndim = max src1.ndim src2.ndim ∧
      out.dims = broadcastShape src1.dims src2.dims ∧
      ∀ c, coordsIn out.dims c →
        tl_load h' out.data (rowMajorOffset out.dims c) =
          E.tl_elew_getfunc src1.dtype
            (tl_load h src1.data (rowMajorOffset src1.dims (operandCoords src1.dims c)))
            (tl_load h src2.data (rowMajorOffset src2.dims (operandCoords src2.dims c)))
            elew_op := by
  obtain ⟨hwf1, hm1, hlen1, hd1, hblk1⟩ := check_tensor_spec h src1 hw1
  obtain ⟨hwf2, hm2, hlen2, hd2, hblk2⟩ := check_tensor_spec h src2 hw2
  have hfit1 := check_tensor_fit h src1 hw1
  have hfit2 := check_tensor_fit h src2 hw2
  have hiso : tl_tensor_isbroadcastable src1 src2 ≠ 0 := by
    rw [(isbroadcastable_iff_aligned src1 src2 hwf1 hwf2).mpr hc]; decide
  have hdt' : decide (src1.dtype = src2.dtype) = true := by simp [hdt]
  have hDpos := broadcastShape_pos src1.dims src2.dims hwf1.2.2
  have hDprod : 0 < (broadcastShape src1.dims src2.dims).prod := List.prod_pos hDpos
  have hwfd : wfShape
      { dtype := src1.dtype, len := (broadcastShape src1.dims src2.dims).prod,
        ndim := ((broadcastShape src1.dims src2.dims).length : Int),
        dims := broadcastShape src1.dims src2.dims, data := h.length } := by
    refine ⟨?_, by simp, hDpos⟩
    have := wfShape_ndim src1 hwf1
    have := hwf1.1
    simp only [broadcastShape_length]
    omega
  have hinv := elew_loop_invariant (E.tl_elew_getfunc src1.dtype) src1 src2
    { dtype := src1.dtype, len := (broadcastShape src1.dims src2.dims).prod,
      ndim := ((broadcastShape src1.dims src2.dims).length : Int),
      dims := broadcastShape src1.dims src2.dims, data := h.length } hwfd
    ((broadcastShape src1.dims src2.dims).length : Int)
    (tl_compute_broadcast_strides src1 (broadcastShape src1.dims src2.dims).length
      (broadcastShape src1.dims src2.dims)
      (List.replicate (broadcastShape src1.dims src2.dims).length 0))
    (tl_compute_broadcast_strides src2 (broadcastShape src1.dims src2.dims).length
      (broadcastShape src1.dims src2.dims)
      (List.replicate (broadcastShape src1.dims src2.dims).length 0))
    elew_op
    (h ++ [List.replicate (broadcastShape src1.dims src2.dims).prod.toNat E.zero])
    (List.replicate (broadcastShape src1.dims src2.dims).length 0) (by simp) (by simp)
    (by simp only []; omega) (by simp only []; omega)
    (broadcastShape src1.dims src2.dims).prod.toNat (by simp)
  obtain ⟨-, -, -, -, hval⟩ := hinv
  refine ⟨
    { dtype := src1.dtype, len := (broadcastShape src1.dims src2.dims).prod,
      ndim := ((broadcastShape src1.dims src2.dims).length : Int),
      dims := broadcastShape src1.dims src2.dims, data := h.length },
    ((List.range (broadcastShape src1.dims src2.dims).prod.toNat).foldl
      (tl_tensor_elew_broadcast_body (E.tl_elew_getfunc src1.dtype) src1 src2
        { dtype := src1.dtype, len := (broadcastShape src1.dims src2.dims).prod,
          ndim := ((broadcastShape src1.dims src2.dims).length : Int),
          dims := broadcastShape src1.dims src2.dims, data := h.length }
        ((broadcastShape src1.dims src2.dims).length : Int)
        (tl_compute_broadcast_strides src1 (broadcastShape src1.dims src2.dims).length
          (broadcastShape src1.dims src2.dims)
          (List.replicate (broadcastShape src1.dims src2.dims).length 0))
        (tl_compute_broadcast_strides src2 (broadcastShape src1.dims src2.dims).length
          (broadcastShape src1.dims src2.dims)
          (List.replicate (broadcastShape src1.dims src2.dims).length 0))
        elew_op)
      (h ++ [List.replicate (broadcastShape src1.dims src2.dims).prod.toNat E.zero],
        List.replicate (broadcastShape src1.dims src2.dims).length 0)).1, ?_, ?_, rfl, ?_⟩
  · unfold tl_tensor_elew_broadcast
    simp only [hw1, hw2, hdt', hiso, Bool.not_true, if_false, Bool.false_eq_true]
    rw [zeros_broadcast_eq E h src1 src2 hwf1 hwf2 hm1 hm2,
      wrap_int_of_fits _ (le_of_lt hDprod) hfit,
      strides_broadcast_eq src1 src1 src2 hwf1 hwf1 hwf2 hm1 hm2,
      strides_broadcast_eq src2 src1 src2 hwf2 hwf1 hwf2 hm1 hm2,
      broadcast_dims_fst src1 src2 hwf1 hwf2, ← broadcastShape_length]
    simp only [Int.toNat_ofNat]
  · simp only [broadcastShape_length]
    have := wfShape_ndim src1 hwf1
    have := wfShape_ndim src2 hwf2
    omega
  · intro c hcin
    simp only [] at hcin ⊢
    have hb := rowMajorOffset_bounds _ c hcin
    have hlt : (rowMajorOffset (broadcastShape src1.dims src2.dims) c).toNat <
        (broadcastShape src1.dims src2.dims).prod.toNat := by omega
    have hv := hval (rowMajorOffset (broadcastShape src1.dims src2.dims) c).toNat
    rw [if_pos hlt] at hv
    refine hv.trans ?_
    have hev := elew_value_eq (E.tl_elew_getfunc src1.dtype)
      (h ++ [List.replicate (broadcastShape src1.dims src2.dims).prod.toNat E.zero]) src1 src2
      { dtype := src1.dtype, len := (broadcastShape src1.dims src2.dims).prod,
        ndim := ((broadcastShape src1.dims src2.dims).length : Int),
        dims := broadcastShape src1.dims src2.dims, data := h.length } hwf1 hwf2 hwfd
      hfit1 hfit2 (broadcastableTo_left _ _ hwf1.2.2 hwf2.2.2 hc)
      (by
        simp only []
        rw [broadcastShape_comm]
        exact broadcastableTo_left _ _ hwf2.2.2 hwf1.2.2 (broadcastCompatible_symm _ _ hc))
      elew_op c hcin
    simp only [] at hev
    rw [hev, load_append _ _ _ _ hd1, load_append _ _ _ _ hd2]

theorem elew_broadcast_correct_witness :
    tl_check_tensor [[(1 : Int), 2], [10, 20, 30]] ⟨0, 2, 2, [2, 1], 0⟩ = true ∧
    tl_check_tensor [[(1 : Int), 2], [10, 20, 30]] ⟨0, 3, 2, [1, 3], 1⟩ = true ∧
    broadcastCompatible [2, 1] [1, 3] ∧
    (broadcastShape [2, 1] [1, 3]).prod ≤ INT_MAX ∧
    tl_tensor_elew_broadcast (⟨0, fun _ a b _ => a + b⟩ : tl_dispatch Int Unit)
        [[1, 2], [10, 20, 30]] ⟨0, 2, 2, [2, 1], 0⟩ ⟨0, 3, 2, [1, 3], 1⟩ none () =
      .ok ⟨0, 6, 2, [2, 3], 2⟩ [[1, 2], [10, 20, 30], [11, 21, 31, 12, 22, 32]] ∧
    ∃ out h',
      tl_tensor_elew_broadcast (⟨0, fun _ a b _ => a + b⟩ : tl_dispatch Int Unit)
          [[1, 2], [10, 20, 30]] ⟨0, 2, 2, [2, 1], 0⟩ ⟨0, 3, 2, [1, 3], 1⟩ none () =
        .ok out h' ∧
      out.ndim = max 2 2 ∧ out.dims = broadcastShape [2, 1] [1, 3] ∧
      ∀ c, coordsIn out.dims c →
        tl_load h' out.data (rowMajorOffset out.dims c) =
          tl_load [[(1 : Int), 2], [10, 20, 30]] 0
              (rowMajorOffset [2, 1] (operandCoords [2, 1] c)) +
            tl_load [[(1 : Int), 2], [10, 20, 30]] 1
              (rowMajorOffset [1, 3] (operandCoords [1, 3] c)) :=
  have hc : broadcastCompatible [2, 1] [1, 3] := by
    unfold broadcastCompatible extentsCompatible
    decide
  ⟨by decide, by decide, hc, by decide, by decide,
    elew_broadcast_correct (⟨0, fun _ a b _ => a + b⟩ : tl_dispatch Int Unit)
      [[1, 2], [10, 20, 30]] ⟨0, 2, 2, [2, 1], 0⟩ ⟨0, 3, 2, [1, 3], 1⟩ ()
      (by decide) (by decide) rfl hc (by decide)⟩

theorem elew_broadcast_of_incompatible {α Op : Type} [Inhabited α] (E : tl_dispatch α Op)
    (h : Heap α) (src1 src2 : tl_tensor) (dst : Option tl_tensor) (elew_op : Op)
    (hw1 : tl_check_tensor h src1 = true) (hw2 : tl_check_tensor h src2 = true)
    (hdt : src1.dtype = src2.dtype) (hiso : tl_tensor_isbroadcastable src1 src2 = 0) :
    tl_tensor_elew_broadcast E h src1 src2 dst elew_op = .null h := by
  have hdt' : decide (src1.dtype = src2.dtype) = true := by simp [hdt]
  unfold tl_tensor_elew_broadcast
  simp only [hw1, hw2, hdt', hiso, Bool.not_true, if_false, Bool.false_eq_true, if_true]

theorem elew_broadcast_of_compatible {α Op : Type} [Inhabited α] (E : tl_dispatch α Op)
    (h : Heap α) (src1 src2 : tl_tensor) (dst : Option tl_tensor) (elew_op : Op)
    (hiso : tl_tensor_isbroadcastable src1 src2 ≠ 0) (h' : Heap α) :
    tl_tensor_elew_broadcast E h src1 src2 dst elew_op ≠ .null h' := by
  unfold tl_tensor_elew_broadcast
  simp only [hiso, if_false]
  split
  · simp
  · split
    · simp
    · split
      · simp
      · split <;> simp

/-- C8: for well-formed operands of the same dtype, whatever destination is
passed, `tl_tensor_elew_broadcast` returns null exactly when the operands are
not broadcast-compatible, and a null return leaves the heap as it was: no
output array has been allocated and no destination element written. -/
theorem elew_broadcast_null_iff {α Op : Type} [Inhabited α] (E : tl_dispatch α Op)
    (h : Heap α) (src1 src2 : tl_tensor) (dst : Option tl_tensor) (elew_op : Op)
    (hw1 : tl_check_tensor h src1 = true) (hw2 : tl_check_tensor h src2 = true)
    (hdt : src1.dtype = src2.dtype) :
    ((∃ h', tl_tensor_elew_broadcast E h src1 src2 dst elew_op = .null h') ↔
      ¬ broadcastCompatible src1.dims src2.dims) ∧
    ∀ h', tl_tensor_elew_broadcast E h src1 src2 dst elew_op = .null h' → h' = h := by
  obtain ⟨hwf1, -⟩ := check_tensor_spec h src1 hw1
  obtain ⟨hwf2, -⟩ := check_tensor_spec h src2 hw2
  have hiff := isbroadcastable_iff_aligned src1 src2 hwf1 hwf2
  by_cases hc : broadcastCompatible src1.dims src2.dims
  · have hiso : tl_tensor_isbroadcastable src1 src2 ≠ 0 := by
      rw [hiff.mpr hc]; decide
    constructor
    · constructor
      · rintro ⟨h', hh⟩
        exact absurd hh (elew_broadcast_of_compatible E h src1 src2 dst elew_op hiso h')
      · intro hn; exact absurd hc hn
    · intro h' hh
      exact absurd hh (elew_broadcast_of_compatible E h src1 src2 dst elew_op hiso h')
  · have hiso : tl_tensor_isbroadcastable src1 src2 = 0 := by
      rcases isbroadcastable_values src1 src2 with h0 | h1
      · exact h0
      · exact absurd (hiff.mp h1) hc
    have hnull := elew_broadcast_of_incompatible E h src1 src2 dst elew_op hw1 hw2 hdt hiso
    constructor
    · exact ⟨fun _ => hc, fun _ => ⟨h, hnull⟩⟩
    · intro h' hh
      rw [hnull] at hh
      injection hh with e
      exact e.symm

theorem elew_broadcast_null_iff_witness :
    tl_check_tensor [List.replicate 12 (0 : Int), List.replicate 8 0] ⟨0, 12, 2, [3, 4], 0⟩ = true ∧
    tl_check_tensor [List.replicate 12 (0 : Int), List.replicate 8 0] ⟨0, 8, 2, [2, 4], 1⟩ = true ∧
    tl_tensor_elew_broadcast (⟨0, fun _ a b _ => a + b⟩ : tl_dispatch Int Unit)
        [List.replicate 12 0, List.replicate 8 0] ⟨0, 12, 2, [3, 4], 0⟩ ⟨0, 8, 2, [2, 4], 1⟩
        none () = .null [List.replicate 12 0, List.replicate 8 0] ∧
    (((∃ h', tl_tensor_elew_broadcast (⟨0, fun _ a b _ => a + b⟩ : tl_dispatch Int Unit)
        [List.replicate 12 0, List.replicate 8 0] ⟨0, 12, 2, [3, 4], 0⟩ ⟨0, 8, 2, [2, 4], 1⟩
        none () = .null h') ↔ ¬ broadcastCompatible [3, 4] [2, 4]) ∧
      ∀ h', tl_tensor_elew_broadcast (⟨0, fun _ a b _ => a + b⟩ : tl_dispatch Int Unit)
        [List.replicate 12 0, List.replicate 8 0] ⟨0, 12, 2, [3, 4], 0⟩ ⟨0, 8, 2, [2, 4], 1⟩
        none () = .null h' → h' = [List.replicate 12 0, List.replicate 8 0]) :=
  ⟨by decide, by decide, by decide,
    elew_broadcast_null_iff (⟨0, fun _ a b _ => a + b⟩ : tl_dispatch Int Unit)
      [List.replicate 12 0, List.replicate 8 0] ⟨0, 12, 2, [3, 4], 0⟩ ⟨0, 8, 2, [2, 4], 1⟩
      none () (by decide) (by decide) rfl⟩

/-! ## Broadcast materialiser -/

theorem broadcast_to_check_iff (src : tl_tensor) (ndim : Int) (dims : List Int) (l : List Nat) :
    tl_tensor_broadcast_to_check src ndim dims l = true ↔
      ∀ i ∈ l, src.ndim - (ndim - (i : Int)) ≥ 0 →
        rd src.dims (src.ndim - (ndim - (i : Int))) = 1 ∨
        rd src.dims (src.ndim - (ndim - (i : Int))) = dims.getD i 0 := by
  induction l with
  | nil => simp [tl_tensor_broadcast_to_check]
  | cons i rest ih =>
    simp only [tl_tensor_broadcast_to_check, List.mem_cons, forall_eq_or_imp]
    by_cases hc : src.ndim - (ndim - (i : Int)) ≥ 0 ∧
        rd src.dims (src.ndim - (ndim - (i : Int))) ≠ 1 ∧
        rd src.dims (src.ndim - (ndim - (i : Int))) ≠ dims.getD i 0
    · rw [if_pos hc]
      constructor
      · intro h; exact absurd h (by decide)
      · rintro ⟨h, _⟩
        have := h hc.1
        tauto
    · rw [if_neg hc, ih]
      constructor
      · intro h
        refine ⟨fun hp => ?_, h⟩
        by_contra hn
        exact hc ⟨hp, fun h1 => hn (Or.inl h1), fun h2 => hn (Or.inr h2)⟩
      · exact fun h => h.2

theorem broadcast_to_check_of_broadcastableTo (src : tl_tensor) (hwf : wfShape src)
    (dims : List Int) (hb : broadcastableTo src.dims dims) :
    tl_tensor_broadcast_to_check src (dims.length : Int) dims (List.range dims.length) = true := by
  have hn := wfShape_ndim src hwf
  obtain ⟨hr, hcompat⟩ := hb
  rw [broadcast_to_check_iff]
  intro i hi hp
  have hi' : i < dims.length := by simpa using hi
  have e : (src.ndim - ((dims.length : Int) - (i : Int))).toNat =
      i - (dims.length - src.dims.length) := by omega
  have := hcompat (i - (dims.length - src.dims.length)) (by omega)
  have e2 : dims.length - src.dims.length + (i - (dims.length - src.dims.length)) = i := by omega
  rw [e2] at this
  unfold rd
  rw [e]
  exact this

theorem broadcastableTo_of_check (src : tl_tensor) (hwf : wfShape src) (dims : List Int)
    (hr : src.dims.length ≤ dims.length)
    (hchk : tl_tensor_broadcast_to_check src (dims.length : Int) dims
      (List.range dims.length) = true) :
    broadcastableTo src.dims dims := by
  have hn := wfShape_ndim src hwf
  rw [broadcast_to_check_iff] at hchk
  refine ⟨hr, fun p hp => ?_⟩
  have := hchk (dims.length - src.dims.length + p) (by simp; omega) (by omega)
  have e : (src.ndim - ((dims.length : Int) - ((dims.length - src.dims.length + p : Nat) : Int))).toNat
      = p := by omega
  unfold rd at this
  rwa [e] at this

theorem broadcast_strides_nonneg (t : tl_tensor) (hwf : wfShape t)
    (hfit : t.dims.prod ≤ INT_MAX) (N : Nat) (D buf : List Int)
    (hbuf : buf.length = N) (j : Nat) :
    0 ≤ (tl_compute_broadcast_strides t N D buf).getD j 0 := by
  by_cases hj : j < N
  · rw [broadcast_strides_getD t hwf.2.1 (le_of_lt hwf.1) hwf.2.2 hfit N D buf hbuf j hj]
    split
    · exact le_of_lt (prod_pos_of_drop t.dims hwf.2.2 _)
    · exact le_rfl
  · rw [List.getD_eq_default _ _ (by rw [broadcast_strides_length]; omega)]

theorem broadcast_to_index_eq (t : tl_tensor) (hwf : wfShape t)
    (hfit : t.dims.prod ≤ INT_MAX) (N : Nat) (D buf c : List Int)
    (hbuf : buf.length = N) :
    tl_tensor_broadcast_to_index N c (tl_compute_broadcast_strides t N D buf) =
      ∑ j in Finset.range N, c.getD j 0 * (tl_compute_broadcast_strides t N D buf).getD j 0 := by
  unfold tl_tensor_broadcast_to_index
  rw [Int.toNat_ofNat, broadcast_to_index_eq_sum]
  apply Finset.sum_congr rfl
  intro j _
  have h0 := broadcast_strides_nonneg t hwf hfit N D buf hbuf j
  split
  · rfl
  · have : (tl_compute_broadcast_strides t N D buf).getD j 0 = 0 := by omega
    rw [this]; ring

/-- The result of `tl_tensor_broadcast_to` without destination on a well-formed
source and a target shape that passes the validation loop: a fresh array of
the target shape whose element `i` is the source element at the
stride-weighted sum of the row-major coordinates of `i`. -/
theorem broadcast_to_none_spec {α Op : Type} [Inhabited α] (E : tl_dispatch α Op)
    (h : Heap α) (src : tl_tensor) (dims : List Int)
    (hw : tl_check_tensor h src = true) (h0 : 0 < dims.length)
    (h8 : (dims.length : Int) ≤ TL_MAXDIM) (hpos : ∀ d ∈ dims, 0 < d)
    (hchk : tl_tensor_broadcast_to_check src (dims.length : Int) dims
      (List.range dims.length) = true) (hfitD : dims.prod ≤ INT_MAX) :
    ∃ h', tl_tensor_broadcast_to E h src none (dims.length : Int) dims =
        .ok { dtype := src.dtype, len := dims.prod, ndim := (dims.length : Int), dims := dims,
              data := h.length } h' ∧
      ∀ i : Nat, i < dims.prod.toNat →
        tl_load h' h.length i =
          tl_load h src.data
            (∑ j in Finset.range dims.length,
              ((i : Int) / (dims.drop (j + 1)).prod % dims.getD j 0) *
                (tl_compute_broadcast_strides src dims.length dims
                  (List.replicate dims.length 0)).getD j 0) := by
  obtain ⟨hwf, hm, hlen, hd, hblk⟩ := check_tensor_spec h src hw
  have hfit := check_tensor_fit h src hw
  have hwfd : wfShape
      { dtype := src.dtype, len := dims.prod, ndim := (dims.length : Int), dims := dims,
        data := h.length } := ⟨by simp only []; omega, by simp, hpos⟩
  have hall : (List.range dims.length).all (fun i => decide (dims.getD i 0 > 0)) = true := by
    rw [List.all_eq_true]
    intro i hi
    have hi' : i < dims.length := by simpa using hi
    rw [List.getD_eq_getElem _ _ hi']
    simpa using hpos _ (List.getElem_mem _)
  have hrange : (decide ((dims.length : Int) > 0) &&
      decide ((dims.length : Int) ≤ TL_MAXDIM)) = true := by
    simp only [Bool.and_eq_true, decide_eq_true_eq]
    exact ⟨by omega, h8⟩
  have hinv := broadcast_to_loop_invariant src
    { dtype := src.dtype, len := dims.prod, ndim := (dims.length : Int), dims := dims,
      data := h.length } hwfd (dims.length : Int)
    (tl_compute_broadcast_strides src dims.length dims (List.replicate dims.length 0))
    (h ++ [List.replicate dims.prod.toNat E.zero]) (List.replicate dims.length 0)
    (by simp) (by simp) (by simp only []; omega) dims.prod.toNat (by simp)
  obtain ⟨-, -, -, -, hval⟩ := hinv
  refine ⟨((List.range dims.prod.toNat).foldl
      (tl_tensor_broadcast_to_body src
        { dtype := src.dtype, len := dims.prod, ndim := (dims.length : Int), dims := dims,
          data := h.length } (dims.length : Int)
        (tl_compute_broadcast_strides src dims.length dims (List.replicate dims.length 0)))
      (h ++ [List.replicate dims.prod.toNat E.zero], List.replicate dims.length 0)).1, ?_, ?_⟩
  · unfold tl_tensor_broadcast_to
    simp only [hw, Int.toNat_ofNat, hall, hrange, hchk, Bool.not_true, if_false,
      Bool.false_eq_true]
    unfold tl_tensor_zeros tl_compute_length
    simp only [Int.toNat_ofNat, List.take_length,
      wrap_int_of_fits _ (le_of_lt (List.prod_pos hpos)) hfitD, if_true]
  · intro i hi
    have hv := hval i
    rw [if_pos hi] at hv
    have hL : ∀ (h' : Heap α), tl_load h' h.length (i : Int) =
        (h'.getD h.length []).getD i default := by
      intro h'; unfold tl_load; rw [Int.toNat_ofNat]
    rw [hL]
    refine hv.trans ?_
    unfold broadcast_to_value
    simp only []
    rw [load_append _ _ _ _ hd, broadcast_to_index_eq src hwf hfit dims.length dims _ _ (by simp)]
    congr 1
    apply Finset.sum_congr rfl
    intro j hj
    rw [coords_getD _ hwfd i _ (by simp) j (by simpa using hj)]

/-- On a well-formed source and a target shape that passes the validation
loop, `tl_tensor_broadcast_to` without destination returns an array. -/
theorem broadcast_to_none_ok {α Op : Type} [Inhabited α] (E : tl_dispatch α Op)
    (h : Heap α) (src : tl_tensor) (dims : List Int)
    (hw : tl_check_tensor h src = true) (h0 : 0 < dims.length)
    (h8 : (dims.length : Int) ≤ TL_MAXDIM) (hpos : ∀ d ∈ dims, 0 < d)
    (hchk : tl_tensor_broadcast_to_check src (dims.length : Int) dims
      (List.range dims.length) = true) :
    ∃ out h', tl_tensor_broadcast_to E h src none (dims.length : Int) dims = .ok out h' := by
  have hall : (List.range dims.length).all (fun i => decide (dims.getD i 0 > 0)) = true := by
    rw [List.all_eq_true]
    intro i hi
    have hi' : i < dims.length := by simpa using hi
    rw [List.getD_eq_getElem _ _ hi']
    simpa using hpos _ (List.getElem_mem _)
  have hrange : (decide ((dims.length : Int) > 0) &&
      decide ((dims.length : Int) ≤ TL_MAXDIM)) = true := by
    simp only [Bool.and_eq_true, decide_eq_true_eq]
    exact ⟨by omega, h8⟩
  unfold tl_tensor_broadcast_to
  simp only [hw, Int.toNat_ofNat, hall, hrange, hchk, Bool.not_true, if_false,
    Bool.false_eq_true]
  unfold tl_tensor_zeros
  simp only [if_true]
  exact ⟨_, _, rfl⟩

/-- C6: for a well-formed source and a well-formed target shape of rank at
least the source rank that passes the validation loop and whose element count
fits an `int`, `tl_tensor_broadcast_to` called without a destination returns an array of
exactly the target shape whose element at every output coordinate is the
source element at the offset the coordinate maps to under the strides of
`tl_compute_broadcast_strides`, which is the source element at the
trailing-aligned coordinate with 0 on every source axis of extent 1. -/
theorem broadcast_to_correct {α Op : Type} [Inhabited α] (E : tl_dispatch α Op)
    (h : Heap α) (src : tl_tensor) (ndim : Int) (dims : List Int)
    (hw : tl_check_tensor h src = true) (h0 : 0 < ndim) (h8 : ndim ≤ TL_MAXDIM)
    (hlen : dims.length = ndim.toNat) (hpos : ∀ d ∈ dims, 0 < d) (hr : src.ndim ≤ ndim)
    (hchk : tl_tensor_broadcast_to_check src ndim dims (List.range ndim.toNat) = true)
    (hfitD : dims.prod ≤ INT_MAX) :
    ∃ out h', tl_tensor_broadcast_to E h src none ndim dims = .ok out h' ∧
      out.ndim = ndim ∧ out.dims = dims ∧
      ∀ c, coordsIn dims c →
        tl_load h' out.data (rowMajorOffset dims c) =
          tl_load h src.data
            (∑ j in Finset.range ndim.toNat,
              c.getD j 0 *
                (tl_compute_broadcast_strides src ndim dims
                  (List.replicate ndim.toNat 0)).getD j 0) ∧
        tl_load h' out.data (rowMajorOffset dims c) =
          tl_load h src.data (rowMajorOffset src.dims (operandCoords src.dims c)) := by
  obtain rfl : ndim = (dims.length : Int) := by omega
  rw [Int.toNat_ofNat] at hchk ⊢
  obtain ⟨hwf, -⟩ := check_tensor_spec h src hw
  have hfit := check_tensor_fit h src hw
  have hn := wfShape_ndim src hwf
  have hb : broadcastableTo src.dims dims :=
    broadcastableTo_of_check src hwf dims (by omega) hchk
  obtain ⟨h', heq, hval⟩ :=
    broadcast_to_none_spec E h src dims hw (by omega) h8 hpos hchk hfitD
  refine ⟨_, h', heq, rfl, rfl, fun c hc => ?_⟩
  have hbd := rowMajorOffset_bounds dims c hc
  have hv := hval (rowMajorOffset dims c).toNat (by omega)
  rw [Int.toNat_of_nonneg hbd.1] at hv
  have hsum : ∑ j in Finset.range dims.length,
      (rowMajorOffset dims c / (dims.drop (j + 1)).prod % dims.getD j 0) *
        (tl_compute_broadcast_strides src dims.length dims
          (List.replicate dims.length 0)).getD j 0 =
      ∑ j in Finset.range dims.length,
        c.getD j 0 * (tl_compute_broadcast_strides src dims.length dims
          (List.replicate dims.length 0)).getD j 0 := by
    apply Finset.sum_congr rfl
    intro j hj
    rw [decode_rowMajorOffset dims c hc j (by simpa using hj)]
  rw [hsum] at hv
  refine ⟨hv, ?_⟩
  rw [hv, strides_sum_aligned src hwf hfit dims _ c (by simp) hb hc,
    ← rowMajorOffset_eq_sum src.dims _ (operandCoords_length _ _ (by rw [hc.1]; exact hb.1))]

theorem broadcast_to_correct_witness :
    tl_check_tensor [[(1 : Int), 2, 3]] ⟨0, 3, 2, [3, 1], 0⟩ = true ∧
    tl_tensor_broadcast_to_check ⟨0, 3, 2, [3, 1], 0⟩ 2 [3, 4] (List.range (2 : Int).toNat) =
      true ∧
    tl_tensor_broadcast_to (⟨0, fun _ a b _ => a + b⟩ : tl_dispatch Int Unit) [[1, 2, 3]]
        ⟨0, 3, 2, [3, 1], 0⟩ none 2 [3, 4] =
      .ok ⟨0, 12, 2, [3, 4], 1⟩ [[1, 2, 3], [1, 1, 1, 1, 2, 2, 2, 2, 3, 3, 3, 3]] ∧
    [(3 : Int), 4].prod ≤ INT_MAX ∧
    ∃ out h', tl_tensor_broadcast_to (⟨0, fun _ a b _ => a + b⟩ : tl_dispatch Int Unit)
        [[1, 2, 3]] ⟨0, 3, 2, [3, 1], 0⟩ none 2 [3, 4] = .ok out h' ∧
      out.ndim = 2 ∧ out.dims = [3, 4] ∧
      ∀ c, coordsIn [3, 4] c →
        tl_load h' out.data (rowMajorOffset [3, 4] c) =
          tl_load [[(1 : Int), 2, 3]] 0
            (∑ j in Finset.range (2 : Int).toNat,
              c.getD j 0 *
                (tl_compute_broadcast_strides ⟨0, 3, 2, [3, 1], 0⟩ 2 [3, 4]
                  (List.replicate (2 : Int).toNat 0)).getD j 0) ∧
        tl_load h' out.data (rowMajorOffset [3, 4] c) =
          tl_load [[(1 : Int), 2, 3]] 0 (rowMajorOffset [3, 1] (operandCoords [3, 1] c)) :=
  ⟨by decide, by decide, by decide, by decide,
    broadcast_to_correct (⟨0, fun _ a b _ => a + b⟩ : tl_dispatch Int Unit) [[1, 2, 3]]
      ⟨0, 3, 2, [3, 1], 0⟩ 2 [3, 4] (by decide) (by decide) (by decide) (by decide)
      (by decide) (by decide) (by decide) (by decide)⟩

theorem broadcastableTo_refl (d : List Int) : broadcastableTo d d :=
  ⟨le_rfl, fun p _ => Or.inr (by rw [Nat.sub_self, Nat.zero_add])⟩

/-- C7: identity broadcast.  For a well-formed array `src`,
`tl_tensor_broadcast_to(src, NULL, src.ndim, src.dims)` succeeds and returns
an array of the same shape whose element at every linear index below
`src.len` is the element of `src` at that index. -/
theorem broadcast_to_identity {α Op : Type} [Inhabited α] (E : tl_dispatch α Op)
    (h : Heap α) (src : tl_tensor) (hw : tl_check_tensor h src = true) :
    ∃ out h', tl_tensor_broadcast_to E h src none src.ndim src.dims = .ok out h' ∧
      out.ndim = src.ndim ∧ out.dims = src.dims ∧ out.len = src.len ∧
      ∀ i : Nat, (i : Int) < src.len → tl_load h' out.data i = tl_load h src.data i := by
  obtain ⟨hwf, hm, hlen, hd, hblk⟩ := check_tensor_spec h src hw
  have hfit := check_tensor_fit h src hw
  have hn := wfShape_ndim src hwf
  have hchk := broadcast_to_check_of_broadcastableTo src hwf src.dims
    (broadcastableTo_refl src.dims)
  obtain ⟨h', heq, hval⟩ :=
    broadcast_to_none_spec E h src src.dims hw (by have := hwf.1; omega) (by omega) hwf.2.2 hchk hfit
  rw [← hn] at heq
  refine ⟨_, h', heq, rfl, rfl, hlen.symm, fun i hi => ?_⟩
  have hP : 0 < src.dims.prod := List.prod_pos hwf.2.2
  rw [hval i (by omega)]
  congr 1
  have hs : ∀ j, j ∈ Finset.range src.dims.length →
      ((i : Int) / (src.dims.drop (j + 1)).prod % src.dims.getD j 0) *
        (tl_compute_broadcast_strides src src.dims.length src.dims
          (List.replicate src.dims.length 0)).getD j 0 =
      ((i : Int) / (src.dims.drop (j + 1)).prod % src.dims.getD j 0) *
        (src.dims.drop (j + 1)).prod := by
    intro j hj
    have hj' : j < src.dims.length := by simpa using hj
    have := (broadcast_strides_aligned src hwf hfit src.dims (List.replicate src.dims.length 0)
      (by simp) le_rfl).2 j hj'
    rw [Nat.sub_self, Nat.zero_add, if_pos rfl] at this
    rw [this]
  rw [Finset.sum_congr rfl hs, encode_decode_sum src.dims hwf.2.2 i]
  exact Int.emod_eq_of_lt (by omega) (by omega)

theorem broadcast_to_identity_witness :
    tl_check_tensor [[(1 : Int), 2, 3, 4, 5, 6]] ⟨0, 6, 2, [2, 3], 0⟩ = true ∧
    tl_tensor_broadcast_to (⟨0, fun _ a b _ => a + b⟩ : tl_dispatch Int Unit)
        [[1, 2, 3, 4, 5, 6]] ⟨0, 6, 2, [2, 3], 0⟩ none 2 [2, 3] =
      .ok ⟨0, 6, 2, [2, 3], 1⟩ [[1, 2, 3, 4, 5, 6], [1, 2, 3, 4, 5, 6]] ∧
    ∃ out h', tl_tensor_broadcast_to (⟨0, fun _ a b _ => a + b⟩ : tl_dispatch Int Unit)
        [[1, 2, 3, 4, 5, 6]] ⟨0, 6, 2, [2, 3], 0⟩ none 2 [2, 3] = .ok out h' ∧
      out.ndim = 2 ∧ out.dims = [2, 3] ∧ out.len = 6 ∧
      ∀ i : Nat, (i : Int) < 6 →
        tl_load h' out.data i = tl_load [[(1 : Int), 2, 3, 4, 5, 6]] 0 i :=
  ⟨by decide, by decide,
    broadcast_to_identity (⟨0, fun _ a b _ => a + b⟩ : tl_dispatch Int Unit)
      [[1, 2, 3, 4, 5, 6]] ⟨0, 6, 2, [2, 3], 0⟩ (by decide)⟩

theorem sourceAxesMatch_iff_broadcastableTo (s D : List Int) (hr : s.length ≤ D.length) :
    sourceAxesMatch s D ↔ broadcastableTo s D := by
  have hmax : max s.length D.length = D.length := max_eq_right hr
  unfold sourceAxesMatch broadcastableTo
  rw [hmax]
  have hD : ∀ j, (padShape D.length D).getD j 0 = D.getD j 0 := by
    intro j
    rw [padShape_getD_ge _ _ _ (by omega)]
    congr 1
    omega
  constructor
  · intro h
    refine ⟨hr, fun p hp => ?_⟩
    have := h (D.length - s.length + p) (by omega)
    rw [padShape_getD_ge _ _ _ (by omega), hD] at this
    have e : D.length - s.length + p - (D.length - s.length) = p := by omega
    rwa [e] at this
  · rintro ⟨-, h⟩ j hj
    by_cases hc : j < D.length - s.length
    · left; exact padShape_getD_lt _ _ _ hc
    · rw [padShape_getD_ge _ _ _ (by omega), hD]
      have := h (j - (D.length - s.length)) (by omega)
      have e : D.length - s.length + (j - (D.length - s.length)) = j := by omega
      rwa [e] at this

/-- Where the source rank does not exceed the target rank, the validation of
`tl_tensor_broadcast_to` is exact: on a well-formed source and target shape,
called without destination, it returns null, with the heap unchanged, exactly
when some source axis does not match the target. -/
theorem broadcast_to_null_iff_of_rank_le {α Op : Type} [Inhabited α] (E : tl_dispatch α Op)
    (h : Heap α) (src : tl_tensor) (ndim : Int) (dims : List Int)
    (hw : tl_check_tensor h src = true) (h0 : 0 < ndim) (h8 : ndim ≤ TL_MAXDIM)
    (hlen : dims.length = ndim.toNat) (hpos : ∀ d ∈ dims, 0 < d) (hr : src.ndim ≤ ndim) :
    (tl_tensor_broadcast_to E h src none ndim dims = .null h ↔
      ¬ sourceAxesMatch src.dims dims) ∧
    ((∃ out h', tl_tensor_broadcast_to E h src none ndim dims = .ok out h') ↔
      sourceAxesMatch src.dims dims) := by
  obtain rfl : ndim = (dims.length : Int) := by omega
  obtain ⟨hwf, -⟩ := check_tensor_spec h src hw
  have hn := wfShape_ndim src hwf
  have hrl : src.dims.length ≤ dims.length := by omega
  rw [sourceAxesMatch_iff_broadcastableTo _ _ hrl]
  by_cases hb : broadcastableTo src.dims dims
  · have hchk := broadcast_to_check_of_broadcastableTo src hwf dims hb
    obtain ⟨out, h', heq⟩ := broadcast_to_none_ok E h src dims hw (by omega) h8 hpos hchk
    constructor
    · constructor
      · intro hnull; rw [heq] at hnull; cases hnull
      · intro hn'; exact absurd hb hn'
    · exact ⟨fun _ => hb, fun _ => ⟨_, h', heq⟩⟩
  · have hchk : tl_tensor_broadcast_to_check src (dims.length : Int) dims
        (List.range dims.length) = false := by
      cases hcv : tl_tensor_broadcast_to_check src (dims.length : Int) dims
        (List.range dims.length)
      · rfl
      · exact absurd (broadcastableTo_of_check src hwf dims hrl hcv) hb
    have hall : (List.range dims.length).all (fun i => decide (dims.getD i 0 > 0)) = true := by
      rw [List.all_eq_true]
      intro i hi
      have hi' : i < dims.length := by simpa using hi
      rw [List.getD_eq_getElem _ _ hi']
      simpa using hpos _ (List.getElem_mem _)
    have hrange : (decide ((dims.length : Int) > 0) &&
        decide ((dims.length : Int) ≤ TL_MAXDIM)) = true := by
      simp only [Bool.and_eq_true, decide_eq_true_eq]
      exact ⟨by omega, h8⟩
    have hnull : tl_tensor_broadcast_to E h src none (dims.length : Int) dims = .null h := by
      unfold tl_tensor_broadcast_to
      simp only [hw, Int.toNat_ofNat, hall, hrange, hchk, Bool.not_true, Bool.not_false,
        if_false, if_true, Bool.false_eq_true]
    constructor
    · exact ⟨fun _ => hb, fun _ => hnull⟩
    · constructor
      · rintro ⟨out, h', heq⟩; rw [hnull] at heq; cases heq
      · intro hb'; exact absurd hb' hb

theorem broadcast_to_null_iff_of_rank_le_witness :
    tl_check_tensor [List.replicate 8 (0 : Int)] ⟨0, 8, 2, [2, 4], 0⟩ = true ∧
    ((tl_tensor_broadcast_to (⟨0, fun _ a b _ => a + b⟩ : tl_dispatch Int Unit)
        [List.replicate 8 0] ⟨0, 8, 2, [2, 4], 0⟩ none 2 [3, 4] = .null [List.replicate 8 0] ↔
        ¬ sourceAxesMatch [2, 4] [3, 4]) ∧
      ((∃ out h', tl_tensor_broadcast_to (⟨0, fun _ a b _ => a + b⟩ : tl_dispatch Int Unit)
        [List.replicate 8 0] ⟨0, 8, 2, [2, 4], 0⟩ none 2 [3, 4] = .ok out h') ↔
        sourceAxesMatch [2, 4] [3, 4])) :=
  ⟨by decide,
    broadcast_to_null_iff_of_rank_le (⟨0, fun _ a b _ => a + b⟩ : tl_dispatch Int Unit)
      [List.replicate 8 0] ⟨0, 8, 2, [2, 4], 0⟩ 2 [3, 4] (by decide) (by decide) (by decide)
      (by decide) (by decide) (by decide)⟩

/-- No stride exceeds the length of the operand: every stride is 0 or the
product of a trailing segment of the operand's positive extents. -/
theorem broadcast_strides_le_prod (t : tl_tensor) (hwf : wfShape t)
    (hfit : t.dims.prod ≤ INT_MAX) (N : Nat)
    (D buf : List Int) (hbuf : buf.length = N) (j : Nat) :
    (tl_compute_broadcast_strides t N D buf).getD j 0 ≤ t.dims.prod := by
  have hP : 0 < t.dims.prod := List.prod_pos hwf.2.2
  by_cases hj : j < N
  · rw [broadcast_strides_getD t hwf.2.1 (le_of_lt hwf.1) hwf.2.2 hfit N D buf hbuf j hj]
    split
    · have hsplit := List.prod_take_mul_prod_drop t.dims
        (t.ndim - ((N : Int) - j) + 1).toNat
      have h1 : 0 < (t.dims.take (t.ndim - ((N : Int) - j) + 1).toNat).prod :=
        List.prod_pos (fun x hx => hwf.2.2 x (List.mem_of_mem_take hx))
      have h2 : 0 < (t.dims.drop (t.ndim - ((N : Int) - j) + 1).toNat).prod :=
        prod_pos_of_drop t.dims hwf.2.2 _
      rw [← hsplit]
      exact le_mul_of_one_le_left (le_of_lt h2) h1
    · exact le_of_lt hP
  · rw [List.getD_eq_default _ _ (by rw [broadcast_strides_length]; omega)]
    exact le_of_lt hP

/-- C10 (the code at the failing input): the source of shape (2,3) has a
leading axis of extent 2 without a corresponding axis in the target shape
(3,), so its axes do not match the target; the validation loop of
`tl_tensor_broadcast_to` only visits the target axes, lets the call pass, and
the call returns a non-null array of shape (3,) holding the first row of the
source. -/
theorem broadcast_to_rank_excess :
    tl_check_tensor [[(1 : Int), 2, 3, 4, 5, 6]] ⟨0, 6, 2, [2, 3], 0⟩ = true ∧
    ¬ sourceAxesMatch [2, 3] [3] ∧
    tl_tensor_broadcast_to_check ⟨0, 6, 2, [2, 3], 0⟩ 1 [3] (List.range (1 : Int).toNat) =
      true ∧
    tl_tensor_broadcast_to (⟨0, fun _ a b _ => a + b⟩ : tl_dispatch Int Unit)
        [[1, 2, 3, 4, 5, 6]] ⟨0, 6, 2, [2, 3], 0⟩ none 1 [3] =
      .ok ⟨0, 3, 1, [3], 1⟩ [[1, 2, 3, 4, 5, 6], [1, 2, 3]] := by
  refine ⟨by decide, ?_, by decide, by decide⟩
  unfold sourceAxesMatch
  decide

/-! ## Calls with a caller-supplied destination -/

theorem all_dims_congr (n : Nat) (A B d : List Int)
    (h : ∀ i, i < n → A.getD i 0 = B.getD i 0) :
    (List.range n).all (fun i => decide (d.getD i 0 = A.getD i 0)) =
      (List.range n).all (fun i => decide (d.getD i 0 = B.getD i 0)) := by
  apply Bool.eq_iff_iff.mpr
  simp only [List.all_eq_true, List.mem_range, decide_eq_true_eq]
  constructor
  · intro H i hi; rw [← h i hi]; exact H i hi
  · intro H i hi; rw [h i hi]; exact H i hi

/-- The engine called with a destination on well-formed, compatible operands
of one dtype: the three assertions on the destination decide between abort
and the element loop over the destination's own `len`. -/
theorem elew_broadcast_some {α Op : Type} [Inhabited α] (E : tl_dispatch α Op)
    (h : Heap α) (src1 src2 d : tl_tensor) (elew_op : Op)
    (hw1 : tl_check_tensor h src1 = true) (hw2 : tl_check_tensor h src2 = true)
    (hdt : src1.dtype = src2.dtype) (hc : broadcastCompatible src1.dims src2.dims) :
    tl_tensor_elew_broadcast E h src1 src2 (some d) elew_op =
      if (decide (d.ndim = ((broadcastShape src1.dims src2.dims).length : Int)) &&
          (List.range (broadcastShape src1.dims src2.dims).length).all
            (fun i => decide (d.dims.getD i 0 = (broadcastShape src1.dims src2.dims).getD i 0)) &&
          decide (d.dtype = src1.dtype)) = true
      then
        .ok d ((List.range d.len.toNat).foldl
          (tl_tensor_elew_broadcast_body (E.tl_elew_getfunc src1.dtype) src1 src2 d
            ((broadcastShape src1.dims src2.dims).length : Int)
            (tl_compute_broadcast_strides src1 (broadcastShape src1.dims src2.dims).length
              (broadcastShape src1.dims src2.dims)
              (List.replicate (broadcastShape src1.dims src2.dims).length 0))
            (tl_compute_broadcast_strides src2 (broadcastShape src1.dims src2.dims).length
              (broadcastShape src1.dims src2.dims)
              (List.replicate (broadcastShape src1.dims src2.dims).length 0))
            elew_op)
          (h, List.replicate (broadcastShape src1.dims src2.dims).length 0)).1
      else .abort := by
  obtain ⟨hwf1, hm1, -⟩ := check_tensor_spec h src1 hw1
  obtain ⟨hwf2, hm2, -⟩ := check_tensor_spec h src2 hw2
  have hiso : tl_tensor_isbroadcastable src1 src2 ≠ 0 := by
    rw [(isbroadcastable_iff_aligned src1 src2 hwf1 hwf2).mpr hc]; decide
  have hdt' : decide (src1.dtype = src2.dtype) = true := by simp [hdt]
  have e1 := wfShape_ndim src1 hwf1
  have e2 := wfShape_ndim src2 hwf2
  have hbuf : max src1.dims.length src2.dims.length ≤
      (List.replicate TL_MAXDIM.toNat (0 : Int)).length := by
    simp only [List.length_replicate, TL_MAXDIM] at *
    omega
  have hget : ∀ i, i < (broadcastShape src1.dims src2.dims).length →
      (tl_compute_broadcast_dims src1 src2 (List.replicate TL_MAXDIM.toNat 0)).2.getD i 0 =
        (broadcastShape src1.dims src2.dims).getD i 0 := by
    intro i hi
    rw [broadcastShape_length] at hi
    rw [← broadcast_dims_take src1 src2 hwf1 hwf2 _ hbuf, take_getD _ _ _ hi]
  unfold tl_tensor_elew_broadcast
  simp only [hw1, hw2, hdt', hiso, Bool.not_true, if_false, Bool.false_eq_true]
  rw [strides_broadcast_eq src1 src1 src2 hwf1 hwf1 hwf2 hm1 hm2,
    strides_broadcast_eq src2 src1 src2 hwf2 hwf1 hwf2 hm1 hm2,
    broadcast_dims_fst src1 src2 hwf1 hwf2, ← broadcastShape_length]
  simp only [Int.toNat_ofNat]
  have hall := all_dims_congr (broadcastShape src1.dims src2.dims).length _ _ d.dims hget
  simp only [hall]
  split_ifs <;> rfl

/-- The materialiser called with a destination on a well-formed source and a
well-formed target shape that passes the validation loop: the assertions on
the destination's rank and extents decide between abort and the copy loop
over the destination's own `len`.  The destination's dtype is not looked at:
a destination of another dtype is returned as well, after the loop has moved
the source's bytes into its storage. -/
theorem broadcast_to_some {α Op : Type} [Inhabited α] (E : tl_dispatch α Op)
    (h : Heap α) (src d : tl_tensor) (dims : List Int)
    (hw : tl_check_tensor h src = true) (h0 : 0 < dims.length)
    (h8 : (dims.length : Int) ≤ TL_MAXDIM) (hpos : ∀ x ∈ dims, 0 < x)
    (hchk : tl_tensor_broadcast_to_check src (dims.length : Int) dims
      (List.range dims.length) = true) :
    tl_tensor_broadcast_to E h src (some d) (dims.length : Int) dims =
      if (decide (d.ndim = (dims.length : Int)) &&
          (List.range dims.length).all
            (fun i => decide (d.dims.getD i 0 = dims.getD i 0))) = true
      then
        if d.dtype = src.dtype then
          .ok d ((List.range d.len.toNat).foldl
            (tl_tensor_broadcast_to_body src d (dims.length : Int)
              (tl_compute_broadcast_strides src dims.length dims
                (List.replicate dims.length 0)))
            (h, List.replicate dims.length 0)).1
        else .raw d
      else .abort := by
  have hall : (List.range dims.length).all (fun i => decide (dims.getD i 0 > 0)) = true := by
    rw [List.all_eq_true]
    intro i hi
    have hi' : i < dims.length := by simpa using hi
    rw [List.getD_eq_getElem _ _ hi']
    simpa using hpos _ (List.getElem_mem _)
  have hrange : (decide ((dims.length : Int) > 0) &&
      decide ((dims.length : Int) ≤ TL_MAXDIM)) = true := by
    simp only [Bool.and_eq_true, decide_eq_true_eq]
    exact ⟨by omega, h8⟩
  unfold tl_tensor_broadcast_to
  simp only [hw, Int.toNat_ofNat, hall, hrange, hchk, Bool.not_true, if_false,
    Bool.false_eq_true]
  split_ifs with hA hB
  · simp only [if_pos hB]
  · simp only [if_neg hB]
  · rfl

theorem all_dims_false_of_mismatch (n : Nat) (A d : List Int) (b : Bool)
    (hmis : ∃ i, i < n ∧ d.getD i 0 ≠ A.getD i 0) :
    (b && (List.range n).all (fun i => decide (d.getD i 0 = A.getD i 0))) = false := by
  obtain ⟨i, hi, hne⟩ := hmis
  have : (List.range n).all (fun i => decide (d.getD i 0 = A.getD i 0)) = false := by
    rw [List.all_eq_false]
    exact ⟨i, by simpa using hi, by simpa using hne⟩
  rw [this, Bool.and_false]

/-- C11 (as amended): a destination whose rank or some extent differs from the
required output shape is a fatal fault, not a recoverable one.  On
well-formed, compatible operands of one dtype `tl_tensor_elew_broadcast`
aborts on such a destination, and on a well-formed source and a well-formed,
validated target shape `tl_tensor_broadcast_to` aborts on such a
destination; neither returns null. -/
theorem dst_shape_mismatch_aborts {α Op : Type} [Inhabited α] (E : tl_dispatch α Op)
    (h : Heap α) (src1 src2 d1 : tl_tensor) (elew_op : Op)
    (hw1 : tl_check_tensor h src1 = true) (hw2 : tl_check_tensor h src2 = true)
    (hdt : src1.dtype = src2.dtype) (hc : broadcastCompatible src1.dims src2.dims)
    (hmis1 : d1.ndim ≠ ((broadcastShape src1.dims src2.dims).length : Int) ∨
      ∃ i, i < (broadcastShape src1.dims src2.dims).length ∧
        d1.dims.getD i 0 ≠ (broadcastShape src1.dims src2.dims).getD i 0)
    (src d2 : tl_tensor) (ndim : Int) (dims : List Int)
    (hw : tl_check_tensor h src = true) (h0 : 0 < ndim) (h8 : ndim ≤ TL_MAXDIM)
    (hlen : dims.length = ndim.toNat) (hpos : ∀ x ∈ dims, 0 < x)
    (hchk : tl_tensor_broadcast_to_check src ndim dims (List.range ndim.toNat) = true)
    (hmis2 : d2.ndim ≠ ndim ∨ ∃ i, i < dims.length ∧ d2.dims.getD i 0 ≠ dims.getD i 0) :
    tl_tensor_elew_broadcast E h src1 src2 (some d1) elew_op = .abort ∧
    tl_tensor_broadcast_to E h src (some d2) ndim dims = .abort := by
  have hnd : ndim = (dims.length : Int) := by
    have := Int.toNat_of_nonneg (le_of_lt h0)
    rw [← hlen] at this
    exact this.symm
  subst hnd
  rw [Int.toNat_ofNat] at hchk
  constructor
  · rw [elew_broadcast_some E h src1 src2 d1 elew_op hw1 hw2 hdt hc]
    have hf : (decide (d1.ndim = ((broadcastShape src1.dims src2.dims).length : Int)) &&
        (List.range (broadcastShape src1.dims src2.dims).length).all
          (fun i => decide (d1.dims.getD i 0 = (broadcastShape src1.dims src2.dims).getD i 0)) &&
        decide (d1.dtype = src1.dtype)) = false := by
      rcases hmis1 with hr | hx
      · have : decide (d1.ndim = ((broadcastShape src1.dims src2.dims).length : Int)) = false := by
          simpa using hr
        rw [this, Bool.false_and, Bool.false_and]
      · rw [all_dims_false_of_mismatch _ _ _ _ hx, Bool.false_and]
    rw [hf]
    rfl
  · rw [broadcast_to_some E h src d2 dims hw (by omega) h8 hpos hchk]
    have hf : (decide (d2.ndim = (dims.length : Int)) &&
        (List.range dims.length).all
          (fun i => decide (d2.dims.getD i 0 = dims.getD i 0))) = false := by
      rcases hmis2 with hr | hx
      · have : decide (d2.ndim = (dims.length : Int)) = false := by simpa using hr
        rw [this, Bool.false_and]
      · exact all_dims_false_of_mismatch _ _ _ _ hx
    rw [hf]
    rfl

theorem dst_shape_mismatch_aborts_witness :
    tl_check_tensor [[(1 : Int), 2], [10, 20, 30], List.replicate 6 0] ⟨0, 2, 2, [2, 1], 0⟩ =
      true ∧
    tl_check_tensor [[(1 : Int), 2], [10, 20, 30], List.replicate 6 0] ⟨0, 3, 2, [1, 3], 1⟩ =
      true ∧
    broadcastCompatible [2, 1] [1, 3] ∧
    tl_tensor_broadcast_to_check ⟨0, 2, 2, [2, 1], 0⟩ 2 [2, 3] (List.range (2 : Int).toNat) =
      true ∧
    tl_tensor_elew_broadcast (⟨0, fun _ a b _ => a + b⟩ : tl_dispatch Int Unit)
        [[1, 2], [10, 20, 30], List.replicate 6 0] ⟨0, 2, 2, [2, 1], 0⟩ ⟨0, 3, 2, [1, 3], 1⟩
        (some ⟨0, 6, 2, [3, 2], 2⟩) () = .abort ∧
    tl_tensor_broadcast_to (⟨0, fun _ a b _ => a + b⟩ : tl_dispatch Int Unit)
        [[1, 2], [10, 20, 30], List.replicate 6 0] ⟨0, 2, 2, [2, 1], 0⟩
        (some ⟨0, 6, 2, [3, 2], 2⟩) 2 [2, 3] = .abort :=
  have hc : broadcastCompatible [2, 1] [1, 3] := by
    unfold broadcastCompatible extentsCompatible
    decide
  ⟨by decide, by decide, hc, by decide,
    dst_shape_mismatch_aborts (⟨0, fun _ a b _ => a + b⟩ : tl_dispatch Int Unit)
      [[1, 2], [10, 20, 30], List.replicate 6 0] ⟨0, 2, 2, [2, 1], 0⟩ ⟨0, 3, 2, [1, 3], 1⟩
      ⟨0, 6, 2, [3, 2], 2⟩ () (by decide) (by decide) rfl hc
      (Or.inr ⟨0, by decide, by decide⟩)
      ⟨0, 2, 2, [2, 1], 0⟩ ⟨0, 6, 2, [3, 2], 2⟩ 2 [2, 3]
      (by decide) (by decide) (by decide) (by decide) (by decide) (by decide)
      (Or.inr ⟨0, by decide, by decide⟩)⟩

/-- C11 (counterexample): the operands (2,1) and (1,3) require the output
shape (2,3); with a well-formed destination of shape (3,2) the engine does not
return null but aborts, and so does the materialiser for the source (2,1),
the target shape (2,3) and the same destination. -/
theorem dst_shape_mismatch_not_null :
    tl_check_tensor [[(1 : Int), 2], [10, 20, 30], List.replicate 6 0] ⟨0, 6, 2, [3, 2], 2⟩ =
      true ∧
    tl_tensor_isbroadcastable ⟨0, 2, 2, [2, 1], 0⟩ ⟨0, 3, 2, [1, 3], 1⟩ = 1 ∧
    tl_tensor_elew_broadcast (⟨0, fun _ a b _ => a + b⟩ : tl_dispatch Int Unit)
        [[1, 2], [10, 20, 30], List.replicate 6 0] ⟨0, 2, 2, [2, 1], 0⟩ ⟨0, 3, 2, [1, 3], 1⟩
        (some ⟨0, 6, 2, [3, 2], 2⟩) () = .abort ∧
    (∀ h', tl_tensor_elew_broadcast (⟨0, fun _ a b _ => a + b⟩ : tl_dispatch Int Unit)
        [[1, 2], [10, 20, 30], List.replicate 6 0] ⟨0, 2, 2, [2, 1], 0⟩ ⟨0, 3, 2, [1, 3], 1⟩
        (some ⟨0, 6, 2, [3, 2], 2⟩) () ≠ .null h') ∧
    tl_tensor_broadcast_to (⟨0, fun _ a b _ => a + b⟩ : tl_dispatch Int Unit)
        [[1, 2], [10, 20, 30], List.replicate 6 0] ⟨0, 2, 2, [2, 1], 0⟩
        (some ⟨0, 6, 2, [3, 2], 2⟩) 2 [2, 3] = .abort ∧
    (∀ h', tl_tensor_broadcast_to (⟨0, fun _ a b _ => a + b⟩ : tl_dispatch Int Unit)
        [[1, 2], [10, 20, 30], List.replicate 6 0] ⟨0, 2, 2, [2, 1], 0⟩
        (some ⟨0, 6, 2, [3, 2], 2⟩) 2 [2, 3] ≠ .null h') := by
  have e1 : tl_tensor_elew_broadcast (⟨0, fun _ a b _ => a + b⟩ : tl_dispatch Int Unit)
      [[1, 2], [10, 20, 30], List.replicate 6 0] ⟨0, 2, 2, [2, 1], 0⟩ ⟨0, 3, 2, [1, 3], 1⟩
      (some ⟨0, 6, 2, [3, 2], 2⟩) () = .abort := by decide
  have e2 : tl_tensor_broadcast_to (⟨0, fun _ a b _ => a + b⟩ : tl_dispatch Int Unit)
      [[1, 2], [10, 20, 30], List.replicate 6 0] ⟨0, 2, 2, [2, 1], 0⟩
      (some ⟨0, 6, 2, [3, 2], 2⟩) 2 [2, 3] = .abort := by decide
  refine ⟨by decide, by decide, e1, fun h' hh => ?_, e2, fun h' hh => ?_⟩
  · rw [e1] at hh; cases hh
  · rw [e2] at hh; cases hh

/-- C12 (the code at the failing input): the source has dtype tag 0, the
supplied destination has the same shape (3,) and dtype tag 1;
`tl_tensor_broadcast_to` checks rank and extents of the destination only, so
the call neither aborts nor returns null: it returns the destination after
the copy loop has moved the source's bytes into its storage, while
`tl_tensor_elew_broadcast` aborts on the same destination. -/
theorem broadcast_to_dtype_unchecked :
    tl_check_tensor [[(1 : Int), 2, 3], [7, 7, 7]] ⟨0, 3, 1, [3], 0⟩ = true ∧
    tl_tensor_broadcast_to (⟨0, fun _ a b _ => a + b⟩ : tl_dispatch Int Unit)
        [[1, 2, 3], [7, 7, 7]] ⟨0, 3, 1, [3], 0⟩ (some ⟨1, 3, 1, [3], 1⟩) 1 [3] =
      .raw ⟨1, 3, 1, [3], 1⟩ ∧
    tl_tensor_elew_broadcast (⟨0, fun _ a b _ => a + b⟩ : tl_dispatch Int Unit)
        [[1, 2, 3], [7, 7, 7]] ⟨0, 3, 1, [3], 0⟩ ⟨0, 3, 1, [3], 0⟩
        (some ⟨1, 3, 1, [3], 1⟩) () = .abort := by
  decide

/-- C14: atomicity on failure.  Whenever `tl_tensor_elew_broadcast` or
`tl_tensor_broadcast_to` returns null while a destination was passed, the heap
after the call is the heap before the call: no element of the destination (or
of any other array) has been written, and the destination's descriptor, which
neither function ever assigns to, is as it was. -/
theorem null_leaves_destination {α Op : Type} [Inhabited α] (E : tl_dispatch α Op)
    (h : Heap α) (src1 src2 d : tl_tensor) (elew_op : Op) (ndim : Int) (dims : List Int) :
    (∀ h', tl_tensor_elew_broadcast E h src1 src2 (some d) elew_op = .null h' → h' = h) ∧
    (∀ h', tl_tensor_broadcast_to E h src1 (some d) ndim dims = .null h' → h' = h) := by
  constructor
  · intro h' hn
    unfold tl_tensor_elew_broadcast at hn
    simp only [] at hn
    split_ifs at hn
    · injection hn with e; exact e.symm
  · intro h' hn
    unfold tl_tensor_broadcast_to at hn
    simp only [] at hn
    split_ifs at hn
    all_goals first
      | (injection hn with e; exact e.symm)
      | (simp only [] at hn; split_ifs at hn)

theorem null_leaves_destination_witness :
    tl_tensor_elew_broadcast (⟨0, fun _ a b _ => a + b⟩ : tl_dispatch Int Unit)
        [List.replicate 12 1, List.replicate 8 2, List.replicate 12 5]
        ⟨0, 12, 2, [3, 4], 0⟩ ⟨0, 8, 2, [2, 4], 1⟩ (some ⟨0, 12, 2, [3, 4], 2⟩) () =
      .null [List.replicate 12 1, List.replicate 8 2, List.replicate 12 5] ∧
    tl_tensor_broadcast_to (⟨0, fun _ a b _ => a + b⟩ : tl_dispatch Int Unit)
        [List.replicate 12 1, List.replicate 8 2, List.replicate 12 5]
        ⟨0, 12, 2, [3, 4], 0⟩ (some ⟨0, 12, 2, [3, 4], 2⟩) 2 [2, 4] =
      .null [List.replicate 12 1, List.replicate 8 2, List.replicate 12 5] ∧
    ((∀ h', tl_tensor_elew_broadcast (⟨0, fun _ a b _ => a + b⟩ : tl_dispatch Int Unit)
        [List.replicate 12 1, List.replicate 8 2, List.replicate 12 5]
        ⟨0, 12, 2, [3, 4], 0⟩ ⟨0, 8, 2, [2, 4], 1⟩ (some ⟨0, 12, 2, [3, 4], 2⟩) () =
        .null h' → h' = [List.replicate 12 1, List.replicate 8 2, List.replicate 12 5]) ∧
     (∀ h', tl_tensor_broadcast_to (⟨0, fun _ a b _ => a + b⟩ : tl_dispatch Int Unit)
        [List.replicate 12 1, List.replicate 8 2, List.replicate 12 5]
        ⟨0, 12, 2, [3, 4], 0⟩ (some ⟨0, 12, 2, [3, 4], 2⟩) 2 [2, 4] =
        .null h' → h' = [List.replicate 12 1, List.replicate 8 2, List.replicate 12 5])) :=
  ⟨by decide, by decide,
    null_leaves_destination (⟨0, fun _ a b _ => a + b⟩ : tl_dispatch Int Unit)
      [List.replicate 12 1, List.replicate 8 2, List.replicate 12 5]
      ⟨0, 12, 2, [3, 4], 0⟩ ⟨0, 8, 2, [2, 4], 1⟩ ⟨0, 12, 2, [3, 4], 2⟩ () 2 [2, 4]⟩

/-- C15: the two error classes of `tl_tensor_elew_broadcast` are disjoint and
ordered.  For well-formed operands, whatever destination is passed: operands
`a`, `b` of different dtypes make the call abort for every pair of shapes,
compatible or not, so it never returns null; operands `c`, `d` of one dtype
with incompatible shapes make the call return null, so it never aborts. -/
theorem elew_broadcast_error_classes {α Op : Type} [Inhabited α] (E : tl_dispatch α Op)
    (h : Heap α) (a b c d : tl_tensor) (dst dst' : Option tl_tensor) (elew_op : Op)
    (hwa : tl_check_tensor h a = true) (hwb : tl_check_tensor h b = true)
    (hwc : tl_check_tensor h c = true) (hwd : tl_check_tensor h d = true) :
    (a.dtype ≠ b.dtype → tl_tensor_elew_broadcast E h a b dst elew_op = .abort) ∧
    (c.dtype = d.dtype → ¬ broadcastCompatible c.dims d.dims →
      tl_tensor_elew_broadcast E h c d dst' elew_op = .null h) := by
  constructor
  · intro hne
    have hdt' : decide (a.dtype = b.dtype) = false := by simpa using hne
    unfold tl_tensor_elew_broadcast
    simp only [hwa, hwb, hdt', Bool.not_true, Bool.not_false, if_false, if_true,
      Bool.false_eq_true]
  · intro hdt hnc
    obtain ⟨hwf1, -⟩ := check_tensor_spec h c hwc
    obtain ⟨hwf2, -⟩ := check_tensor_spec h d hwd
    have hiso : tl_tensor_isbroadcastable c d = 0 := by
      rcases isbroadcastable_values c d with h0 | h1
      · exact h0
      · exact absurd ((isbroadcastable_iff_aligned c d hwf1 hwf2).mp h1) hnc
    exact elew_broadcast_of_incompatible E h c d dst' elew_op hwc hwd hdt hiso

theorem elew_broadcast_error_classes_witness :
    tl_check_tensor [List.replicate 12 (1 : Int), List.replicate 8 2] ⟨0, 12, 2, [3, 4], 0⟩ =
      true ∧
    tl_check_tensor [List.replicate 12 (1 : Int), List.replicate 8 2] ⟨1, 8, 2, [2, 4], 1⟩ =
      true ∧
    tl_check_tensor [List.replicate 12 (1 : Int), List.replicate 8 2] ⟨0, 8, 2, [2, 4], 1⟩ =
      true ∧
    (0 : Nat) ≠ 1 ∧ ¬ broadcastCompatible [3, 4] [2, 4] ∧
    tl_tensor_elew_broadcast (⟨0, fun _ a b _ => a + b⟩ : tl_dispatch Int Unit)
        [List.replicate 12 1, List.replicate 8 2] ⟨0, 12, 2, [3, 4], 0⟩ ⟨1, 8, 2, [2, 4], 1⟩
        none () = .abort ∧
    tl_tensor_elew_broadcast (⟨0, fun _ a b _ => a + b⟩ : tl_dispatch Int Unit)
        [List.replicate 12 1, List.replicate 8 2] ⟨0, 12, 2, [3, 4], 0⟩ ⟨0, 8, 2, [2, 4], 1⟩
        none () = .null [List.replicate 12 1, List.replicate 8 2] :=
  have hnc : ¬ broadcastCompatible [3, 4] [2, 4] := by
    unfold broadcastCompatible extentsCompatible
    decide
  have key := elew_broadcast_error_classes
    (⟨0, fun _ a b _ => a + b⟩ : tl_dispatch Int Unit)
    [List.replicate 12 1, List.replicate 8 2] ⟨0, 12, 2, [3, 4], 0⟩ ⟨1, 8, 2, [2, 4], 1⟩
    ⟨0, 12, 2, [3, 4], 0⟩ ⟨0, 8, 2, [2, 4], 1⟩ none none ()
    (by decide) (by decide) (by decide) (by decide)
  ⟨by decide, by decide, by decide, by decide, hnc, key.1 (by decide), key.2 rfl hnc⟩

/-! ## Invariants of the derived shape and strides -/

/-- C16: shape well-formedness is preserved.  For operand shapes of rank
between 1 and `TL_MAXDIM` with positive extents, the shape derived by
`tl_compute_broadcast_dims` has a rank between 1 and `TL_MAXDIM`, so every
write stays inside the `TL_MAXDIM`-sized buffer `out_dims`, and all its
extents are positive: the derived rank and extents form a well-formed
shape. -/
theorem broadcast_dims_wellformed (t1 t2 : tl_tensor) (h1 : wfShape t1) (h2 : wfShape t2)
    (hm1 : t1.ndim ≤ TL_MAXDIM) (hm2 : t2.ndim ≤ TL_MAXDIM) (buf : List Int)
    (hbuf : buf.length = TL_MAXDIM.toNat) :
    1 ≤ (tl_compute_broadcast_dims t1 t2 buf).1 ∧
    (tl_compute_broadcast_dims t1 t2 buf).1 ≤ TL_MAXDIM ∧
    (tl_compute_broadcast_dims t1 t2 buf).1.toNat ≤ buf.length ∧
    (tl_compute_broadcast_dims t1 t2 buf).2.length = buf.length ∧
    (∀ j, j < (tl_compute_broadcast_dims t1 t2 buf).1.toNat →
      0 < (tl_compute_broadcast_dims t1 t2 buf).2.getD j 0) ∧
    wfShape
      { dtype := t1.dtype,
        len := tl_compute_length (tl_compute_broadcast_dims t1 t2 buf).1
          (tl_compute_broadcast_dims t1 t2 buf).2,
        ndim := (tl_compute_broadcast_dims t1 t2 buf).1,
        dims := (tl_compute_broadcast_dims t1 t2 buf).2.take
          (tl_compute_broadcast_dims t1 t2 buf).1.toNat,
        data := 0 } := by
  have e1 := wfShape_ndim t1 h1
  have e2 := wfShape_ndim t2 h2
  have p1 := h1.1
  have hfst := broadcast_dims_fst t1 t2 h1 h2 buf
  have hle : max t1.dims.length t2.dims.length ≤ buf.length := by
    rw [hbuf]
    simp only [TL_MAXDIM] at *
    omega
  have hlen : (tl_compute_broadcast_dims t1 t2 buf).2.length = buf.length := by
    unfold tl_compute_broadcast_dims
    simp only []
    rw [broadcast_dims_fold_length]
  have hpos : ∀ j, j < (tl_compute_broadcast_dims t1 t2 buf).1.toNat →
      0 < (tl_compute_broadcast_dims t1 t2 buf).2.getD j 0 := by
    intro j hj
    rw [hfst, Int.toNat_ofNat] at hj
    rw [broadcast_dims_getD t1 t2 h1 h2 buf hle j hj]
    exact lt_of_lt_of_le (padShape_pos _ t1.dims h1.2.2 j hj (le_max_left _ _))
      (le_max_left _ _)
  refine ⟨?_, ?_, ?_, hlen, hpos, ?_, ?_, ?_⟩
  · rw [hfst]; omega
  · rw [hfst]; simp only [TL_MAXDIM] at *; omega
  · rw [hfst, Int.toNat_ofNat]; exact hle
  · show 0 < (tl_compute_broadcast_dims t1 t2 buf).1
    rw [hfst]; omega
  · show ((tl_compute_broadcast_dims t1 t2 buf).2.take
        (tl_compute_broadcast_dims t1 t2 buf).1.toNat).length =
      (tl_compute_broadcast_dims t1 t2 buf).1.toNat
    rw [List.length_take, hlen, hfst, Int.toNat_ofNat]
    omega
  · intro x hx
    have hx' : x ∈ (tl_compute_broadcast_dims t1 t2 buf).2.take
        (tl_compute_broadcast_dims t1 t2 buf).1.toNat := hx
    obtain ⟨j, hj, rfl⟩ := List.getElem_of_mem hx'
    have hj' : j < (tl_compute_broadcast_dims t1 t2 buf).1.toNat := by
      rw [List.length_take] at hj
      omega
    have := hpos j hj'
    rw [← take_getD _ _ _ hj', List.getD_eq_getElem _ _ hj] at this
    exact this

theorem broadcast_dims_wellformed_witness :
    wfShape ⟨0, 24, 3, [2, 3, 4], 0⟩ ∧ wfShape ⟨0, 4, 1, [4], 1⟩ ∧
    (tl_compute_broadcast_dims ⟨0, 24, 3, [2, 3, 4], 0⟩ ⟨0, 4, 1, [4], 1⟩
        (List.replicate 8 0)) = (3, [2, 3, 4, 0, 0, 0, 0, 0]) ∧
    (1 ≤ (tl_compute_broadcast_dims ⟨0, 24, 3, [2, 3, 4], 0⟩ ⟨0, 4, 1, [4], 1⟩
        (List.replicate 8 0)).1 ∧
    (tl_compute_broadcast_dims ⟨0, 24, 3, [2, 3, 4], 0⟩ ⟨0, 4, 1, [4], 1⟩
        (List.replicate 8 0)).1 ≤ TL_MAXDIM ∧
    (tl_compute_broadcast_dims ⟨0, 24, 3, [2, 3, 4], 0⟩ ⟨0, 4, 1, [4], 1⟩
        (List.replicate 8 0)).1.toNat ≤ (List.replicate 8 (0 : Int)).length ∧
    (tl_compute_broadcast_dims ⟨0, 24, 3, [2, 3, 4], 0⟩ ⟨0, 4, 1, [4], 1⟩
        (List.replicate 8 0)).2.length = (List.replicate 8 (0 : Int)).length ∧
    (∀ j, j < (tl_compute_broadcast_dims ⟨0, 24, 3, [2, 3, 4], 0⟩ ⟨0, 4, 1, [4], 1⟩
        (List.replicate 8 0)).1.toNat →
      0 < (tl_compute_broadcast_dims ⟨0, 24, 3, [2, 3, 4], 0⟩ ⟨0, 4, 1, [4], 1⟩
        (List.replicate 8 0)).2.getD j 0) ∧
    wfShape
      { dtype := 0,
        len := tl_compute_length
          (tl_compute_broadcast_dims ⟨0, 24, 3, [2, 3, 4], 0⟩ ⟨0, 4, 1, [4], 1⟩
            (List.replicate 8 0)).1
          (tl_compute_broadcast_dims ⟨0, 24, 3, [2, 3, 4], 0⟩ ⟨0, 4, 1, [4], 1⟩
            (List.replicate 8 0)).2,
        ndim := (tl_compute_broadcast_dims ⟨0, 24, 3, [2, 3, 4], 0⟩ ⟨0, 4, 1, [4], 1⟩
          (List.replicate 8 0)).1,
        dims := (tl_compute_broadcast_dims ⟨0, 24, 3, [2, 3, 4], 0⟩ ⟨0, 4, 1, [4], 1⟩
          (List.replicate 8 0)).2.take
            (tl_compute_broadcast_dims ⟨0, 24, 3, [2, 3, 4], 0⟩ ⟨0, 4, 1, [4], 1⟩
              (List.replicate 8 0)).1.toNat,
        data := 0 }) :=
  ⟨by simp [wfShape], by simp [wfShape], by decide,
    broadcast_dims_wellformed ⟨0, 24, 3, [2, 3, 4], 0⟩ ⟨0, 4, 1, [4], 1⟩
      (by simp [wfShape]) (by simp [wfShape]) (by decide) (by decide) (List.replicate 8 0)
      (by decide)⟩

/-- C17: stride accumulation tracks the input's shape.  For an input with
positive extents whose product fits an `int`, on every output axis `j` aligned
with an input axis whose extent equals the output extent, the stride derived
by `tl_compute_broadcast_strides` is the product of the input's own extents at
all more minor input axes (1 for the last axis); the value does not depend on
the output extents at the other axes. -/
theorem broadcast_strides_track_input (t : tl_tensor) (hwf : wfShape t)
    (hfit : t.dims.prod ≤ INT_MAX) (N : Nat)
    (D buf : List Int) (hbuf : buf.length = N) (j : Nat) (hj : j < N)
    (hal : N ≤ j + t.dims.length)
    (heq : t.dims.getD (j + t.dims.length - N) 0 = D.getD j 0) :
    (tl_compute_broadcast_strides t N D buf).getD j 0 =
      (t.dims.drop (j + t.dims.length - N + 1)).prod ∧
    ∀ D' : List Int, D'.getD j 0 = D.getD j 0 →
      (tl_compute_broadcast_strides t N D' buf).getD j 0 =
        (tl_compute_broadcast_strides t N D buf).getD j 0 := by
  have hn := wfShape_ndim t hwf
  have key : ∀ D' : List Int, D'.getD j 0 = D.getD j 0 →
      (tl_compute_broadcast_strides t N D' buf).getD j 0 =
        (t.dims.drop (j + t.dims.length - N + 1)).prod := by
    intro D' hD'
    rw [broadcast_strides_getD t hwf.2.1 (le_of_lt hwf.1) hwf.2.2 hfit N D' buf hbuf j hj]
    have e : (t.ndim - ((N : Int) - j)).toNat = j + t.dims.length - N := by omega
    have e2 : (t.ndim - ((N : Int) - j) + 1).toNat = j + t.dims.length - N + 1 := by omega
    have hc : t.ndim - ((N : Int) - j) ≥ 0 ∧
        rd t.dims (t.ndim - ((N : Int) - j)) = D'.getD j 0 := by
      refine ⟨by omega, ?_⟩
      unfold rd
      rw [e, heq, hD']
    rw [if_pos hc, e2]
  refine ⟨key D rfl, fun D' hD' => ?_⟩
  rw [key D' hD', key D rfl]

theorem broadcast_strides_track_input_witness :
    wfShape ⟨0, 6, 2, [2, 3], 0⟩ ∧ [(2 : Int), 3].prod ≤ INT_MAX ∧
    tl_compute_broadcast_strides ⟨0, 6, 2, [2, 3], 0⟩ 3 [5, 2, 3] [0, 0, 0] = [0, 3, 1] ∧
    ((tl_compute_broadcast_strides ⟨0, 6, 2, [2, 3], 0⟩ (3 : Nat) [5, 2, 3] [0, 0, 0]).getD 1 0 =
        ([(2 : Int), 3].drop (1 + [(2 : Int), 3].length - 3 + 1)).prod ∧
      ∀ D' : List Int, D'.getD 1 0 = [(5 : Int), 2, 3].getD 1 0 →
        (tl_compute_broadcast_strides ⟨0, 6, 2, [2, 3], 0⟩ (3 : Nat) D' [0, 0, 0]).getD 1 0 =
          (tl_compute_broadcast_strides ⟨0, 6, 2, [2, 3], 0⟩ (3 : Nat) [5, 2, 3]
            [0, 0, 0]).getD 1 0) :=
  ⟨by simp [wfShape], by decide, by decide,
    broadcast_strides_track_input ⟨0, 6, 2, [2, 3], 0⟩ (by simp [wfShape]) (by decide) 3
      [5, 2, 3] [0, 0, 0] rfl 1 (by decide) (by decide) (by decide)⟩

/-- C18: the upstream checks prevent the unspecified stride case.  Where
`tl_tensor_elew_broadcast` reaches `tl_compute_broadcast_strides` (operands
well-formed, `tl_tensor_isbroadcastable` not 0, output shape from
`tl_compute_broadcast_dims`), and where `tl_tensor_broadcast_to` reaches it
(validation loop passed), every input axis aligned with an output axis has an
extent equal to 1 or to the extent of that output axis. -/
theorem strides_precondition_holds (src1 src2 : tl_tensor) (hwf1 : wfShape src1)
    (hwf2 : wfShape src2) (hm1 : src1.ndim ≤ TL_MAXDIM) (hm2 : src2.ndim ≤ TL_MAXDIM)
    (hiso : tl_tensor_isbroadcastable src1 src2 ≠ 0)
    (src : tl_tensor) (ndim : Int) (dims : List Int)
    (hchk : tl_tensor_broadcast_to_check src ndim dims (List.range ndim.toNat) = true) :
    (∀ j, j < (tl_compute_broadcast_dims src1 src2
          (List.replicate TL_MAXDIM.toNat 0)).1.toNat →
      (src1.ndim - ((tl_compute_broadcast_dims src1 src2
          (List.replicate TL_MAXDIM.toNat 0)).1 - (j : Int)) ≥ 0 →
        rd src1.dims (src1.ndim - ((tl_compute_broadcast_dims src1 src2
          (List.replicate TL_MAXDIM.toNat 0)).1 - (j : Int))) = 1 ∨
        rd src1.dims (src1.ndim - ((tl_compute_broadcast_dims src1 src2
          (List.replicate TL_MAXDIM.toNat 0)).1 - (j : Int))) =
          (tl_compute_broadcast_dims src1 src2
            (List.replicate TL_MAXDIM.toNat 0)).2.getD j 0) ∧
      (src2.ndim - ((tl_compute_broadcast_dims src1 src2
          (List.replicate TL_MAXDIM.toNat 0)).1 - (j : Int)) ≥ 0 →
        rd src2.dims (src2.ndim - ((tl_compute_broadcast_dims src1 src2
          (List.replicate TL_MAXDIM.toNat 0)).1 - (j : Int))) = 1 ∨
        rd src2.dims (src2.ndim - ((tl_compute_broadcast_dims src1 src2
          (List.replicate TL_MAXDIM.toNat 0)).1 - (j : Int))) =
          (tl_compute_broadcast_dims src1 src2
            (List.replicate TL_MAXDIM.toNat 0)).2.getD j 0)) ∧
    (∀ i, i < ndim.toNat → src.ndim - (ndim - (i : Int)) ≥ 0 →
      rd src.dims (src.ndim - (ndim - (i : Int))) = 1 ∨
      rd src.dims (src.ndim - (ndim - (i : Int))) = dims.getD i 0) := by
  have e1 := wfShape_ndim src1 hwf1
  have e2 := wfShape_ndim src2 hwf2
  have hc : broadcastCompatible src1.dims src2.dims := by
    apply (isbroadcastable_iff_aligned src1 src2 hwf1 hwf2).mp
    rcases isbroadcastable_values src1 src2 with h0 | h1
    · exact absurd h0 hiso
    · exact h1
  have hbuf : max src1.dims.length src2.dims.length ≤
      (List.replicate TL_MAXDIM.toNat (0 : Int)).length := by
    simp only [List.length_replicate, TL_MAXDIM] at *
    omega
  have hfst := broadcast_dims_fst src1 src2 hwf1 hwf2 (List.replicate TL_MAXDIM.toNat 0)
  have hget : ∀ j, j < max src1.dims.length src2.dims.length →
      (tl_compute_broadcast_dims src1 src2 (List.replicate TL_MAXDIM.toNat 0)).2.getD j 0 =
        (broadcastShape src1.dims src2.dims).getD j 0 := by
    intro j hj
    rw [← broadcast_dims_take src1 src2 hwf1 hwf2 _ hbuf, take_getD _ _ _ hj]
  have hb1 := broadcastableTo_left _ _ hwf1.2.2 hwf2.2.2 hc
  have hb2 := broadcastableTo_left _ _ hwf2.2.2 hwf1.2.2 (broadcastCompatible_symm _ _ hc)
  rw [broadcastShape_comm src2.dims src1.dims] at hb2
  have haxis : ∀ (t : tl_tensor), t.ndim = (t.dims.length : Int) →
      broadcastableTo t.dims (broadcastShape src1.dims src2.dims) →
      ∀ j, j < max src1.dims.length src2.dims.length →
        t.ndim - (((max src1.dims.length src2.dims.length : Nat) : Int) - (j : Int)) ≥ 0 →
        rd t.dims (t.ndim - (((max src1.dims.length src2.dims.length : Nat) : Int) -
            (j : Int))) = 1 ∨
        rd t.dims (t.ndim - (((max src1.dims.length src2.dims.length : Nat) : Int) -
            (j : Int))) = (broadcastShape src1.dims src2.dims).getD j 0 := by
    intro t et hb j hj hp
    obtain ⟨hr, hcompat⟩ := hb
    rw [broadcastShape_length] at hr hcompat
    have e : (t.ndim - (((max src1.dims.length src2.dims.length : Nat) : Int) -
        (j : Int))).toNat = j - (max src1.dims.length src2.dims.length - t.dims.length) := by
      omega
    have := hcompat (j - (max src1.dims.length src2.dims.length - t.dims.length)) (by omega)
    have e' : max src1.dims.length src2.dims.length - t.dims.length +
        (j - (max src1.dims.length src2.dims.length - t.dims.length)) = j := by omega
    rw [e'] at this
    unfold rd
    rw [e]
    exact this
  constructor
  · intro j hj
    rw [hfst, Int.toNat_ofNat] at hj
    rw [hfst, hget j hj]
    exact ⟨haxis src1 e1 hb1 j hj, haxis src2 e2 hb2 j hj⟩
  · intro i hi hp
    exact (broadcast_to_check_iff src ndim dims _).mp hchk i (by simpa using hi) hp

theorem strides_precondition_holds_witness :
    wfShape ⟨0, 2, 2, [2, 1], 0⟩ ∧ wfShape ⟨0, 3, 1, [3], 1⟩ ∧
    tl_tensor_isbroadcastable ⟨0, 2, 2, [2, 1], 0⟩ ⟨0, 3, 1, [3], 1⟩ ≠ 0 ∧
    tl_tensor_broadcast_to_check ⟨0, 3, 1, [3], 1⟩ 2 [2, 3] (List.range (2 : Int).toNat) =
      true ∧
    tl_compute_broadcast_dims ⟨0, 2, 2, [2, 1], 0⟩ ⟨0, 3, 1, [3], 1⟩
      (List.replicate TL_MAXDIM.toNat 0) = (2, [2, 3, 0, 0, 0, 0, 0, 0]) ∧
    ((∀ j, j < (tl_compute_broadcast_dims ⟨0, 2, 2, [2, 1], 0⟩ ⟨0, 3, 1, [3], 1⟩
          (List.replicate TL_MAXDIM.toNat 0)).1.toNat →
      ((2 : Int) - ((tl_compute_broadcast_dims ⟨0, 2, 2, [2, 1], 0⟩ ⟨0, 3, 1, [3], 1⟩
          (List.replicate TL_MAXDIM.toNat 0)).1 - (j : Int)) ≥ 0 →
        rd [2, 1] ((2 : Int) - ((tl_compute_broadcast_dims ⟨0, 2, 2, [2, 1], 0⟩
          ⟨0, 3, 1, [3], 1⟩ (List.replicate TL_MAXDIM.toNat 0)).1 - (j : Int))) = 1 ∨
        rd [2, 1] ((2 : Int) - ((tl_compute_broadcast_dims ⟨0, 2, 2, [2, 1], 0⟩
          ⟨0, 3, 1, [3], 1⟩ (List.replicate TL_MAXDIM.toNat 0)).1 - (j : Int))) =
          (tl_compute_broadcast_dims ⟨0, 2, 2, [2, 1], 0⟩ ⟨0, 3, 1, [3], 1⟩
            (List.replicate TL_MAXDIM.toNat 0)).2.getD j 0) ∧
      ((1 : Int) - ((tl_compute_broadcast_dims ⟨0, 2, 2, [2, 1], 0⟩ ⟨0, 3, 1, [3], 1⟩
          (List.replicate TL_MAXDIM.toNat 0)).1 - (j : Int)) ≥ 0 →
        rd [3] ((1 : Int) - ((tl_compute_broadcast_dims ⟨0, 2, 2, [2, 1], 0⟩
          ⟨0, 3, 1, [3], 1⟩ (List.replicate TL_MAXDIM.toNat 0)).1 - (j : Int))) = 1 ∨
        rd [3] ((1 : Int) - ((tl_compute_broadcast_dims ⟨0, 2, 2, [2, 1], 0⟩
          ⟨0, 3, 1, [3], 1⟩ (List.replicate TL_MAXDIM.toNat 0)).1 - (j : Int))) =
          (tl_compute_broadcast_dims ⟨0, 2, 2, [2, 1], 0⟩ ⟨0, 3, 1, [3], 1⟩
            (List.replicate TL_MAXDIM.toNat 0)).2.getD j 0)) ∧
    (∀ i, i < (2 : Int).toNat → (1 : Int) - (2 - (i : Int)) ≥ 0 →
      rd [3] ((1 : Int) - (2 - (i : Int))) = 1 ∨
      rd [3] ((1 : Int) - (2 - (i : Int))) = [(2 : Int), 3].getD i 0)) :=
  ⟨by simp [wfShape], by simp [wfShape], by decide, by decide, by decide,
    strides_precondition_holds ⟨0, 2, 2, [2, 1], 0⟩ ⟨0, 3, 1, [3], 1⟩ (by simp [wfShape])
      (by simp [wfShape]) (by decide) (by decide) (by decide) ⟨0, 3, 1, [3], 1⟩ 2 [2, 3]
      (by decide)⟩

/-! ## Bounds of the source offsets -/

theorem coords_loop_take (k : Nat) :
    ∀ (dims : List Int) (index : Int) (coords : List Int),
      tl_tensor_coords_loop dims k index coords =
        tl_tensor_coords_loop (dims.take k) k index coords := by
  induction k with
  | zero => intro dims index coords; rfl
  | succ k ih =>
    intro dims index coords
    rw [coords_loop_succ, coords_loop_succ, take_getD _ _ _ (Nat.lt_succ_self k), ih dims,
      ih (dims.take (k + 1)), List.take_take, Nat.min_eq_left (Nat.le_succ k)]

/-- A destination that passes the assertions on rank and extents decodes
indices like the array of exactly the asserted shape. -/
theorem coords_of_matching_dst (dst : tl_tensor) (D : List Int) (hD : ∀ x ∈ D, 0 < x)
    (hnd : dst.ndim = (D.length : Int))
    (hdims : ∀ i, i < D.length → dst.dims.getD i 0 = D.getD i 0) (index : Int)
    (buf : List Int) :
    tl_tensor_coords dst index buf =
      tl_tensor_coords { dst with dims := D } index buf := by
  have hlen : D.length ≤ dst.dims.length := by
    by_contra hlt
    have h0 : 0 < D.length := by omega
    have hlast := hdims (D.length - 1) (by omega)
    rw [List.getD_eq_default _ _ (by omega), List.getD_eq_getElem _ _ (by omega)] at hlast
    have := hD _ (List.getElem_mem (l := D) (n := D.length - 1) (by omega))
    omega
  have htake : dst.dims.take D.length = D := by
    apply list_ext_getD
    · rw [List.length_take]; omega
    · intro j hj
      rw [List.length_take] at hj
      rw [take_getD _ _ _ (by omega), hdims j (by omega)]
  unfold tl_tensor_coords
  simp only [hnd, Int.toNat_ofNat]
  rw [coords_loop_take, htake, coords_loop_take D.length D, List.take_length]

theorem coords_coordsIn (t : tl_tensor) (hwf : wfShape t) (index : Int) (buf : List Int)
    (hbuf : buf.length = t.dims.length) :
    coordsIn t.dims (tl_tensor_coords t index buf) := by
  refine ⟨by rw [coords_length, hbuf], fun j hj => ?_⟩
  rw [coords_getD t hwf index buf hbuf j hj]
  have hp := wfShape_getD_pos t hwf j hj
  exact ⟨Int.emod_nonneg _ (ne_of_gt hp), Int.emod_lt_of_pos _ hp⟩

theorem operandCoords_coordsIn (s D c : List Int) (hs : ∀ x ∈ s, 0 < x)
    (hb : broadcastableTo s D) (hc : coordsIn D c) : coordsIn s (operandCoords s c) := by
  obtain ⟨hr, hcompat⟩ := hb
  obtain ⟨hcl, hcb⟩ := hc
  refine ⟨operandCoords_length _ _ (by omega), fun p hp => ?_⟩
  rw [operandCoords_getD _ _ (by omega) p hp, hcl]
  have hsp : 0 < s.getD p 0 := by
    rw [List.getD_eq_getElem _ _ hp]; exact hs _ (List.getElem_mem _)
  by_cases h1 : s.getD p 0 = 1
  · rw [if_pos h1]; omega
  · rw [if_neg h1]
    rcases hcompat p hp with h | h
    · exact absurd h h1
    · rw [h]
      exact hcb _ (by omega)

/-- Bounds of the stride-weighted sum: for an operand that can be broadcast to
the output shape and an output coordinate vector inside the output shape, the
source offset lies inside the operand. -/
theorem strides_sum_bounds (t : tl_tensor) (hwf : wfShape t)
    (hfit : t.dims.prod ≤ INT_MAX) (D buf c : List Int) (hbuf : buf.length = D.length)
    (hb : broadcastableTo t.dims D) (hc : coordsIn D c) :
    0 ≤ ∑ j in Finset.range D.length,
        c.getD j 0 * (tl_compute_broadcast_strides t D.length D buf).getD j 0 ∧
    ∑ j in Finset.range D.length,
        c.getD j 0 * (tl_compute_broadcast_strides t D.length D buf).getD j 0 <
      t.dims.prod := by
  rw [strides_sum_aligned t hwf hfit D buf c hbuf hb hc,
    ← rowMajorOffset_eq_sum t.dims _ (operandCoords_length _ _ (by rw [hc.1]; exact hb.1))]
  exact rowMajorOffset_bounds t.dims _ (operandCoords_coordsIn t.dims D c hwf.2.2 hb hc)

theorem drop_getD (l : List Int) (k j : Nat) : (l.drop k).getD j 0 = l.getD (k + j) 0 := by
  simp [List.getD_eq_getElem?_getD, List.getElem?_drop]

/-- A source whose rank exceeds the output rank gets the strides of the array
made of its trailing axes: the leading source axes are never looked at. -/
theorem strides_of_trailing (t : tl_tensor) (hwf : wfShape t) (N : Nat)
    (hN : N ≤ t.dims.length) (D buf : List Int) (hbuf : buf.length = N) :
    tl_compute_broadcast_strides t N D buf =
      tl_compute_broadcast_strides
        { t with ndim := (N : Int), dims := t.dims.drop (t.dims.length - N) } N D buf := by
  have hn := wfShape_ndim t hwf
  apply list_ext_getD
  · rw [broadcast_strides_length, broadcast_strides_length]
  · intro j hj
    rw [broadcast_strides_length, hbuf] at hj
    rw [broadcast_strides_getD_wrap t hwf.2.1 (le_of_lt hwf.1) N D buf hbuf j hj,
      broadcast_strides_getD_wrap _ (by simp only [List.length_drop, Int.toNat_ofNat]; omega)
        (by simp only []; omega) N D buf hbuf j hj]
    simp only []
    have e1 : (t.ndim - ((N : Int) - j)).toNat = t.dims.length - N + j := by omega
    have e2 : ((N : Int) - ((N : Int) - j)).toNat = j := by omega
    have e3 : (t.ndim - ((N : Int) - j) + 1).toNat = t.dims.length - N + (j + 1) := by omega
    have e4 : ((N : Int) - ((N : Int) - j) + 1).toNat = j + 1 := by omega
    have hrd : rd t.dims (t.ndim - ((N : Int) - j)) =
        rd (t.dims.drop (t.dims.length - N)) ((N : Int) - ((N : Int) - j)) := by
      unfold rd
      rw [e1, e2, drop_getD]
    rw [hrd, e3, e4, List.drop_drop]
    by_cases hc : rd (t.dims.drop (t.dims.length - N)) ((N : Int) - ((N : Int) - j)) = D.getD j 0
    · rw [if_pos ⟨by omega, hc⟩, if_pos ⟨by omega, hc⟩]
    · rw [if_neg (fun h => hc h.2), if_neg (fun h => hc h.2)]

theorem wfShape_trailing (t : tl_tensor) (hwf : wfShape t) (N : Nat) (h0 : 0 < N)
    (hN : N ≤ t.dims.length) :
    wfShape { t with ndim := (N : Int), dims := t.dims.drop (t.dims.length - N) } := by
  refine ⟨by simp only []; omega, by simp only [List.length_drop, Int.toNat_ofNat]; omega, ?_⟩
  intro x hx
  exact hwf.2.2 x (List.mem_of_mem_drop hx)

/-- Bounds of the source offset of the materialiser for every target shape
that passes the validation loop, the source rank exceeding the target rank
included. -/
theorem broadcast_to_sum_bounds (src : tl_tensor) (hwf : wfShape src)
    (hfit : src.dims.prod ≤ INT_MAX) (dims buf c : List Int)
    (h0 : 0 < dims.length) (hbuf : buf.length = dims.length)
    (hchk : tl_tensor_broadcast_to_check src (dims.length : Int) dims
      (List.range dims.length) = true)
    (hc : coordsIn dims c) :
    0 ≤ ∑ j in Finset.range dims.length,
        c.getD j 0 * (tl_compute_broadcast_strides src dims.length dims buf).getD j 0 ∧
    ∑ j in Finset.range dims.length,
        c.getD j 0 * (tl_compute_broadcast_strides src dims.length dims buf).getD j 0 <
      src.dims.prod := by
  have hn := wfShape_ndim src hwf
  by_cases hr : src.dims.length ≤ dims.length
  · exact strides_sum_bounds src hwf hfit dims buf c hbuf
      (broadcastableTo_of_check src hwf dims hr hchk) hc
  · have hN : dims.length ≤ src.dims.length := by omega
    rw [strides_of_trailing src hwf dims.length hN dims buf hbuf]
    have hwf' := wfShape_trailing src hwf dims.length h0 hN
    have hfit' : (src.dims.drop (src.dims.length - dims.length)).prod ≤ INT_MAX :=
      le_trans (drop_prod_le src.dims hwf.2.2 _) hfit
    have hb : broadcastableTo (src.dims.drop (src.dims.length - dims.length)) dims := by
      refine ⟨by rw [List.length_drop]; omega, fun p hp => ?_⟩
      rw [List.length_drop] at hp ⊢
      have hp' : p < dims.length := by omega
      have := (broadcast_to_check_iff src _ dims _).mp hchk p (by simpa using hp') (by omega)
      have e : (src.ndim - ((dims.length : Int) - (p : Int))).toNat =
          src.dims.length - dims.length + p := by omega
      unfold rd at this
      rw [e] at this
      have e2 : dims.length - (src.dims.length - (src.dims.length - dims.length)) + p = p := by
        omega
      rw [drop_getD, e2]
      exact this
    have := strides_sum_bounds _ hwf' hfit' dims buf c hbuf hb hc
    exact ⟨this.1, lt_of_lt_of_le this.2 (drop_prod_le src.dims hwf.2.2 _)⟩

/-- C20: source reads stay in bounds.  For well-formed, broadcast-compatible
operands and a destination of the output shape, the offsets `src1_idx` and
`src2_idx` that `tl_tensor_elew_broadcast` computes for a linear output index
lie inside the operands; for a well-formed source and a well-formed target
shape that passes validation, the offset `src_idx` that
`tl_tensor_broadcast_to` computes lies inside the source. -/
theorem source_reads_in_bounds {α : Type} (h : Heap α) (src1 src2 dst : tl_tensor)
    (hw1 : tl_check_tensor h src1 = true) (hw2 : tl_check_tensor h src2 = true)
    (hc : broadcastCompatible src1.dims src2.dims)
    (hnd : dst.ndim = ((broadcastShape src1.dims src2.dims).length : Int))
    (hdims : ∀ j, j < (broadcastShape src1.dims src2.dims).length →
      dst.dims.getD j 0 = (broadcastShape src1.dims src2.dims).getD j 0)
    (i : Nat) (buf : List Int) (hbuf : buf.length = (broadcastShape src1.dims src2.dims).length)
    (src dst' : tl_tensor) (ndim : Int) (dims : List Int)
    (hw : tl_check_tensor h src = true) (h0 : 0 < ndim)
    (hlen : dims.length = ndim.toNat) (hpos : ∀ x ∈ dims, 0 < x)
    (hchk : tl_tensor_broadcast_to_check src ndim dims (List.range ndim.toNat) = true)
    (hnd' : dst'.ndim = ndim)
    (hdims' : ∀ j, j < dims.length → dst'.dims.getD j 0 = dims.getD j 0)
    (i' : Nat) (buf' : List Int) (hbuf' : buf'.length = dims.length) :
    (0 ≤ (elew_source_indices src1 src2 dst i buf).1 ∧
      (elew_source_indices src1 src2 dst i buf).1 < src1.len ∧
      0 ≤ (elew_source_indices src1 src2 dst i buf).2 ∧
      (elew_source_indices src1 src2 dst i buf).2 < src2.len) ∧
    (0 ≤ broadcast_to_source_index src dst' ndim dims i' buf' ∧
      broadcast_to_source_index src dst' ndim dims i' buf' < src.len) := by
  have hndim : ndim = (dims.length : Int) := by
    have := Int.toNat_of_nonneg (le_of_lt h0)
    rw [← hlen] at this
    exact this.symm
  subst hndim
  rw [Int.toNat_ofNat] at hchk
  obtain ⟨hwf1, hm1, hl1, -⟩ := check_tensor_spec h src1 hw1
  obtain ⟨hwf2, hm2, hl2, -⟩ := check_tensor_spec h src2 hw2
  obtain ⟨hwf, -, hl, -⟩ := check_tensor_spec h src hw
  have hfit1 := check_tensor_fit h src1 hw1
  have hfit2 := check_tensor_fit h src2 hw2
  have hfit := check_tensor_fit h src hw
  constructor
  · have hDpos := broadcastShape_pos src1.dims src2.dims hwf1.2.2
    have hwfd : wfShape { dst with dims := broadcastShape src1.dims src2.dims } :=
      ⟨by
        simp only [hnd, broadcastShape_length]
        have := wfShape_ndim src1 hwf1
        have := hwf1.1
        omega,
       by simp only [hnd, Int.toNat_ofNat], hDpos⟩
    have hcin := coords_coordsIn _ hwfd (i : Int) buf hbuf
    simp only [] at hcin
    have hb1 := broadcastableTo_left _ _ hwf1.2.2 hwf2.2.2 hc
    have hb2 := broadcastableTo_left _ _ hwf2.2.2 hwf1.2.2 (broadcastCompatible_symm _ _ hc)
    rw [broadcastShape_comm src2.dims src1.dims] at hb2
    have hs1 := strides_sum_bounds src1 hwf1 hfit1 _
      (List.replicate (broadcastShape src1.dims src2.dims).length 0) _ (by simp) hb1 hcin
    have hs2 := strides_sum_bounds src2 hwf2 hfit2 _
      (List.replicate (broadcastShape src1.dims src2.dims).length 0) _ (by simp) hb2 hcin
    unfold elew_source_indices tl_tensor_elew_broadcast_index
    simp only []
    rw [strides_broadcast_eq src1 src1 src2 hwf1 hwf1 hwf2 hm1 hm2,
      strides_broadcast_eq src2 src1 src2 hwf2 hwf1 hwf2 hm1 hm2,
      broadcast_dims_fst src1 src2 hwf1 hwf2, ← broadcastShape_length, Int.toNat_ofNat,
      elew_broadcast_index_eq_sum,
      coords_of_matching_dst dst _ hDpos hnd hdims]
    simp only []
    rw [hl1, hl2]
    exact ⟨hs1.1, hs1.2, hs2.1, hs2.2⟩
  · have hwfd : wfShape { dst' with dims := dims } :=
      ⟨by simp only [hnd']; omega, by simp only [hnd', Int.toNat_ofNat], hpos⟩
    have hcin := coords_coordsIn _ hwfd (i' : Int) buf' hbuf'
    simp only [] at hcin
    have hs := broadcast_to_sum_bounds src hwf hfit dims (List.replicate dims.length 0) _
      (by omega) (by simp) hchk hcin
    unfold broadcast_to_source_index
    rw [Int.toNat_ofNat, broadcast_to_index_eq src hwf hfit dims.length dims _ _ (by simp),
      coords_of_matching_dst dst' dims hpos hnd' hdims', hl]
    exact hs

theorem source_reads_in_bounds_witness :
    tl_check_tensor [[(1 : Int), 2], [10, 20, 30], [1, 2, 3, 4, 5, 6]] ⟨0, 2, 2, [2, 1], 0⟩ =
      true ∧
    tl_check_tensor [[(1 : Int), 2], [10, 20, 30], [1, 2, 3, 4, 5, 6]] ⟨0, 3, 2, [1, 3], 1⟩ =
      true ∧
    tl_check_tensor [[(1 : Int), 2], [10, 20, 30], [1, 2, 3, 4, 5, 6]] ⟨0, 6, 2, [2, 3], 2⟩ =
      true ∧
    broadcastCompatible [2, 1] [1, 3] ∧
    tl_tensor_broadcast_to_check ⟨0, 6, 2, [2, 3], 2⟩ 1 [3] (List.range (1 : Int).toNat) =
      true ∧
    elew_source_indices ⟨0, 2, 2, [2, 1], 0⟩ ⟨0, 3, 2, [1, 3], 1⟩ ⟨0, 6, 2, [2, 3], 2⟩ 5
      [0, 0] = (1, 2) ∧
    broadcast_to_source_index ⟨0, 6, 2, [2, 3], 2⟩ ⟨0, 3, 1, [3], 0⟩ 1 [3] 2 [0] = 2 ∧
    ((0 ≤ (elew_source_indices ⟨0, 2, 2, [2, 1], 0⟩ ⟨0, 3, 2, [1, 3], 1⟩
          ⟨0, 6, 2, [2, 3], 2⟩ 5 [0, 0]).1 ∧
      (elew_source_indices ⟨0, 2, 2, [2, 1], 0⟩ ⟨0, 3, 2, [1, 3], 1⟩
          ⟨0, 6, 2, [2, 3], 2⟩ 5 [0, 0]).1 < 2 ∧
      0 ≤ (elew_source_indices ⟨0, 2, 2, [2, 1], 0⟩ ⟨0, 3, 2, [1, 3], 1⟩
          ⟨0, 6, 2, [2, 3], 2⟩ 5 [0, 0]).2 ∧
      (elew_source_indices ⟨0, 2, 2, [2, 1], 0⟩ ⟨0, 3, 2, [1, 3], 1⟩
          ⟨0, 6, 2, [2, 3], 2⟩ 5 [0, 0]).2 < 3) ∧
     (0 ≤ broadcast_to_source_index ⟨0, 6, 2, [2, 3], 2⟩ ⟨0, 3, 1, [3], 0⟩ 1 [3] 2 [0] ∧
      broadcast_to_source_index ⟨0, 6, 2, [2, 3], 2⟩ ⟨0, 3, 1, [3], 0⟩ 1 [3] 2 [0] < 6)) :=
  have hc : broadcastCompatible [2, 1] [1, 3] := by
    unfold broadcastCompatible extentsCompatible
    decide
  ⟨by decide, by decide, by decide, hc, by decide, by decide, by decide,
    source_reads_in_bounds [[(1 : Int), 2], [10, 20, 30], [1, 2, 3, 4, 5, 6]]
      ⟨0, 2, 2, [2, 1], 0⟩ ⟨0, 3, 2, [1, 3], 1⟩ ⟨0, 6, 2, [2, 3], 2⟩
      (by decide) (by decide) hc (by decide) (by decide) 5 [0, 0] (by decide)
      ⟨0, 6, 2, [2, 3], 2⟩ ⟨0, 3, 1, [3], 0⟩ 1 [3] (by decide) (by decide) (by decide)
      (by decide) (by decide) (by decide) (by decide) 2 [0] (by decide)⟩

/-! ## Operands that share storage with the destination -/

theorem prod_le_pointwise (a : List Int) :
    ∀ b : List Int, a.length = b.length →
      (∀ p, p < a.length → 0 < a.getD p 0 ∧ a.getD p 0 ≤ b.getD p 0) →
      0 < a.prod ∧ a.prod ≤ b.prod ∧ (a.prod = b.prod → a = b) := by
  induction a with
  | nil =>
    intro b hl _
    cases b with
    | nil => simp
    | cons y b' => simp at hl
  | cons x a' ih =>
    intro b hl hp
    cases b with
    | nil => simp at hl
    | cons y b' =>
      have h0 := hp 0 (by simp)
      simp only [List.getD_cons_zero] at h0
      have htl : ∀ p, p < a'.length → 0 < a'.getD p 0 ∧ a'.getD p 0 ≤ b'.getD p 0 := by
        intro p hpl
        have := hp (p + 1) (by simpa using hpl)
        simpa using this
      obtain ⟨hA, hAB, heq⟩ := ih b' (by simpa using hl) htl
      simp only [List.prod_cons]
      refine ⟨mul_pos h0.1 hA, ?_, ?_⟩
      · exact mul_le_mul h0.2 hAB (le_of_lt hA) (by omega)
      · intro he
        have hxy : x = y := by
          by_contra hne
          have hlt : x < y := lt_of_le_of_ne h0.2 hne
          have h1 : x * a'.prod < y * a'.prod := mul_lt_mul_of_pos_right hlt hA
          have h2 : y * a'.prod ≤ y * b'.prod :=
            mul_le_mul_of_nonneg_left hAB (by omega)
          omega
        subst hxy
        have hAeq : a'.prod = b'.prod := by
          have hx : x ≠ 0 := by omega
          exact mul_left_cancel₀ hx he
        rw [heq hAeq]

theorem all_one_of_prod_eq_one (l : List Int) (hpos : ∀ x ∈ l, 0 < x) (h1 : l.prod = 1) :
    ∀ x ∈ l, x = 1 := by
  induction l with
  | nil => intro x hx; simp at hx
  | cons a l' ih =>
    have ha : 0 < a := hpos a (List.mem_cons_self _ _)
    have hl' : ∀ x ∈ l', 0 < x := fun x hx => hpos x (List.mem_cons_of_mem _ hx)
    have hP : 0 < l'.prod := List.prod_pos hl'
    rw [List.prod_cons] at h1
    have ha1 : a = 1 := by
      by_contra hne
      have h2 : 2 ≤ a := by omega
      have : 2 * l'.prod ≤ a * l'.prod := mul_le_mul_of_nonneg_right h2 (le_of_lt hP)
      omega
    subst ha1
    rw [one_mul] at h1
    intro x hx
    rcases List.mem_cons.mp hx with rfl | hx'
    · rfl
    · exact ih hl' h1 x hx'

/-- An operand that can be broadcast to the output shape and has as many
elements as the output is the output shape up to leading extents 1. -/
theorem broadcastableTo_full (s D : List Int) (hs : ∀ x ∈ s, 0 < x) (hD : ∀ x ∈ D, 0 < x)
    (hb : broadcastableTo s D) (hprod : s.prod = D.prod) :
    s = D.drop (D.length - s.length) ∧ ∀ x ∈ D.take (D.length - s.length), x = 1 := by
  obtain ⟨hr, hcompat⟩ := hb
  have hTlen : s.length = (D.drop (D.length - s.length)).length := by
    rw [List.length_drop]; omega
  have hpt : ∀ p, p < s.length →
      0 < s.getD p 0 ∧ s.getD p 0 ≤ (D.drop (D.length - s.length)).getD p 0 := by
    intro p hp
    have hsp : 0 < s.getD p 0 := by
      rw [List.getD_eq_getElem _ _ hp]; exact hs _ (List.getElem_mem _)
    have hDp : 0 < D.getD (D.length - s.length + p) 0 := by
      rw [List.getD_eq_getElem _ _ (by omega)]; exact hD _ (List.getElem_mem _)
    rw [drop_getD]
    refine ⟨hsp, ?_⟩
    rcases hcompat p hp with h | h
    · omega
    · omega
  obtain ⟨hsP, hle, heq⟩ := prod_le_pointwise s _ hTlen hpt
  have hL : 0 < (D.take (D.length - s.length)).prod :=
    List.prod_pos (fun x hx => hD x (List.mem_of_mem_take hx))
  have hT : 0 < (D.drop (D.length - s.length)).prod := prod_pos_of_drop D hD _
  have hsplit := List.prod_take_mul_prod_drop D (D.length - s.length)
  have hge : (D.drop (D.length - s.length)).prod ≤
      (D.take (D.length - s.length)).prod * (D.drop (D.length - s.length)).prod :=
    le_mul_of_one_le_left (le_of_lt hT) hL
  have hsT : s.prod = (D.drop (D.length - s.length)).prod := by
    rw [hsplit, ← hprod] at hge
    omega
  refine ⟨heq hsT, ?_⟩
  apply all_one_of_prod_eq_one _ (fun x hx => hD x (List.mem_of_mem_take hx))
  rw [← hprod, hsT] at hsplit
  have hne : (D.drop (D.length - s.length)).prod ≠ 0 := by omega
  exact mul_right_cancel₀ hne (by rw [one_mul]; exact hsplit)

/-- For an operand with as many elements as the output, the source offset of
an output coordinate vector is the row-major offset of the vector in the
output shape. -/
theorem strides_sum_identity (t : tl_tensor) (hwf : wfShape t)
    (hfit : t.dims.prod ≤ INT_MAX) (D buf c : List Int) (hbuf : buf.length = D.length)
    (hb : broadcastableTo t.dims D) (hc : coordsIn D c)
    (hprod : t.dims.prod = D.prod) :
    ∑ j in Finset.range D.length,
        c.getD j 0 * (tl_compute_broadcast_strides t D.length D buf).getD j 0 =
      rowMajorOffset D c := by
  have hDpos := coordsIn_pos D c hc
  obtain ⟨hsT, hL⟩ := broadcastableTo_full t.dims D hwf.2.2 hDpos hb hprod
  have hr := hb.1
  rw [strides_sum_aligned t hwf hfit D buf c hbuf hb hc, rowMajorOffset_eq_sum D c hc.1]
  have hsplit : D.length = (D.length - t.dims.length) + t.dims.length := by omega
  conv_rhs => rw [hsplit, Finset.sum_range_add]
  have hzero : ∑ j in Finset.range (D.length - t.dims.length),
      c.getD j 0 * (D.drop (j + 1)).prod = 0 := by
    apply Finset.sum_eq_zero
    intro j hj
    have hj' : j < D.length - t.dims.length := by simpa using hj
    have hone : D.getD j 0 = 1 := by
      apply hL
      rw [← take_getD D (D.length - t.dims.length) j hj',
        List.getD_eq_getElem _ _ (by rw [List.length_take]; omega)]
      exact List.getElem_mem _
    have := hc.2 j (by omega)
    have hc0 : c.getD j 0 = 0 := by omega
    rw [hc0, zero_mul]
  rw [hzero, zero_add]
  apply Finset.sum_congr rfl
  intro p hp
  have hp' : p < t.dims.length := by simpa using hp
  rw [operandCoords_getD _ _ (by rw [hc.1]; exact hr) p hp', hc.1]
  have hdrop : (t.dims.drop (p + 1)).prod =
      (D.drop (D.length - t.dims.length + p + 1)).prod := by
    conv_lhs => rw [hsT, List.drop_drop]
    rw [Nat.add_assoc]
  have hget : t.dims.getD p 0 = D.getD (D.length - t.dims.length + p) 0 := by
    conv_lhs => rw [hsT, drop_getD]
  rw [hdrop]
  by_cases h1 : t.dims.getD p 0 = 1
  · rw [if_pos h1]
    have := hc.2 (D.length - t.dims.length + p) (by omega)
    have hc0 : c.getD (D.length - t.dims.length + p) 0 = 0 := by omega
    rw [hc0]
  · rw [if_neg h1]

/-- An operand with as many elements as the output is read at the linear
output index itself. -/
theorem aliased_index_identity (t dst : tl_tensor) (hwf : wfShape t)
    (hfit : t.dims.prod ≤ INT_MAX) (hwfd : wfShape dst)
    (hb : broadcastableTo t.dims dst.dims) (hprod : t.dims.prod = dst.dims.prod) (i : Nat)
    (hi : (i : Int) < dst.dims.prod) (buf sbuf : List Int) (hbuf : buf.length = dst.dims.length)
    (hsbuf : sbuf.length = dst.dims.length) :
    ∑ j in Finset.range dst.dims.length,
        (tl_tensor_coords dst i buf).getD j 0 *
          (tl_compute_broadcast_strides t dst.dims.length dst.dims sbuf).getD j 0 = i := by
  have hcin := coords_coordsIn dst hwfd (i : Int) buf hbuf
  rw [strides_sum_identity t hwf hfit dst.dims sbuf _ hsbuf hb hcin hprod,
    rowMajorOffset_eq_sum dst.dims _ hcin.1]
  have hs : ∀ j, j ∈ Finset.range dst.dims.length →
      (tl_tensor_coords dst i buf).getD j 0 * (dst.dims.drop (j + 1)).prod =
        ((i : Int) / (dst.dims.drop (j + 1)).prod % dst.dims.getD j 0) *
          (dst.dims.drop (j + 1)).prod := by
    intro j hj
    rw [coords_getD dst hwfd i buf hbuf j (by simpa using hj)]
  rw [Finset.sum_congr rfl hs, encode_decode_sum dst.dims hwfd.2.2 i]
  exact Int.emod_eq_of_lt (by omega) hi

/-- Invariant of an element loop, as `store_loop_invariant`, for a loop body
that may also read the destination block, at positions not yet written. -/
theorem store_loop_invariant_inplace {α : Type} [Inhabited α]
    (body : Heap α × List Int → Nat → Heap α × List Int) (val : Nat → α) (dst : tl_tensor)
    (h1 : Heap α) (buf0 : List Int) (hbuf : buf0.length = dst.dims.length)
    (hd : dst.data < h1.length)
    (L : Nat) (hL : L ≤ (h1.getD dst.data []).length)
    (hbody : ∀ (st : Heap α × List Int) (i : Nat), i < L →
      st.2.length = dst.dims.length →
      (∀ q, q ≠ dst.data → st.1.getD q [] = h1.getD q []) →
      (∀ m, i ≤ m →
        (st.1.getD dst.data []).getD m default = (h1.getD dst.data []).getD m default) →
      body st i = (tl_store st.1 dst.data i (val i), tl_tensor_coords dst i st.2))
    (k : Nat) (hk : k ≤ L) :
    ((List.range k).foldl body (h1, buf0)).2.length = dst.dims.length ∧
    ((List.range k).foldl body (h1, buf0)).1.length = h1.length ∧
    (∀ q, q ≠ dst.data → ((List.range k).foldl body (h1, buf0)).1.getD q [] = h1.getD q []) ∧
    (((List.range k).foldl body (h1, buf0)).1.getD dst.data []).length =
      (h1.getD dst.data []).length ∧
    ∀ i, (((List.range k).foldl body (h1, buf0)).1.getD dst.data []).getD i default =
      if i < k then val i else (h1.getD dst.data []).getD i default := by
  induction k with
  | zero => simp [hbuf]
  | succ k ih =>
    obtain ⟨ih1, ih2, ih3, ih4, ih5⟩ := ih (by omega)
    rw [List.range_succ, List.foldl_append]
    simp only [List.foldl_cons, List.foldl_nil]
    generalize (List.range k).foldl body (h1, buf0) = st at ih1 ih2 ih3 ih4 ih5
    have hunwritten : ∀ m, k ≤ m →
        (st.1.getD dst.data []).getD m default = (h1.getD dst.data []).getD m default := by
      intro m hm
      rw [ih5 m, if_neg (show ¬ m < k by omega)]
    rw [hbody st k (by omega) ih1 ih3 hunwritten]
    refine ⟨?_, ?_, ?_, ?_, ?_⟩
    · simp only []
      rw [coords_length, ih1]
    · simp only []
      rw [store_length, ih2]
    · intro q hq
      simp only []
      rw [store_getD_other _ _ _ _ _ hq, ih3 q hq]
    · simp only []
      rw [store_getD_self _ _ _ _ (by omega), List.length_set, ih4]
    · intro i
      simp only []
      rw [store_getD_self _ _ _ _ (by omega), Int.toNat_ofNat,
        block_set_getD _ _ _ _ (by omega), ih5]
      by_cases hik : i = k
      · subst hik
        rw [if_pos rfl, if_pos (show i < i + 1 by omega)]
      · rw [if_neg hik]
        by_cases hlt : i < k
        · rw [if_pos hlt, if_pos (show i < k + 1 by omega)]
        · rw [if_neg hlt, if_neg (show ¬ i < k + 1 by omega)]

/-- Invariant of the main loop of `tl_tensor_elew_broadcast` for operands that
may share the destination block: an operand that does is read at the linear
output index itself, which the loop has not written yet. -/
theorem elew_loop_invariant_alias {α Op : Type} [Inhabited α] (elew : α → α → Op → α)
    (src1 src2 dst : tl_tensor) (hwf : wfShape dst) (out_ndim : Int) (s1 s2 : List Int)
    (elew_op : Op) (h1 : Heap α) (buf0 : List Int) (hbuf : buf0.length = dst.dims.length)
    (hd : dst.data < h1.length)
    (L : Nat) (hL : L ≤ (h1.getD dst.data []).length)
    (ha1 : src1.data = dst.data → ∀ i : Nat, i < L →
      (tl_tensor_elew_broadcast_index out_ndim
        (tl_tensor_coords dst i (List.replicate dst.dims.length 0)) s1 s2).1 = i)
    (ha2 : src2.data = dst.data → ∀ i : Nat, i < L →
      (tl_tensor_elew_broadcast_index out_ndim
        (tl_tensor_coords dst i (List.replicate dst.dims.length 0)) s1 s2).2 = i)
    (k : Nat) (hk : k ≤ L) :
    ((List.range k).foldl
        (tl_tensor_elew_broadcast_body elew src1 src2 dst out_ndim s1 s2 elew_op)
        (h1, buf0)).1.length = h1.length ∧
    (∀ q, q ≠ dst.data →
      ((List.range k).foldl
        (tl_tensor_elew_broadcast_body elew src1 src2 dst out_ndim s1 s2 elew_op)
        (h1, buf0)).1.getD q [] = h1.getD q []) ∧
    (((List.range k).foldl
        (tl_tensor_elew_broadcast_body elew src1 src2 dst out_ndim s1 s2 elew_op)
        (h1, buf0)).1.getD dst.data []).length = (h1.getD dst.data []).length ∧
    ∀ i,
      (((List.range k).foldl
        (tl_tensor_elew_broadcast_body elew src1 src2 dst out_ndim s1 s2 elew_op)
        (h1, buf0)).1.getD dst.data []).getD i default =
        if i < k then elew_value elew h1 src1 src2 dst out_ndim s1 s2 elew_op i
        else (h1.getD dst.data []).getD i default := by
  have key := store_loop_invariant_inplace
    (tl_tensor_elew_broadcast_body elew src1 src2 dst out_ndim s1 s2 elew_op)
    (elew_value elew h1 src1 src2 dst out_ndim s1 s2 elew_op) dst h1 buf0 hbuf hd L hL
    (by
      intro st i hi hst hq hun
      have hload : ∀ (src : tl_tensor) (idx : Int),
          (src.data = dst.data → idx = (i : Int)) →
          tl_load st.1 src.data idx = tl_load h1 src.data idx := by
        intro src idx hidx
        unfold tl_load
        by_cases he : src.data = dst.data
        · rw [hidx he, he, Int.toNat_ofNat, hun i le_rfl]
        · rw [hq _ he]
      unfold tl_tensor_elew_broadcast_body elew_value
      simp only []
      rw [coords_buf_indep dst hwf i st.2 (List.replicate dst.dims.length 0) hst (by simp),
        hload src1 _ (fun he => ha1 he i hi), hload src2 _ (fun he => ha2 he i hi)])
    k hk
  exact ⟨key.2.1, key.2.2.1, key.2.2.2.1, key.2.2.2.2⟩

theorem all_dims_self (D : List Int) :
    (List.range D.length).all (fun i => decide (D.getD i 0 = D.getD i 0)) = true := by
  rw [List.all_eq_true]
  intro i _
  simp

/-- The engine called with a well-formed destination of the output shape and
dtype, where an operand that shares the destination's block has as many
elements as the destination: the call succeeds, writes the destination block
only, and element `i` of the destination becomes the operator applied to the
operand elements that the heap held before the call. -/
theorem elew_broadcast_some_spec {α Op : Type} [Inhabited α] (E : tl_dispatch α Op)
    (h : Heap α) (src1 src2 d : tl_tensor) (elew_op : Op)
    (hw1 : tl_check_tensor h src1 = true) (hw2 : tl_check_tensor h src2 = true)
    (hdt : src1.dtype = src2.dtype) (hc : broadcastCompatible src1.dims src2.dims)
    (hwd : tl_check_tensor h d = true)
    (hshape : d.dims = broadcastShape src1.dims src2.dims) (hdtype : d.dtype = src1.dtype)
    (ha1 : src1.data = d.data → src1.len = d.len)
    (ha2 : src2.data = d.data → src2.len = d.len) :
    ∃ g, tl_tensor_elew_broadcast E h src1 src2 (some d) elew_op = .ok d g ∧
      g.length = h.length ∧ (∀ q, q ≠ d.data → g.getD q [] = h.getD q []) ∧
      (g.getD d.data []).length = (h.getD d.data []).length ∧
      ∀ i, (g.getD d.data []).getD i default =
        if i < d.len.toNat then
          elew_value (E.tl_elew_getfunc src1.dtype) h src1 src2 d (d.dims.length : Int)
            (tl_compute_broadcast_strides src1 d.dims.length d.dims
              (List.replicate d.dims.length 0))
            (tl_compute_broadcast_strides src2 d.dims.length d.dims
              (List.replicate d.dims.length 0))
            elew_op i
        else (h.getD d.data []).getD i default := by
  obtain ⟨hwf1, hm1, hl1, hd1, hblk1⟩ := check_tensor_spec h src1 hw1
  obtain ⟨hwf2, hm2, hl2, hd2, hblk2⟩ := check_tensor_spec h src2 hw2
  obtain ⟨hwfd, hmd, hld, hdd, hblkd⟩ := check_tensor_spec h d hwd
  have hnd := wfShape_ndim d hwfd
  have hb1 : broadcastableTo src1.dims d.dims := by
    rw [hshape]; exact broadcastableTo_left _ _ hwf1.2.2 hwf2.2.2 hc
  have hb2 : broadcastableTo src2.dims d.dims := by
    rw [hshape, broadcastShape_comm]
    exact broadcastableTo_left _ _ hwf2.2.2 hwf1.2.2 (broadcastCompatible_symm _ _ hc)
  have hidx : ∀ (t : tl_tensor), wfShape t → t.dims.prod ≤ INT_MAX →
      broadcastableTo t.dims d.dims →
      t.len = t.dims.prod → t.len = d.len → ∀ i : Nat, i < d.len.toNat →
        ∑ j in Finset.range d.dims.length,
          (tl_tensor_coords d i (List.replicate d.dims.length 0)).getD j 0 *
            (tl_compute_broadcast_strides t d.dims.length d.dims
              (List.replicate d.dims.length 0)).getD j 0 = i := by
    intro t hwft hfitt hbt hlt he i hi
    exact aliased_index_identity t d hwft hfitt hwfd hbt (by omega) i (by omega) _ _ (by simp)
      (by simp)
  have hinv := elew_loop_invariant_alias (E.tl_elew_getfunc src1.dtype) src1 src2 d hwfd
    (d.dims.length : Int)
    (tl_compute_broadcast_strides src1 d.dims.length d.dims (List.replicate d.dims.length 0))
    (tl_compute_broadcast_strides src2 d.dims.length d.dims (List.replicate d.dims.length 0))
    elew_op h (List.replicate d.dims.length 0) (by simp) hdd d.len.toNat (by omega)
    (by
      intro he i hi
      unfold tl_tensor_elew_broadcast_index
      rw [Int.toNat_ofNat, elew_broadcast_index_eq_sum]
      exact hidx src1 hwf1 (check_tensor_fit h src1 hw1) hb1 hl1 (ha1 he) i hi)
    (by
      intro he i hi
      unfold tl_tensor_elew_broadcast_index
      rw [Int.toNat_ofNat, elew_broadcast_index_eq_sum]
      exact hidx src2 hwf2 (check_tensor_fit h src2 hw2) hb2 hl2 (ha2 he) i hi)
    d.len.toNat le_rfl
  obtain ⟨i1, i2, i3, i4⟩ := hinv
  refine ⟨_, ?_, i1, i2, i3, i4⟩
  rw [elew_broadcast_some E h src1 src2 d elew_op hw1 hw2 hdt hc, ← hshape]
  have hcond : (decide (d.ndim = (d.dims.length : Int)) &&
      (List.range d.dims.length).all (fun i => decide (d.dims.getD i 0 = d.dims.getD i 0)) &&
      decide (d.dtype = src1.dtype)) = true := by
    rw [all_dims_self]
    simp [hnd, hdtype]
  rw [if_pos hcond]

theorem load_store {α : Type} [Inhabited α] (h : Heap α) (p q k m : Nat) (v : α)
    (hp : p < h.length) (hk : k < (h.getD p []).length) :
    tl_load (tl_store h p (k : Int) v) q (m : Int) =
      if q = p ∧ m = k then v else tl_load h q (m : Int) := by
  unfold tl_load
  rw [Int.toNat_ofNat]
  by_cases hq : q = p
  · subst hq
    rw [store_getD_self _ _ _ _ hp, Int.toNat_ofNat, block_set_getD _ _ _ _ hk]
    by_cases hm : m = k
    · rw [if_pos hm, if_pos ⟨rfl, hm⟩]
    · rw [if_neg hm, if_neg (fun hh => hm hh.2)]
  · rw [store_getD_other _ _ _ _ _ hq, if_neg (fun hh => hq hh.1)]

theorem store_block_length {α : Type} (h : Heap α) (p : Nat) (i : Int) (v : α) :
    ((tl_store h p i v).getD p []).length = (h.getD p []).length := by
  by_cases hp : p < h.length
  · rw [store_getD_self _ _ _ _ hp, List.length_set]
  · unfold tl_store
    rw [List.getD_eq_default _ _ (by rw [List.length_set]; omega),
      List.getD_eq_default _ _ (by omega)]

/-- Two runs of the main loop of `tl_tensor_elew_broadcast` from heaps that
agree on the contents of both operands stay in step: after `k` iterations
they agree on the contents of both operands and on the first `k` elements of
the destination, whether or not the destination shares storage with an
operand. -/
theorem elew_loop_simulation {α Op : Type} [Inhabited α] (elew : α → α → Op → α)
    (src1 src2 d : tl_tensor) (hwfd : wfShape d) (N : Int) (s1 s2 : List Int) (elew_op : Op)
    (h h' : Heap α) (buf buf' : List Int) (hbuf : buf.length = d.dims.length)
    (hbuf' : buf'.length = d.dims.length) (hd : d.data < h.length) (hd' : d.data < h'.length)
    (L n1 n2 : Nat) (hblk : L ≤ (h.getD d.data []).length)
    (hblk' : L ≤ (h'.getD d.data []).length)
    (hr1 : ∀ i : Nat, ∃ m : Nat, m < n1 ∧
      (tl_tensor_elew_broadcast_index N
        (tl_tensor_coords d i (List.replicate d.dims.length 0)) s1 s2).1 = (m : Int))
    (hr2 : ∀ i : Nat, ∃ m : Nat, m < n2 ∧
      (tl_tensor_elew_broadcast_index N
        (tl_tensor_coords d i (List.replicate d.dims.length 0)) s1 s2).2 = (m : Int))
    (hs1 : ∀ m : Nat, m < n1 → tl_load h src1.data m = tl_load h' src1.data m)
    (hs2 : ∀ m : Nat, m < n2 → tl_load h src2.data m = tl_load h' src2.data m)
    (k : Nat) (hk : k ≤ L) :
    ((List.range k).foldl (tl_tensor_elew_broadcast_body elew src1 src2 d N s1 s2 elew_op)
      (h, buf)).2.length = d.dims.length ∧
    ((List.range k).foldl (tl_tensor_elew_broadcast_body elew src1 src2 d N s1 s2 elew_op)
      (h', buf')).2.length = d.dims.length ∧
    ((List.range k).foldl (tl_tensor_elew_broadcast_body elew src1 src2 d N s1 s2 elew_op)
      (h, buf)).1.length = h.length ∧
    ((List.range k).foldl (tl_tensor_elew_broadcast_body elew src1 src2 d N s1 s2 elew_op)
      (h', buf')).1.length = h'.length ∧
    (((List.range k).foldl (tl_tensor_elew_broadcast_body elew src1 src2 d N s1 s2 elew_op)
      (h, buf)).1.getD d.data []).length = (h.getD d.data []).length ∧
    (((List.range k).foldl (tl_tensor_elew_broadcast_body elew src1 src2 d N s1 s2 elew_op)
      (h', buf')).1.getD d.data []).length = (h'.getD d.data []).length ∧
    (∀ m : Nat, m < n1 →
      tl_load ((List.range k).foldl
          (tl_tensor_elew_broadcast_body elew src1 src2 d N s1 s2 elew_op) (h, buf)).1
          src1.data m =
        tl_load ((List.range k).foldl
          (tl_tensor_elew_broadcast_body elew src1 src2 d N s1 s2 elew_op) (h', buf')).1
          src1.data m) ∧
    (∀ m : Nat, m < n2 →
      tl_load ((List.range k).foldl
          (tl_tensor_elew_broadcast_body elew src1 src2 d N s1 s2 elew_op) (h, buf)).1
          src2.data m =
        tl_load ((List.range k).foldl
          (tl_tensor_elew_broadcast_body elew src1 src2 d N s1 s2 elew_op) (h', buf')).1
          src2.data m) ∧
    (∀ m : Nat, m < k →
      tl_load ((List.range k).foldl
          (tl_tensor_elew_broadcast_body elew src1 src2 d N s1 s2 elew_op) (h, buf)).1
          d.data m =
        tl_load ((List.range k).foldl
          (tl_tensor_elew_broadcast_body elew src1 src2 d N s1 s2 elew_op) (h', buf')).1
          d.data m) := by
  induction k with
  | zero =>
    refine ⟨hbuf, hbuf', rfl, rfl, rfl, rfl, hs1, hs2, fun m hm => ?_⟩
    omega
  | succ k ih =>
    obtain ⟨a1, a2, a3, a4, a5, a6, a7, a8, a9⟩ := ih (by omega)
    rw [List.range_succ, List.foldl_append, List.foldl_append]
    simp only [List.foldl_cons, List.foldl_nil]
    generalize (List.range k).foldl
        (tl_tensor_elew_broadcast_body elew src1 src2 d N s1 s2 elew_op) (h, buf) = st
      at a1 a3 a5 a7 a8 a9
    generalize (List.range k).foldl
        (tl_tensor_elew_broadcast_body elew src1 src2 d N s1 s2 elew_op) (h', buf') = st'
      at a2 a4 a6 a7 a8 a9
    obtain ⟨m1, hm1, e1⟩ := hr1 k
    obtain ⟨m2, hm2, e2⟩ := hr2 k
    have hb : ∀ (t : Heap α × List Int), t.2.length = d.dims.length →
        tl_tensor_elew_broadcast_body elew src1 src2 d N s1 s2 elew_op t k =
          (tl_store t.1 d.data k
            (elew (tl_load t.1 src1.data m1) (tl_load t.1 src2.data m2) elew_op),
           tl_tensor_coords d k t.2) := by
      intro t ht
      unfold tl_tensor_elew_broadcast_body
      simp only []
      rw [coords_buf_indep d hwfd k t.2 (List.replicate d.dims.length 0) ht (by simp), e1, e2]
    rw [hb st a1, hb st' a2, a7 m1 hm1, a8 m2 hm2]
    have hst : d.data < st.1.length := by omega
    have hst' : d.data < st'.1.length := by omega
    have hkb : k < (st.1.getD d.data []).length := by omega
    have hkb' : k < (st'.1.getD d.data []).length := by omega
    refine ⟨?_, ?_, ?_, ?_, ?_, ?_, ?_, ?_, ?_⟩
    · simp only []; rw [coords_length, a1]
    · simp only []; rw [coords_length, a2]
    · simp only []; rw [store_length, a3]
    · simp only []; rw [store_length, a4]
    · simp only []; rw [store_block_length, a5]
    · simp only []; rw [store_block_length, a6]
    · intro m hm
      simp only []
      rw [load_store _ _ _ _ _ _ hst hkb, load_store _ _ _ _ _ _ hst' hkb', a7 m hm]
    · intro m hm
      simp only []
      rw [load_store _ _ _ _ _ _ hst hkb, load_store _ _ _ _ _ _ hst' hkb', a8 m hm]
    · intro m hm
      simp only []
      rw [load_store _ _ _ _ _ _ hst hkb, load_store _ _ _ _ _ _ hst' hkb']
      by_cases hmk : m = k
      · rw [if_pos ⟨rfl, hmk⟩, if_pos ⟨rfl, hmk⟩]
      · rw [if_neg (fun hh => hmk hh.2), if_neg (fun hh => hmk hh.2), a9 m (by omega)]

theorem take_eq_iff_load {α : Type} [Inhabited α] (a b : List α) (n : Nat)
    (ha : n ≤ a.length) (hb : n ≤ b.length) :
    a.take n = b.take n ↔ ∀ m : Nat, m < n → a.getD m default = b.getD m default := by
  constructor
  · intro he m hm
    have h1 : (a.take n).getD m default = a.getD m default := by
      simp [List.getD_eq_getElem?_getD, List.getElem?_take, hm]
    have h2 : (b.take n).getD m default = b.getD m default := by
      simp [List.getD_eq_getElem?_getD, List.getElem?_take, hm]
    rw [← h1, ← h2, he]
  · intro hq
    apply List.ext_getElem
    · simp only [List.length_take]; omega
    · intro m hm1 hm2
      simp only [List.length_take] at hm1 hm2
      have := hq m (by omega)
      rw [List.getD_eq_getElem _ _ (by omega), List.getD_eq_getElem _ _ (by omega)] at this
      simpa using this

/-- The offsets that the main loop of `tl_tensor_elew_broadcast` computes for
the linear index `i` of a destination of the output shape are natural numbers
below the operands' element counts. -/
theorem elew_index_in_range (src1 src2 d : tl_tensor) (hwf1 : wfShape src1)
    (hwf2 : wfShape src2) (hfit1 : src1.dims.prod ≤ INT_MAX)
    (hfit2 : src2.dims.prod ≤ INT_MAX) (hwfd : wfShape d) (hc : broadcastCompatible src1.dims src2.dims)
    (hshape : d.dims = broadcastShape src1.dims src2.dims) (i : Nat) :
    (∃ m : Nat, m < src1.dims.prod.toNat ∧
      (tl_tensor_elew_broadcast_index (d.dims.length : Int)
        (tl_tensor_coords d i (List.replicate d.dims.length 0))
        (tl_compute_broadcast_strides src1 d.dims.length d.dims
          (List.replicate d.dims.length 0))
        (tl_compute_broadcast_strides src2 d.dims.length d.dims
          (List.replicate d.dims.length 0))).1 = (m : Int)) ∧
    (∃ m : Nat, m < src2.dims.prod.toNat ∧
      (tl_tensor_elew_broadcast_index (d.dims.length : Int)
        (tl_tensor_coords d i (List.replicate d.dims.length 0))
        (tl_compute_broadcast_strides src1 d.dims.length d.dims
          (List.replicate d.dims.length 0))
        (tl_compute_broadcast_strides src2 d.dims.length d.dims
          (List.replicate d.dims.length 0))).2 = (m : Int)) := by
  have hb1 : broadcastableTo src1.dims d.dims := by
    rw [hshape]; exact broadcastableTo_left _ _ hwf1.2.2 hwf2.2.2 hc
  have hb2 : broadcastableTo src2.dims d.dims := by
    rw [hshape, broadcastShape_comm]
    exact broadcastableTo_left _ _ hwf2.2.2 hwf1.2.2 (broadcastCompatible_symm _ _ hc)
  have hcin := coords_coordsIn d hwfd (i : Int) (List.replicate d.dims.length 0) (by simp)
  have hs1 := strides_sum_bounds src1 hwf1 hfit1 d.dims (List.replicate d.dims.length 0) _
    (by simp) hb1 hcin
  have hs2 := strides_sum_bounds src2 hwf2 hfit2 d.dims (List.replicate d.dims.length 0) _
    (by simp) hb2 hcin
  unfold tl_tensor_elew_broadcast_index
  rw [Int.toNat_ofNat, elew_broadcast_index_eq_sum]
  simp only []
  constructor
  · refine ⟨(∑ j in Finset.range d.dims.length,
      (tl_tensor_coords d i (List.replicate d.dims.length 0)).getD j 0 *
        (tl_compute_broadcast_strides src1 d.dims.length d.dims
          (List.replicate d.dims.length 0)).getD j 0).toNat, ?_, ?_⟩
    · omega
    · omega
  · refine ⟨(∑ j in Finset.range d.dims.length,
      (tl_tensor_coords d i (List.replicate d.dims.length 0)).getD j 0 *
        (tl_compute_broadcast_strides src2 d.dims.length d.dims
          (List.replicate d.dims.length 0)).getD j 0).toNat, ?_, ?_⟩
    · omega
    · omega

/-- C13: destination reuse safety.  For every valid call of
`tl_tensor_elew_broadcast` with a caller-supplied destination of the output
shape and dtype, run from two heaps in which both operands hold the same
elements while the rest of the storage, the destination's data included, may
differ: both calls return the destination, and its `len` elements are the same
after both runs, so no prior element of the destination survives. -/
theorem dst_contents_independent {α Op : Type} [Inhabited α] (E : tl_dispatch α Op)
    (h h' : Heap α) (src1 src2 d : tl_tensor) (elew_op : Op)
    (hw1 : tl_check_tensor h src1 = true) (hw2 : tl_check_tensor h src2 = true)
    (hwd : tl_check_tensor h d = true)
    (hw1' : tl_check_tensor h' src1 = true) (hw2' : tl_check_tensor h' src2 = true)
    (hwd' : tl_check_tensor h' d = true)
    (hdt : src1.dtype = src2.dtype) (hc : broadcastCompatible src1.dims src2.dims)
    (hshape : d.dims = broadcastShape src1.dims src2.dims) (hdtype : d.dtype = src1.dtype)
    (hs1 : (h.getD src1.data []).take src1.len.toNat =
      (h'.getD src1.data []).take src1.len.toNat)
    (hs2 : (h.getD src2.data []).take src2.len.toNat =
      (h'.getD src2.data []).take src2.len.toNat) :
    ∃ g g', tl_tensor_elew_broadcast E h src1 src2 (some d) elew_op = .ok d g ∧
      tl_tensor_elew_broadcast E h' src1 src2 (some d) elew_op = .ok d g' ∧
      (g.getD d.data []).take d.len.toNat = (g'.getD d.data []).take d.len.toNat := by
  obtain ⟨hwf1, hm1, hl1, hd1, hblk1⟩ := check_tensor_spec h src1 hw1
  obtain ⟨hwf2, hm2, hl2, hd2, hblk2⟩ := check_tensor_spec h src2 hw2
  obtain ⟨hwfd, hmd, hld, hdd, hblkd⟩ := check_tensor_spec h d hwd
  obtain ⟨-, -, -, -, hblk1'⟩ := check_tensor_spec h' src1 hw1'
  obtain ⟨-, -, -, -, hblk2'⟩ := check_tensor_spec h' src2 hw2'
  obtain ⟨-, -, -, hdd', hblkd'⟩ := check_tensor_spec h' d hwd'
  have hnd := wfShape_ndim d hwfd
  have hcond : (decide (d.ndim = (d.dims.length : Int)) &&
      (List.range d.dims.length).all (fun i => decide (d.dims.getD i 0 = d.dims.getD i 0)) &&
      decide (d.dtype = src1.dtype)) = true := by
    rw [all_dims_self]
    simp [hnd, hdtype]
  have hr := fun i => elew_index_in_range src1 src2 d hwf1 hwf2
    (check_tensor_fit h src1 hw1) (check_tensor_fit h src2 hw2) hwfd hc hshape i
  have hsim := elew_loop_simulation (E.tl_elew_getfunc src1.dtype) src1 src2 d hwfd
    (d.dims.length : Int)
    (tl_compute_broadcast_strides src1 d.dims.length d.dims (List.replicate d.dims.length 0))
    (tl_compute_broadcast_strides src2 d.dims.length d.dims (List.replicate d.dims.length 0))
    elew_op h h' (List.replicate d.dims.length 0) (List.replicate d.dims.length 0)
    (by simp) (by simp) hdd hdd' d.len.toNat src1.dims.prod.toNat src2.dims.prod.toNat
    (by omega) (by omega) (fun i => (hr i).1) (fun i => (hr i).2)
    (by
      rw [← hl1]
      exact (take_eq_iff_load _ _ _ (by omega) (by omega)).mp hs1)
    (by
      rw [← hl2]
      exact (take_eq_iff_load _ _ _ (by omega) (by omega)).mp hs2)
    d.len.toNat le_rfl
  obtain ⟨-, -, -, -, b5, b6, -, -, b9⟩ := hsim
  refine ⟨_, _, ?e1, ?e2, (take_eq_iff_load _ _ _ ?l1 ?l2).mpr b9⟩
  case l1 => omega
  case l2 => omega
  case e1 =>
    rw [elew_broadcast_some E h src1 src2 d elew_op hw1 hw2 hdt hc, ← hshape, if_pos hcond]
  case e2 =>
    rw [elew_broadcast_some E h' src1 src2 d elew_op hw1' hw2' hdt hc, ← hshape, if_pos hcond]

theorem dst_contents_independent_witness :
    tl_check_tensor [[(1 : Int), 2], [10, 20, 30], [0, 0, 0, 0, 0, 0]] ⟨0, 6, 2, [2, 3], 2⟩ =
      true ∧
    tl_check_tensor [[(1 : Int), 2], [10, 20, 30], [9, 8, 7, 6, 5, 4]] ⟨0, 6, 2, [2, 3], 2⟩ =
      true ∧
    broadcastCompatible [2, 1] [1, 3] ∧
    tl_tensor_elew_broadcast (⟨0, fun _ a b _ => a + b⟩ : tl_dispatch Int Unit)
        [[1, 2], [10, 20, 30], [0, 0, 0, 0, 0, 0]] ⟨0, 2, 2, [2, 1], 0⟩ ⟨0, 3, 2, [1, 3], 1⟩
        (some ⟨0, 6, 2, [2, 3], 2⟩) () =
      .ok ⟨0, 6, 2, [2, 3], 2⟩ [[1, 2], [10, 20, 30], [11, 21, 31, 12, 22, 32]] ∧
    tl_tensor_elew_broadcast (⟨0, fun _ a b _ => a + b⟩ : tl_dispatch Int Unit)
        [[1, 2], [10, 20, 30], [9, 8, 7, 6, 5, 4]] ⟨0, 2, 2, [2, 1], 0⟩ ⟨0, 3, 2, [1, 3], 1⟩
        (some ⟨0, 6, 2, [2, 3], 2⟩) () =
      .ok ⟨0, 6, 2, [2, 3], 2⟩ [[1, 2], [10, 20, 30], [11, 21, 31, 12, 22, 32]] ∧
    ∃ g g',
      tl_tensor_elew_broadcast (⟨0, fun _ a b _ => a + b⟩ : tl_dispatch Int Unit)
          [[1, 2], [10, 20, 30], [0, 0, 0, 0, 0, 0]] ⟨0, 2, 2, [2, 1], 0⟩
          ⟨0, 3, 2, [1, 3], 1⟩ (some ⟨0, 6, 2, [2, 3], 2⟩) () = .ok ⟨0, 6, 2, [2, 3], 2⟩ g ∧
      tl_tensor_elew_broadcast (⟨0, fun _ a b _ => a + b⟩ : tl_dispatch Int Unit)
          [[1, 2], [10, 20, 30], [9, 8, 7, 6, 5, 4]] ⟨0, 2, 2, [2, 1], 0⟩
          ⟨0, 3, 2, [1, 3], 1⟩ (some ⟨0, 6, 2, [2, 3], 2⟩) () = .ok ⟨0, 6, 2, [2, 3], 2⟩ g' ∧
      (g.getD 2 []).take (6 : Int).toNat = (g'.getD 2 []).take (6 : Int).toNat :=
  have hc : broadcastCompatible [2, 1] [1, 3] := by
    unfold broadcastCompatible extentsCompatible
    decide
  ⟨by decide, by decide, hc, by decide, by decide,
    dst_contents_independent (⟨0, fun _ a b _ => a + b⟩ : tl_dispatch Int Unit)
      [[1, 2], [10, 20, 30], [0, 0, 0, 0, 0, 0]] [[1, 2], [10, 20, 30], [9, 8, 7, 6, 5, 4]]
      ⟨0, 2, 2, [2, 1], 0⟩ ⟨0, 3, 2, [1, 3], 1⟩ ⟨0, 6, 2, [2, 3], 2⟩ ()
      (by decide) (by decide) (by decide) (by decide) (by decide) (by decide) rfl hc
      (by decide) rfl (by decide) (by decide)⟩

/-- The engine called without destination on well-formed, compatible operands
of one dtype, by linear index: element `i` of the fresh array is the operator
applied to the operand elements selected for `i`. -/
theorem elew_broadcast_none_spec {α Op : Type} [Inhabited α] (E : tl_dispatch α Op)
    (h : Heap α) (src1 src2 : tl_tensor) (elew_op : Op)
    (hw1 : tl_check_tensor h src1 = true) (hw2 : tl_check_tensor h src2 = true)
    (hdt : src1.dtype = src2.dtype) (hc : broadcastCompatible src1.dims src2.dims)
    (hfit : (broadcastShape src1.dims src2.dims).prod ≤ INT_MAX) :
    ∃ g, tl_tensor_elew_broadcast E h src1 src2 none elew_op =
        .ok { dtype := src1.dtype, len := (broadcastShape src1.dims src2.dims).prod,
              ndim := ((broadcastShape src1.dims src2.dims).length : Int),
              dims := broadcastShape src1.dims src2.dims, data := h.length } g ∧
      (g.getD h.length []).length = (broadcastShape src1.dims src2.dims).prod.toNat ∧
      ∀ i, i < (broadcastShape src1.dims src2.dims).prod.toNat →
        (g.getD h.length []).getD i default =
          elew_value (E.tl_elew_getfunc src1.dtype)
            (h ++ [List.replicate (broadcastShape src1.dims src2.dims).prod.toNat E.zero])
            src1 src2
            { dtype := src1.dtype, len := (broadcastShape src1.dims src2.dims).prod,
              ndim := ((broadcastShape src1.dims src2.dims).length : Int),
              dims := broadcastShape src1.dims src2.dims, data := h.length }
            ((broadcastShape src1.dims src2.dims).length : Int)
            (tl_compute_broadcast_strides src1 (broadcastShape src1.dims src2.dims).length
              (broadcastShape src1.dims src2.dims)
              (List.replicate (broadcastShape src1.dims src2.dims).length 0))
            (tl_compute_broadcast_strides src2 (broadcastShape src1.dims src2.dims).length
              (broadcastShape src1.dims src2.dims)
              (List.replicate (broadcastShape src1.dims src2.dims).length 0))
            elew_op i := by
  obtain ⟨hwf1, hm1, hlen1, hd1, hblk1⟩ := check_tensor_spec h src1 hw1
  obtain ⟨hwf2, hm2, hlen2, hd2, hblk2⟩ := check_tensor_spec h src2 hw2
  have hiso : tl_tensor_isbroadcastable src1 src2 ≠ 0 := by
    rw [(isbroadcastable_iff_aligned src1 src2 hwf1 hwf2).mpr hc]; decide
  have hdt' : decide (src1.dtype = src2.dtype) = true := by simp [hdt]
  have hDpos := broadcastShape_pos src1.dims src2.dims hwf1.2.2
  have hwfd : wfShape
      { dtype := src1.dtype, len := (broadcastShape src1.dims src2.dims).prod,
        ndim := ((broadcastShape src1.dims src2.dims).length : Int),
        dims := broadcastShape src1.dims src2.dims, data := h.length } := by
    refine ⟨?_, by simp, hDpos⟩
    have := wfShape_ndim src1 hwf1
    have := hwf1.1
    simp only [broadcastShape_length]
    omega
  have hinv := elew_loop_invariant (E.tl_elew_getfunc src1.dtype) src1 src2
    { dtype := src1.dtype, len := (broadcastShape src1.dims src2.dims).prod,
      ndim := ((broadcastShape src1.dims src2.dims).length : Int),
      dims := broadcastShape src1.dims src2.dims, data := h.length } hwfd
    ((broadcastShape src1.dims src2.dims).length : Int)
    (tl_compute_broadcast_strides src1 (broadcastShape src1.dims src2.dims).length
      (broadcastShape src1.dims src2.dims)
      (List.replicate (broadcastShape src1.dims src2.dims).length 0))
    (tl_compute_broadcast_strides src2 (broadcastShape src1.dims src2.dims).length
      (broadcastShape src1.dims src2.dims)
      (List.replicate (broadcastShape src1.dims src2.dims).length 0))
    elew_op
    (h ++ [List.replicate (broadcastShape src1.dims src2.dims).prod.toNat E.zero])
    (List.replicate (broadcastShape src1.dims src2.dims).length 0) (by simp) (by simp)
    (by simp only []; omega) (by simp only []; omega)
    (broadcastShape src1.dims src2.dims).prod.toNat (by simp)
  obtain ⟨-, -, -, hblk, hval⟩ := hinv
  refine ⟨((List.range (broadcastShape src1.dims src2.dims).prod.toNat).foldl
      (tl_tensor_elew_broadcast_body (E.tl_elew_getfunc src1.dtype) src1 src2
        { dtype := src1.dtype, len := (broadcastShape src1.dims src2.dims).prod,
          ndim := ((broadcastShape src1.dims src2.dims).length : Int),
          dims := broadcastShape src1.dims src2.dims, data := h.length }
        ((broadcastShape src1.dims src2.dims).length : Int)
        (tl_compute_broadcast_strides src1 (broadcastShape src1.dims src2.dims).length
          (broadcastShape src1.dims src2.dims)
          (List.replicate (broadcastShape src1.dims src2.dims).length 0))
        (tl_compute_broadcast_strides src2 (broadcastShape src1.dims src2.dims).length
          (broadcastShape src1.dims src2.dims)
          (List.replicate (broadcastShape src1.dims src2.dims).length 0))
        elew_op)
      (h ++ [List.replicate (broadcastShape src1.dims src2.dims).prod.toNat E.zero],
        List.replicate (broadcastShape src1.dims src2.dims).length 0)).1, ?_, ?_, fun i hi => ?_⟩
  · unfold tl_tensor_elew_broadcast
    simp only [hw1, hw2, hdt', hiso, Bool.not_true, if_false, Bool.false_eq_true]
    rw [zeros_broadcast_eq E h src1 src2 hwf1 hwf2 hm1 hm2,
      wrap_int_of_fits _ (le_of_lt (List.prod_pos hDpos)) hfit,
      strides_broadcast_eq src1 src1 src2 hwf1 hwf1 hwf2 hm1 hm2,
      strides_broadcast_eq src2 src1 src2 hwf2 hwf1 hwf2 hm1 hm2,
      broadcast_dims_fst src1 src2 hwf1 hwf2, ← broadcastShape_length]
    simp only [Int.toNat_ofNat]
  · simp only [] at hblk
    rw [hblk]
    simp
  · have hv := hval i
    rw [if_pos hi] at hv
    exact hv

theorem elew_value_congr {α Op : Type} [Inhabited α] (elew : α → α → Op → α)
    (h h' : Heap α) (src1 src2 d d' : tl_tensor) (N : Int) (s1 s2 : List Int) (elew_op : Op)
    (i : Nat) (hdims : d.dims = d'.dims) (hnd : d.ndim = d'.ndim)
    (hs1 : h.getD src1.data [] = h'.getD src1.data [])
    (hs2 : h.getD src2.data [] = h'.getD src2.data []) :
    elew_value elew h src1 src2 d N s1 s2 elew_op i =
      elew_value elew h' src1 src2 d' N s1 s2 elew_op i := by
  unfold elew_value tl_load tl_tensor_coords
  simp only []
  rw [hdims, hnd, hs1, hs2]

theorem getD_append_left_block {α : Type} (h : Heap α) (b : List α) (p : Nat)
    (hp : p < h.length) : h.getD p [] = (h ++ [b]).getD p [] := by
  simp [List.getD_eq_getElem?_getD, List.getElem?_append_left hp]

/-- C19 (amended): in-place reuse.  For a valid call of
`tl_tensor_elew_broadcast` with a well-formed destination of the output shape
and dtype, where every operand stored in the destination's block has as many
elements as the destination (in particular when the destination is an operand
itself and the other operand is that same array or lies in another block):
the call returns the destination, the call without destination returns a
fresh array of the same shape, and the `len` elements of the two results are
equal. -/
theorem inplace_equals_fresh {α Op : Type} [Inhabited α] (E : tl_dispatch α Op)
    (h : Heap α) (src1 src2 d : tl_tensor) (elew_op : Op)
    (hw1 : tl_check_tensor h src1 = true) (hw2 : tl_check_tensor h src2 = true)
    (hdt : src1.dtype = src2.dtype) (hc : broadcastCompatible src1.dims src2.dims)
    (hwd : tl_check_tensor h d = true)
    (hshape : d.dims = broadcastShape src1.dims src2.dims) (hdtype : d.dtype = src1.dtype)
    (ha1 : src1.data = d.data → src1.len = d.len)
    (ha2 : src2.data = d.data → src2.len = d.len) :
    ∃ g out g', tl_tensor_elew_broadcast E h src1 src2 (some d) elew_op = .ok d g ∧
      tl_tensor_elew_broadcast E h src1 src2 none elew_op = .ok out g' ∧
      out.ndim = d.ndim ∧ out.dims = d.dims ∧ out.len = d.len ∧
      (g.getD d.data []).take d.len.toNat = (g'.getD out.data []).take out.len.toNat := by
  obtain ⟨hwf1, hm1, hl1, hd1, hblk1⟩ := check_tensor_spec h src1 hw1
  obtain ⟨hwf2, hm2, hl2, hd2, hblk2⟩ := check_tensor_spec h src2 hw2
  obtain ⟨hwfd, hmd, hld, hdd, hblkd⟩ := check_tensor_spec h d hwd
  have hnd := wfShape_ndim d hwfd
  obtain ⟨g, hg, -, -, hgl, hgv⟩ :=
    elew_broadcast_some_spec E h src1 src2 d elew_op hw1 hw2 hdt hc hwd hshape hdtype ha1 ha2
  obtain ⟨g', hg', hgl', hgv'⟩ := elew_broadcast_none_spec E h src1 src2 elew_op hw1 hw2 hdt hc
    (by rw [← hshape]; exact check_tensor_fit h d hwd)
  have hprod : (broadcastShape src1.dims src2.dims).prod = d.len := by rw [hld, hshape]
  refine ⟨g, _, g', hg, hg', ?_, hshape.symm, hprod, ?_⟩
  · simp only []
    rw [hnd, hshape]
  · simp only []
    rw [hprod] at hgl' hgv' ⊢
    refine (take_eq_iff_load _ _ _ (by omega) (by omega)).mpr (fun m hm => ?_)
    rw [hgv m, if_pos hm, hgv' m hm, ← hshape]
    exact elew_value_congr _ _ _ _ _ _ _ _ _ _ _ _ rfl hnd
      (getD_append_left_block h _ _ hd1) (getD_append_left_block h _ _ hd2)

theorem inplace_equals_fresh_witness :
    tl_check_tensor [[(1 : Int), 2, 3, 4, 5, 6], [10, 20, 30]] ⟨0, 6, 2, [2, 3], 0⟩ = true ∧
    tl_check_tensor [[(1 : Int), 2, 3, 4, 5, 6], [10, 20, 30]] ⟨0, 3, 1, [3], 1⟩ = true ∧
    broadcastCompatible [2, 3] [3] ∧
    tl_tensor_elew_broadcast (⟨0, fun _ a b _ => a + b⟩ : tl_dispatch Int Unit)
        [[1, 2, 3, 4, 5, 6], [10, 20, 30]] ⟨0, 6, 2, [2, 3], 0⟩ ⟨0, 3, 1, [3], 1⟩
        (some ⟨0, 6, 2, [2, 3], 0⟩) () =
      .ok ⟨0, 6, 2, [2, 3], 0⟩ [[11, 22, 33, 14, 25, 36], [10, 20, 30]] ∧
    ∃ g out g',
      tl_tensor_elew_broadcast (⟨0, fun _ a b _ => a + b⟩ : tl_dispatch Int Unit)
          [[1, 2, 3, 4, 5, 6], [10, 20, 30]] ⟨0, 6, 2, [2, 3], 0⟩ ⟨0, 3, 1, [3], 1⟩
          (some ⟨0, 6, 2, [2, 3], 0⟩) () = .ok ⟨0, 6, 2, [2, 3], 0⟩ g ∧
      tl_tensor_elew_broadcast (⟨0, fun _ a b _ => a + b⟩ : tl_dispatch Int Unit)
          [[1, 2, 3, 4, 5, 6], [10, 20, 30]] ⟨0, 6, 2, [2, 3], 0⟩ ⟨0, 3, 1, [3], 1⟩
          none () = .ok out g' ∧
      out.ndim = 2 ∧ out.dims = [2, 3] ∧ out.len = 6 ∧
      (g.getD 0 []).take (6 : Int).toNat = (g'.getD out.data []).take out.len.toNat :=
  have hc : broadcastCompatible [2, 3] [3] := by
    unfold broadcastCompatible extentsCompatible
    decide
  ⟨by decide, by decide, hc, by decide,
    inplace_equals_fresh (⟨0, fun _ a b _ => a + b⟩ : tl_dispatch Int Unit)
      [[1, 2, 3, 4, 5, 6], [10, 20, 30]] ⟨0, 6, 2, [2, 3], 0⟩ ⟨0, 3, 1, [3], 1⟩
      ⟨0, 6, 2, [2, 3], 0⟩ () (by decide) (by decide) rfl hc (by decide) (by decide) rfl
      (fun _ => rfl) (by decide)⟩

/-- C19 (counterexample): the block holds the array (2,3) with elements
1..6; `src1` and the destination are that array, `src2` is the view (3,) of
its first row in the same block, the operator is addition.  Both operands are
well-formed and compatible, the destination is an operand of the output shape.
The in-place call reads the first row after it was overwritten (element 3 is
4 + 2, not 4 + 1), so its result differs from the fresh one. -/
theorem inplace_row_view_differs :
    tl_check_tensor [[(1 : Int), 2, 3, 4, 5, 6]] ⟨0, 6, 2, [2, 3], 0⟩ = true ∧
    tl_check_tensor [[(1 : Int), 2, 3, 4, 5, 6]] ⟨0, 3, 1, [3], 0⟩ = true ∧
    tl_tensor_isbroadcastable ⟨0, 6, 2, [2, 3], 0⟩ ⟨0, 3, 1, [3], 0⟩ = 1 ∧
    broadcastShape [2, 3] [3] = [2, 3] ∧
    tl_tensor_elew_broadcast (⟨0, fun _ a b _ => a + b⟩ : tl_dispatch Int Unit)
        [[1, 2, 3, 4, 5, 6]] ⟨0, 6, 2, [2, 3], 0⟩ ⟨0, 3, 1, [3], 0⟩
        (some ⟨0, 6, 2, [2, 3], 0⟩) () =
      .ok ⟨0, 6, 2, [2, 3], 0⟩ [[2, 4, 6, 6, 9, 12]] ∧
    tl_tensor_elew_broadcast (⟨0, fun _ a b _ => a + b⟩ : tl_dispatch Int Unit)
        [[1, 2, 3, 4, 5, 6]] ⟨0, 6, 2, [2, 3], 0⟩ ⟨0, 3, 1, [3], 0⟩ none () =
      .ok ⟨0, 6, 2, [2, 3], 1⟩ [[1, 2, 3, 4, 5, 6], [2, 4, 6, 5, 7, 9]] ∧
    ([(2 : Int), 4, 6, 6, 9, 12] ≠ [2, 4, 6, 5, 7, 9]) := by
  refine ⟨by decide, by decide, by decide, by decide, by decide, by decide, by decide⟩

/-! ## Operands of one shape -/

theorem broadcastShape_self (d : List Int) : broadcastShape d d = d := by
  unfold broadcastShape padShape
  simp only [max_self, Nat.sub_self, List.replicate_zero, List.nil_append]
  induction d with
  | nil => rfl
  | cons x xs ih => simp [List.zipWith, ih]

theorem broadcastCompatible_self (d : List Int) : broadcastCompatible d d :=
  fun _ _ => Or.inl rfl

/-- C21: operands of one shape.  For well-formed operands with the same
extents (hence the same rank) and the same dtype, `tl_tensor_elew_broadcast`
without destination returns a fresh array of that rank, shape, length and
dtype, whose element at every linear index `i < len` is the operator applied
to element `i` of `src1` and element `i` of `src2`: the plain index-wise
application. -/
theorem elew_broadcast_same_shape {α Op : Type} [Inhabited α] (E : tl_dispatch α Op)
    (h : Heap α) (src1 src2 : tl_tensor) (elew_op : Op)
    (hw1 : tl_check_tensor h src1 = true) (hw2 : tl_check_tensor h src2 = true)
    (hdims : src1.dims = src2.dims)
    (hdt : src1.dtype = src2.dtype) :
    ∃ out g, tl_tensor_elew_broadcast E h src1 src2 none elew_op = .ok out g ∧
      out.ndim = src1.ndim ∧ out.dims = src1.dims ∧ out.len = src1.len ∧
      out.dtype = src1.dtype ∧
      ∀ i : Nat, (i : Int) < out.len →
        tl_load g out.data i =
          indexwise_value (E.tl_elew_getfunc src1.dtype) h src1 src2 elew_op i := by
  obtain ⟨hwf1, hm1, hl1, hd1, hblk1⟩ := check_tensor_spec h src1 hw1
  obtain ⟨hwf2, hm2, hl2, hd2, hblk2⟩ := check_tensor_spec h src2 hw2
  have hc : broadcastCompatible src1.dims src2.dims := by
    rw [← hdims]; exact broadcastCompatible_self _
  have hS : broadcastShape src1.dims src2.dims = src1.dims := by
    rw [← hdims]; exact broadcastShape_self _
  obtain ⟨g, hg, -, hv⟩ := elew_broadcast_none_spec E h src1 src2 elew_op hw1 hw2 hdt hc
    (by rw [hS]; exact check_tensor_fit h src1 hw1)
  rw [hS] at hg hv
  have hn1 := wfShape_ndim src1 hwf1
  have hwfo : wfShape
      { dtype := src1.dtype, len := src1.dims.prod, ndim := (src1.dims.length : Int),
        dims := src1.dims, data := h.length } :=
    ⟨by have := hwf1.1; simp only []; omega, by simp, hwf1.2.2⟩
  refine ⟨_, g, hg, hn1.symm, rfl, hl1.symm, rfl, fun i hi => ?_⟩
  simp only [] at hi ⊢
  have hi' : i < src1.dims.prod.toNat := by omega
  have hidx : ∀ t : tl_tensor, wfShape t → t.dims.prod ≤ INT_MAX → t.dims = src1.dims →
      ∑ j in Finset.range src1.dims.length,
        (tl_tensor_coords
            { dtype := src1.dtype, len := src1.dims.prod, ndim := (src1.dims.length : Int),
              dims := src1.dims, data := h.length } i
            (List.replicate src1.dims.length 0)).getD j 0 *
          (tl_compute_broadcast_strides t src1.dims.length src1.dims
            (List.replicate src1.dims.length 0)).getD j 0 = i := by
    intro t hwft hfitt ht
    exact aliased_index_identity t _ hwft hfitt hwfo (by rw [ht]; exact broadcastableTo_refl _)
      (by rw [ht]) i hi _ _ (by simp) (by simp)
  have hval := hv i hi'
  unfold tl_load at hval ⊢
  rw [Int.toNat_ofNat, hval]
  unfold elew_value indexwise_value tl_tensor_elew_broadcast_index
  simp only []
  rw [Int.toNat_ofNat, elew_broadcast_index_eq_sum, hidx src1 hwf1 (check_tensor_fit h src1 hw1) rfl,
    hidx src2 hwf2 (check_tensor_fit h src2 hw2) hdims.symm, load_append _ _ _ _ hd1, load_append _ _ _ _ hd2]

theorem elew_broadcast_same_shape_witness :
    tl_check_tensor [[(1 : Int), 2, 3, 4, 5, 6], [10, 20, 30, 40, 50, 60]]
      ⟨0, 6, 2, [2, 3], 0⟩ = true ∧
    tl_check_tensor [[(1 : Int), 2, 3, 4, 5, 6], [10, 20, 30, 40, 50, 60]]
      ⟨0, 6, 2, [2, 3], 1⟩ = true ∧
    tl_tensor_elew_broadcast (⟨0, fun _ a b _ => a + b⟩ : tl_dispatch Int Unit)
        [[1, 2, 3, 4, 5, 6], [10, 20, 30, 40, 50, 60]] ⟨0, 6, 2, [2, 3], 0⟩
        ⟨0, 6, 2, [2, 3], 1⟩ none () =
      .ok ⟨0, 6, 2, [2, 3], 2⟩
        [[1, 2, 3, 4, 5, 6], [10, 20, 30, 40, 50, 60], [11, 22, 33, 44, 55, 66]] ∧
    ∃ out g,
      tl_tensor_elew_broadcast (⟨0, fun _ a b _ => a + b⟩ : tl_dispatch Int Unit)
          [[1, 2, 3, 4, 5, 6], [10, 20, 30, 40, 50, 60]] ⟨0, 6, 2, [2, 3], 0⟩
          ⟨0, 6, 2, [2, 3], 1⟩ none () = .ok out g ∧
      out.ndim = 2 ∧ out.dims = [2, 3] ∧ out.len = 6 ∧ out.dtype = 0 ∧
      ∀ i : Nat, (i : Int) < out.len →
        tl_load g out.data i =
          indexwise_value (fun a b (_ : Unit) => a + b)
            [[(1 : Int), 2, 3, 4, 5, 6], [10, 20, 30, 40, 50, 60]] ⟨0, 6, 2, [2, 3], 0⟩
            ⟨0, 6, 2, [2, 3], 1⟩ () i :=
  ⟨by decide, by decide, by decide,
    elew_broadcast_same_shape (⟨0, fun _ a b _ => a + b⟩ : tl_dispatch Int Unit)
      [[1, 2, 3, 4, 5, 6], [10, 20, 30, 40, 50, 60]] ⟨0, 6, 2, [2, 3], 0⟩
      ⟨0, 6, 2, [2, 3], 1⟩ () (by decide) (by decide) rfl rfl⟩

/-! ## The stride deriver without the compatibility precondition -/

/-- C22: `tl_compute_broadcast_strides` on arbitrary output extents.  For a
well-formed input whose element count fits an `int`, any output rank `N`, any
output extents `D` and a buffer of `N` entries: the buffer keeps its length;
an iteration at an aligned axis whose input extent differs from both the
output extent and 1 writes no stride and multiplies the running `int` product
by the input's extent; the stride of every axis whose input extent differs
from the output extent is 0; every stride is 0 or the input's row-major stride
of the aligned axis (the product of all more minor input extents), and none is
negative. -/
theorem broadcast_strides_unchecked (t : tl_tensor) (hwf : wfShape t)
    (hfit : t.dims.prod ≤ INT_MAX) (N : Nat) (D buf : List Int) (hbuf : buf.length = N) :
    (tl_compute_broadcast_strides t N D buf).length = N ∧
    (∀ (i : Nat) (strides : List Int) (stride : Int), i < N → N ≤ i + t.dims.length →
      t.dims.getD (i + t.dims.length - N) 0 ≠ D.getD i 0 →
      t.dims.getD (i + t.dims.length - N) 0 ≠ 1 →
      tl_compute_broadcast_strides_loop t N D (i + 1) strides stride =
        tl_compute_broadcast_strides_loop t N D i strides
          (wrap_int (stride * t.dims.getD (i + t.dims.length - N) 0))) ∧
    ∀ j, j < N →
      (N ≤ j + t.dims.length → t.dims.getD (j + t.dims.length - N) 0 ≠ D.getD j 0 →
        (tl_compute_broadcast_strides t N D buf).getD j 0 = 0) ∧
      ((tl_compute_broadcast_strides t N D buf).getD j 0 = 0 ∨
        (N ≤ j + t.dims.length ∧
          t.dims.getD (j + t.dims.length - N) 0 = D.getD j 0 ∧
          (tl_compute_broadcast_strides t N D buf).getD j 0 =
            (t.dims.drop (j + t.dims.length - N + 1)).prod)) ∧
      0 ≤ (tl_compute_broadcast_strides t N D buf).getD j 0 := by
  have hn := wfShape_ndim t hwf
  refine ⟨by rw [broadcast_strides_length, hbuf], ?_, ?_⟩
  · intro i strides stride hi hal hne hne1
    have e : (t.ndim - ((N : Int) - i)).toNat = i + t.dims.length - N := by omega
    have hrd : rd t.dims (t.ndim - ((N : Int) - i)) =
        t.dims.getD (i + t.dims.length - N) 0 := by
      unfold rd
      rw [e]
    rw [strides_loop_succ, if_pos (show t.ndim - ((N : Int) - i) ≥ 0 by omega), hrd,
      if_neg hne, if_neg hne1]
  · intro j hj
    have hcf := broadcast_strides_getD t hwf.2.1 (le_of_lt hwf.1) hwf.2.2 hfit N D buf hbuf j hj
    by_cases hal : N ≤ j + t.dims.length
    · have e : (t.ndim - ((N : Int) - j)).toNat = j + t.dims.length - N := by omega
      have e2 : (t.ndim - ((N : Int) - j) + 1).toNat = j + t.dims.length - N + 1 := by omega
      have hrd : rd t.dims (t.ndim - ((N : Int) - j)) =
          t.dims.getD (j + t.dims.length - N) 0 := by
        unfold rd
        rw [e]
      rw [hrd, e2] at hcf
      by_cases heq : t.dims.getD (j + t.dims.length - N) 0 = D.getD j 0
      · rw [if_pos ⟨by omega, heq⟩] at hcf
        refine ⟨fun _ hne => absurd heq hne, Or.inr ⟨hal, heq, hcf⟩, ?_⟩
        rw [hcf]
        exact le_of_lt (prod_pos_of_drop t.dims hwf.2.2 _)
      · rw [if_neg (fun hh => heq hh.2)] at hcf
        exact ⟨fun _ _ => hcf, Or.inl hcf, by rw [hcf]⟩
    · rw [if_neg (fun hh => hal (by omega))] at hcf
      exact ⟨fun h' => absurd h' hal, Or.inl hcf, by rw [hcf]⟩

theorem broadcast_strides_unchecked_witness :
    wfShape ⟨0, 6, 2, [2, 3], 0⟩ ∧ [(2 : Int), 3].prod ≤ INT_MAX ∧
    tl_tensor_isbroadcastable ⟨0, 6, 2, [2, 3], 0⟩ ⟨0, 8, 2, [2, 4], 1⟩ = 0 ∧
    tl_compute_broadcast_strides ⟨0, 6, 2, [2, 3], 0⟩ 2 [2, 4] [7, 7] = [3, 0] ∧
    ((tl_compute_broadcast_strides ⟨0, 6, 2, [2, 3], 0⟩ (2 : Nat) [2, 4] [7, 7]).length = 2 ∧
    (∀ (i : Nat) (strides : List Int) (stride : Int), i < 2 →
      2 ≤ i + [(2 : Int), 3].length →
      [(2 : Int), 3].getD (i + [(2 : Int), 3].length - 2) 0 ≠ [(2 : Int), 4].getD i 0 →
      [(2 : Int), 3].getD (i + [(2 : Int), 3].length - 2) 0 ≠ 1 →
      tl_compute_broadcast_strides_loop ⟨0, 6, 2, [2, 3], 0⟩ (2 : Nat) [2, 4] (i + 1) strides
          stride =
        tl_compute_broadcast_strides_loop ⟨0, 6, 2, [2, 3], 0⟩ (2 : Nat) [2, 4] i strides
          (wrap_int (stride * [(2 : Int), 3].getD (i + [(2 : Int), 3].length - 2) 0))) ∧
    ∀ j, j < 2 →
      (2 ≤ j + [(2 : Int), 3].length →
        [(2 : Int), 3].getD (j + [(2 : Int), 3].length - 2) 0 ≠ [(2 : Int), 4].getD j 0 →
        (tl_compute_broadcast_strides ⟨0, 6, 2, [2, 3], 0⟩ (2 : Nat) [2, 4] [7, 7]).getD j 0 =
          0) ∧
      ((tl_compute_broadcast_strides ⟨0, 6, 2, [2, 3], 0⟩ (2 : Nat) [2, 4] [7, 7]).getD j 0 =
          0 ∨
        (2 ≤ j + [(2 : Int), 3].length ∧
          [(2 : Int), 3].getD (j + [(2 : Int), 3].length - 2) 0 = [(2 : Int), 4].getD j 0 ∧
          (tl_compute_broadcast_strides ⟨0, 6, 2, [2, 3], 0⟩ (2 : Nat) [2, 4] [7, 7]).getD j
              0 =
            ([(2 : Int), 3].drop (j + [(2 : Int), 3].length - 2 + 1)).prod)) ∧
      0 ≤ (tl_compute_broadcast_strides ⟨0, 6, 2, [2, 3], 0⟩ (2 : Nat) [2, 4] [7, 7]).getD j
        0) :=
  ⟨by simp [wfShape], by decide, by decide, by decide,
    broadcast_strides_unchecked ⟨0, 6, 2, [2, 3], 0⟩ (by simp [wfShape]) (by decide) 2 [2, 4]
      [7, 7] rfl⟩

end Tofu
